import Mathlib

/-!
# blktap `drivers/lock.c`: dot-locking over a shared directory

A shallow embedding of `lock.c` (name synthesis, the directory scanner
`lock_holder`, `lock`, `unlock`, `lock_delta`) over an explicit model of the
directory the lock files live in, followed by theorems about it.

Modelling conventions
* C strings are lists of characters (`Str`); a possibly-null `char *` argument
  is an `Option Str`.
* C truth values (`force`, `readonly`, the result of an `eval_func`) are `Bool`.
* Every library / system call the program makes goes through `tick`: it is
  appended to the trace of the `World`, and the environment `Env.fault` may make
  it fail (`EIO`, `ENOMEM`, ...) independently of the directory contents.
* A path is resolved at its last `'/'` into a directory part and a base name,
  exactly as `lock_holder` and `lock_delta` do with `strrchr`; a path without
  `'/'` lives in the directory `"."`.  Directories are identified by that
  literal prefix.  `World.files` holds the files of the directories; the
  entries `"."` and `".."` that every directory has are delivered by `opendir`
  in front of them, and `lstat` answers for them with what the environment
  says about the directory (`Env.dirstat`).
* `strncpy(dirname, path, numbytes)` writes no terminator, so the string that
  `lock_holder` and `lock_delta` hand to `opendir` is the directory prefix
  followed by whatever the chunk from `malloc` held behind it (`Env.junk`).
* A forcing scan that builds a name too long for `uname` writes past the end
  of the chunk (`Call.overrun`); `lock` has no result for such a run.
* Time is counted in whole seconds (`World.clock`); `usleep` of less than a
  second leaves it unchanged, `select` with a timeout advances it.
* `close` only feeds a log message in the source and is not a step of the model.
-/

namespace Lock

/-! ## Strings and names -/

/-- C string: the characters before the terminating NUL. -/
abbrev Str := List Char

/-- `#define LF_POSTFIX ".xenlk"` -/
def LF_POSTFIX : Str := ".xenlk".toList

/-- `#define LFXL_FORMAT LF_POSTFIX ".%s.%s.x%s"` -/
def LFXL_FORMAT : Str := LF_POSTFIX ++ ".%s.%s.x%s".toList

/-- `#define LFFL_FORMAT LF_POSTFIX ".%s.%s.f%s"` -/
def LFFL_FORMAT : Str := LF_POSTFIX ++ ".%s.%s.f%s".toList

/-- `#define RETRY_MAX 16` -/
def RETRY_MAX : Nat := 16

/-- `sprintf` for formats whose only conversion is `%s`: each `%s` is replaced
by the next argument, every other character is copied. -/
def sprintf : Str → List Str → Str
  | [], _ => []
  | '%' :: 's' :: rest, a :: more => a ++ sprintf rest more
  | c :: rest, args => c :: sprintf rest args

/-- `strrchr(s, c)`: `none` when `c` does not occur in `s`, otherwise the
characters before the last occurrence and the characters after it. -/
def strrchr (c : Char) : Str → Option (Str × Str)
  | [] => none
  | x :: xs =>
    match strrchr c xs with
    | some (pre, post) => some (x :: pre, post)
    | none => if x = c then some ([], xs) else none

/-- The directory part of a path, as computed in `lock_holder` and `lock_delta`:
`"."` without a `'/'`, else the `ptr - path` bytes before the last `'/'`. -/
def dir_of (path : Str) : Str :=
  match strrchr '/' path with
  | some (pre, _) => pre
  | none => ".".toList

/-- The base name of a path: `p ? p + 1 : path` for `p = strrchr(path, '/')`. -/
def base_of (path : Str) : Str :=
  match strrchr '/' path with
  | some (_, post) => post
  | none => path

/-- The mode suffix `readonly ? "r" : "w"`. -/
def mode_str (readonly : Bool) : Str := if readonly then "r".toList else "w".toList

/-- The string built by `create_lockfn`: `strcpy` then `strcat` of `LF_POSTFIX`. -/
def lockfn_str (fn_to_lock : Str) : Str := fn_to_lock ++ LF_POSTFIX

/-- The number of bytes `create_lockfn_link` allocates. -/
def link_alloc (fn_to_lock hostname uuid : Str) : Nat :=
  fn_to_lock.length + LF_POSTFIX.length + hostname.length + uuid.length + 8

/-- The string built by `create_lockfn_link`: `strcpy` of the target, then
`sprintf(ptr, format, hostname, uuid, readonly ? "r" : "w")` at its end. -/
def link_str (fn_to_lock format hostname uuid : Str) (readonly : Bool) : Str :=
  fn_to_lock ++ sprintf format [hostname, uuid, mode_str readonly]

/-- `writer_eval`: the last character of the name is `'w'`. -/
def writer_eval (name : Str) (_readonly : Bool) : Bool :=
  name.getLast? == some 'w'

/-- `reader_eval`: the last character of the name is `'r'` and the caller is
not read-only. -/
def reader_eval (name : Str) (readonly : Bool) : Bool :=
  name.getLast? == some 'r' && !readonly

/-! ## The environment: directory contents, calls and faults -/

/-- Modelled from the spec: the status codes of `lock.h` (not among the
sources), one constructor per distinct kind; `LOCK_OK` is the only one the
program tests as zero. -/
inductive Status
  | LOCK_OK
  | LOCK_EBADPARM
  | LOCK_ENOMEM
  | LOCK_ESTAT
  | LOCK_EHELD_WR
  | LOCK_EHELD_RD
  | LOCK_EOPEN
  | LOCK_EXLOCK_OPEN
  | LOCK_EXLOCK_WRITE
  | LOCK_EINODE
  | LOCK_EUPDATE
  | LOCK_ENOLOCK
  deriving DecidableEq

open Status

/-- A directory entry: the directory it is in, its name there, the inode it
names, and that inode's bytes and modification time. -/
structure Entry where
  dir : Str
  name : Str
  ino : Nat
  content : Str
  mtime : Nat
  deriving DecidableEq

/-- The library and system calls of `lock.c`. -/
inductive Call
  | malloc (size : Nat)
  | gethostname
  | random
  | open_excl (path : Str)
  | open_rdwr (path : Str)
  | open_creat (path : Str)
  | read (path : Str) (count : Nat)
  | lseek (path : Str)
  | write (path : Str) (data : Str)
  | link (path newpath : Str)
  | lstat (path : Str)
  | unlink (path : Str)
  | opendir (dirname : Str)
  | usleep
  | select (secs : Nat)
  /-- Not a call of its own: the `strcpy`/`strcat` sequence that builds `path` in
  a chunk of `room` bytes which is too small for it. -/
  | overrun (room : Nat) (path : Str)
  deriving DecidableEq

/-- The state the program runs against. -/
structure World where
  /-- Every entry of every directory. -/
  files : List Entry
  /-- The inode number the next created file gets. -/
  next_ino : Nat
  /-- Wall-clock time in seconds. -/
  clock : Nat
  /-- The calls made so far, most recent first. -/
  trace : List Call
  deriving DecidableEq

/-- What the program cannot control. `fault n c` makes the call `c`, issued as
the `n`-th call, fail whatever the directory holds; `random n` is the value of
`random()` there. `LEASE_TIME_SECS` is the constant of `lock.h`. `junk n` are
the bytes, up to the first zero byte, that the chunk returned by `malloc` as
the `n`-th call holds behind the prefix that `strncpy` later copies into it.
`dirstat n path` is what `lstat`, as the `n`-th call, finds for a `path` that
ends in `"."` or `".."`: the directory itself. -/
structure Env where
  hostname : Str
  fault : Nat → Call → Bool
  random : Nat → Nat
  LEASE_TIME_SECS : Nat
  junk : Nat → Str
  dirstat : Nat → Str → Entry

/-- No call fails for a reason outside the directory contents. -/
def Env.fault_free (env : Env) : Prop := ∀ n c, env.fault n c = false

/-- Every chunk that `malloc` returns holds a zero byte where the copied
directory prefix ends, as a chunk of fresh memory does. -/
def Env.clean (env : Env) : Prop := ∀ n, env.junk n = []

/-- Is the name one of the two entries every directory has? -/
def is_dot (name : Str) : Bool := name == ".".toList || name == "..".toList

/-- The string `opendir` reads at `dirname` in `lock_holder` and `lock_delta`
(lines 119-127 and 484-493): `"."` from `strcpy` when `path` has no `'/'`;
otherwise the `ptr - path` bytes that `strncpy` copied, followed by the bytes
`junk` that the chunk held behind them. -/
def dirname_of (junk path : Str) : Str :=
  match strrchr '/' path with
  | some (pre, _) => pre ++ junk
  | none => ".".toList

/-- Is the entry of the trace the mark of a write past the end of a chunk? -/
def Call.is_overrun : Call → Bool
  | .overrun _ _ => true
  | _ => false

/-- The number of times the run so far has written past the end of a chunk. -/
def World.overruns (w : World) : Nat := w.trace.countP Call.is_overrun

/-- Does directory entry `e` carry the name `path` resolves to? -/
def same_file (path : Str) (e : Entry) : Bool :=
  e.dir == dir_of path && e.name == base_of path

/-- The entry a path names, if any. -/
def World.lookup (w : World) (path : Str) : Option Entry :=
  w.files.find? (same_file path)

/-- Is there an entry of that name? -/
def World.has (w : World) (path : Str) : Bool := (w.lookup path).isSome

/-- A new empty file under `path` with a fresh inode. -/
def World.create (w : World) (path : Str) : World :=
  { w with
    files := w.files ++ [⟨dir_of path, base_of path, w.next_ino, [], w.clock⟩]
    next_ino := w.next_ino + 1 }

/-- The directory without the entry `path` names. -/
def World.remove (w : World) (path : Str) : World :=
  { w with files := w.files.filter (fun e => !same_file path e) }

/-- The world after the call `c` has been recorded. -/
def World.log (w : World) (c : Call) : World := { w with trace := c :: w.trace }

/-- Record a call and ask the environment whether it may succeed. -/
def tick (env : Env) (c : Call) (w : World) : Bool × World :=
  (!env.fault w.trace.length c, w.log c)

/-- `malloc(size)`: `true` for a non-null result. -/
def malloc (env : Env) (size : Nat) (w : World) : Bool × World :=
  tick env (.malloc size) w

/-- `gethostname(hostname, sizeof(hostname))`. -/
def gethostname (env : Env) (w : World) : Option Str × World :=
  match tick env .gethostname w with
  | (true, w1) => (some env.hostname, w1)
  | (false, w1) => (none, w1)

/-- `random()`. -/
def random (env : Env) (w : World) : Nat × World :=
  (env.random w.trace.length, (tick env .random w).2)

/-- `open(path, O_WRONLY | O_CREAT | O_EXCL, 0644)`: fails when the name exists. -/
def open_excl (env : Env) (path : Str) (w : World) : Bool × World :=
  match tick env (.open_excl path) w with
  | (true, w1) => if w1.has path then (false, w1) else (true, w1.create path)
  | (false, w1) => (false, w1)

/-- `open(path, O_RDWR, 0644)`: fails when the name does not exist. -/
def open_rdwr (env : Env) (path : Str) (w : World) : Bool × World :=
  match tick env (.open_rdwr path) w with
  | (true, w1) => (w1.has path, w1)
  | (false, w1) => (false, w1)

/-- `open(path, O_WRONLY | O_CREAT, 0644)`: creates the file when it is not
there, and leaves an existing one as it is (no `O_TRUNC`). -/
def open_creat (env : Env) (path : Str) (w : World) : Bool × World :=
  match tick env (.open_creat path) w with
  | (true, w1) => if w1.has path then (true, w1) else (true, w1.create path)
  | (false, w1) => (false, w1)

/-- `read(fd, buf, count)` from offset 0 of the file opened as `path`: the bytes
read (fewer than `count` when the file is shorter), `none` for `-1`. -/
def read (env : Env) (path : Str) (count : Nat) (w : World) : Option Str × World :=
  match tick env (.read path count) w with
  | (true, w1) => ((w1.lookup path).map (fun e => e.content.take count), w1)
  | (false, w1) => (none, w1)

/-- `lseek(fd, 0, SEEK_SET)`: `true` unless it returns `-1`. -/
def lseek (env : Env) (path : Str) (w : World) : Bool × World :=
  tick env (.lseek path) w

/-- The directory after `data` has been written at offset 0 of the file `path`
names: the bytes replace the start of the file, and its modification time
becomes the current time. -/
def World.write_at (w : World) (path data : Str) : World :=
  { w with files := w.files.map (fun e =>
      if same_file path e then
        { e with content := data ++ e.content.drop data.length, mtime := w.clock }
      else e) }

/-- The directory with `newpath` as one more name for the inode of entry `e`. -/
def World.add_link (w : World) (e : Entry) (newpath : Str) : World :=
  { w with files := w.files ++ [{ e with dir := dir_of newpath, name := base_of newpath }] }

/-- `write(fd, data, strlen(data))` at offset 0 of the file opened as `path`:
`true` when all bytes were written; a failed write leaves the file as it was. -/
def write (env : Env) (path : Str) (data : Str) (w : World) : Bool × World :=
  match tick env (.write path data) w with
  | (true, w1) => (true, w1.write_at path data)
  | (false, w1) => (false, w1)

/-- `link(path, newpath)`: a second name for the inode of `path`; fails when
`path` is missing or `newpath` exists (`EEXIST`). -/
def link (env : Env) (path newpath : Str) (w : World) : Bool × World :=
  match tick env (.link path newpath) w with
  | (true, w1) =>
    match w1.lookup path with
    | some e => if w1.has newpath then (false, w1) else (true, w1.add_link e newpath)
    | none => (false, w1)
  | (false, w1) => (false, w1)

/-- `lstat(path, &buf)`: the entry (inode number, mtime), `none` for `-1`. A
path that ends in `"."` or `".."` names a directory. -/
def lstat (env : Env) (path : Str) (w : World) : Option Entry × World :=
  match tick env (.lstat path) w with
  | (true, w1) =>
    (if is_dot (base_of path) then some (env.dirstat w.trace.length path) else w1.lookup path, w1)
  | (false, w1) => (none, w1)

/-- `unlink(path)`: `true` unless it returns `-1`. -/
def unlink (env : Env) (path : Str) (w : World) : Bool × World :=
  match tick env (.unlink path) w with
  | (true, w1) => if w1.has path then (true, w1.remove path) else (false, w1)
  | (false, w1) => (false, w1)

/-- `opendir(dirname)` followed by the `readdir` sequence: the `d_name`s of
the directory, `"."` and `".."` first; `none` when it cannot be opened, as is
the case for the empty name (`ENOENT`). Whether a directory of another name
exists is up to the environment: `Env.fault` makes the call fail for a name
that is no directory. -/
def opendir (env : Env) (dirname : Str) (w : World) : Option (List Str) × World :=
  match tick env (.opendir dirname) w with
  | (true, w1) =>
    (if dirname = [] then none
      else some (".".toList :: "..".toList ::
        (w1.files.filter (fun e => e.dir == dirname)).map (fun e => e.name)), w1)
  | (false, w1) => (none, w1)

/-- `XSLEEP`: `usleep(random() & 0x7ffff)`, at most about half a second. -/
def XSLEEP (env : Env) (w : World) : World :=
  (tick env .usleep (random env w).2).2

/-- `select(0, 0, 0, 0, &timeout)` with `timeout.tv_sec = secs`. -/
def select (env : Env) (secs : Nat) (w : World) : World :=
  let w1 := (tick env (.select secs) w).2
  { w1 with clock := w1.clock + secs }

/-! ## The program -/

/-- `create_lockfn`: `none` is the null result of a failed allocation. -/
def create_lockfn (env : Env) (fn_to_lock : Str) (w : World) : Option Str × World :=
  match malloc env (fn_to_lock.length + LF_POSTFIX.length + 1) w with
  | (false, w1) => (none, w1)
  | (true, w1) => (some (lockfn_str fn_to_lock), w1)

/-- `create_lockfn_link`: `none` when `gethostname` or the allocation fails. -/
def create_lockfn_link (env : Env) (fn_to_lock format uuid : Str) (readonly : Bool)
    (w : World) : Option Str × World :=
  match gethostname env w with
  | (none, w1) => (none, w1)
  | (some hostname, w1) =>
    match malloc env (link_alloc fn_to_lock hostname uuid) w1 with
    | (false, w2) => (none, w2)
    | (true, w2) => (some (link_str fn_to_lock format hostname uuid readonly), w2)

/-- The name `strcpy(uname, dirname); strcat(uname, "/"); strcat(uname, d_name)`
builds in the chunk `uname` of `room` bytes: a name that does not fit there
with its terminator is written past the end of the chunk. -/
def build_uname (room : Nat) (dirname d_name : Str) (w : World) : World :=
  if (dirname ++ "/".toList ++ d_name).length + 1 ≤ room then w
  else w.log (.overrun room (dirname ++ "/".toList ++ d_name))

/-- The `readdir` loop of `lock_holder` over the remaining entries `names`:
the result is `(status, *stole, world)`. An entry is looked at when its name is
none of `p1`, `p2`, `p3` (the base names of `fn`, `lockfn`, `lockfn_link`) and
starts with `p1`. `room` is the size of the chunk `uname`. -/
def scan_dir (env : Env) (p1 p2 p3 dirname : Str) (room : Nat) (force readonly : Bool)
    (eval : Str → Bool → Bool) : List Str → Bool → World → Bool × Bool × World
  | [], stole, w => (false, stole, w)
  | d_name :: rest, stole, w =>
    if d_name ≠ p1 ∧ d_name ≠ p2 ∧ d_name ≠ p3 ∧ p1.isPrefixOf d_name then
      if force then
        scan_dir env p1 p2 p3 dirname room force readonly eval rest true
          (unlink env (dirname ++ "/".toList ++ d_name) (build_uname room dirname d_name w)).2
      else if eval d_name readonly then (true, stole, w)
      else scan_dir env p1 p2 p3 dirname room force readonly eval rest stole w
    else scan_dir env p1 p2 p3 dirname room force readonly eval rest stole w

/-- `lock_holder`: scan the directory whose name is read at `dirname`; the
result is `(status, *stole, world)`. The chunk of `dirname` is the one the
first `malloc` returns. -/
def lock_holder (env : Env) (fn lockfn lockfn_link : Str) (force readonly : Bool)
    (eval : Str → Bool → Bool) (w : World) : Bool × Bool × World :=
  match malloc env lockfn.length w with
  | (dirname_ok, w1) =>
    match malloc env (lockfn_link.length + 8) w1 with
    | (uname_ok, w2) =>
      if !dirname_ok then (false, false, w2)
      else if !uname_ok then (false, false, w2)
      else
        match opendir env (dirname_of (env.junk w.trace.length) lockfn) w2 with
        | (none, w3) => (false, false, w3)
        | (some names, w3) =>
          scan_dir env (base_of fn) (base_of lockfn) (base_of lockfn_link)
            (dirname_of (env.junk w.trace.length) lockfn) (lockfn_link.length + 8)
            force readonly eval names false w3

/-- The local variables of `lock` that live across its labels. -/
structure Locals where
  retry_attempts : Nat
  status : Status
  stealx : Bool
  stealw : Bool
  stealr : Bool
  deriving DecidableEq

/-- Where control goes after a stretch of `lock`. -/
inductive Next
  /-- On to the end of the function (line 394) with these locals. -/
  | leave (l : Locals) (w : World)
  /-- `goto try_again;` -/
  | again (l : Locals) (w : World)

/-- From the label `skip_scan` (lines 370-392): write the final lock file. A
failed `open` sets `LOCK_EOPEN`, a failed `write` goes back to `try_again`. -/
def skip_scan (env : Env) (lockfn_flink : Str) (l : Locals) (w : World) : Next :=
  if l.status = LOCK_OK then
    match open_creat env lockfn_flink w with
    | (false, w1) => .leave { l with status := LOCK_EOPEN } w1
    | (true, w1) =>
      match write env lockfn_flink lockfn_flink w1 with
      | (false, w2) => .again { l with status := LOCK_EUPDATE } (XSLEEP env w2)
      | (true, w2) => .leave l w2
  else .leave l w

/-- From the label `finish` (lines 351-368): the reassert check and the two
directory scans. -/
def finish (env : Env) (fn_to_lock lockfn lockfn_flink : Str) (force readonly : Bool)
    (l : Locals) (w : World) : Next :=
  if l.status = LOCK_OK then
    match lstat env lockfn_flink w with
    | (some _, w1) => skip_scan env lockfn_flink l w1
    | (none, w1) =>
      match lock_holder env fn_to_lock lockfn lockfn_flink force readonly writer_eval w1 with
      | (true, stole, w2) =>
        skip_scan env lockfn_flink { l with stealw := stole, status := LOCK_EHELD_WR } w2
      | (false, stole, w2) =>
        match lock_holder env fn_to_lock lockfn lockfn_flink force readonly reader_eval w2 with
        | (true, stole2, w3) =>
          skip_scan env lockfn_flink
            { l with stealw := stole, stealr := stole2, status := LOCK_EHELD_RD } w3
        | (false, stole2, w3) =>
          skip_scan env lockfn_flink { l with stealw := stole, stealr := stole2 } w3
  else skip_scan env lockfn_flink l w

/-- The cleanup of a failed `lstat` (lines 308-320): `status = LOCK_ESTAT; goto finish`. -/
def stat_failed (env : Env) (fn_to_lock lockfn lockfn_xlink lockfn_flink : Str)
    (force readonly : Bool) (l : Locals) (w : World) : Next :=
  let w1 := (unlink env lockfn w).2
  let w2 := (unlink env lockfn_xlink w1).2
  finish env fn_to_lock lockfn lockfn_flink force readonly
    { l with status := LOCK_ESTAT } (XSLEEP env w2)

/-- The `while (retry_attempts++ < RETRY_MAX)` loop (lines 299-349). Every path
through its body leaves it with a `goto`, so the body runs at most once. -/
def link_loop (env : Env) (fn_to_lock lockfn lockfn_xlink lockfn_flink : Str)
    (force readonly : Bool) (l : Locals) (w : World) : Next :=
  let l1 := { l with retry_attempts := l.retry_attempts + 1 }
  if l.retry_attempts < RETRY_MAX then
    let w1 := (link env lockfn lockfn_xlink w).2
    match lstat env lockfn w1 with
    | (none, w2) =>
      stat_failed env fn_to_lock lockfn lockfn_xlink lockfn_flink force readonly l1 w2
    | (some stat1, w2) =>
      match lstat env lockfn_xlink w2 with
      | (none, w3) =>
        stat_failed env fn_to_lock lockfn lockfn_xlink lockfn_flink force readonly l1 w3
      | (some stat2, w3) =>
        if stat1.ino = stat2.ino then
          finish env fn_to_lock lockfn lockfn_flink force readonly
            { l1 with status := LOCK_OK } (unlink env lockfn_xlink w3).2
        else
          let w4 := (unlink env lockfn w3).2
          let w5 := (unlink env lockfn_xlink w4).2
          .again { l1 with status := LOCK_EINODE } (XSLEEP env w5)
  else finish env fn_to_lock lockfn lockfn_flink force readonly l1 w

/-- From the label `skip` (lines 276-297): write the exclusive lock file, then
the link loop. -/
def skip (env : Env) (fn_to_lock lockfn lockfn_xlink lockfn_flink : Str)
    (force readonly : Bool) (l : Locals) (w : World) : Next :=
  match write env lockfn lockfn_xlink w with
  | (false, w1) =>
    let w2 := XSLEEP env w1
    .again { l with status := LOCK_EXLOCK_WRITE } (unlink env lockfn w2).2
  | (true, w1) =>
    link_loop env fn_to_lock lockfn lockfn_xlink lockfn_flink force readonly l w1

/-- From the label `force_lock` (lines 259-271). -/
def force_lock (env : Env) (lockfn : Str) (force : Bool) (l : Locals) (w : World) : Next :=
  if force then
    .again { l with stealx := true, status := LOCK_EXLOCK_OPEN }
      (XSLEEP env (unlink env lockfn w).2)
  else .again { l with status := LOCK_EXLOCK_OPEN } (XSLEEP env w)

/-- From the label `try_again` (line 210) to the next `goto try_again` or to
the end of the function. -/
def attempt (env : Env) (fn_to_lock lockfn lockfn_xlink lockfn_flink : Str)
    (force readonly : Bool) (l : Locals) (w : World) : Next :=
  let l1 := { l with retry_attempts := l.retry_attempts + 1 }
  if l.retry_attempts > RETRY_MAX then
    finish env fn_to_lock lockfn lockfn_flink force readonly l1 w
  else
    match open_excl env lockfn w with
    | (true, w1) =>
      skip env fn_to_lock lockfn lockfn_xlink lockfn_flink force readonly l1 w1
    | (false, w1) =>
      match open_rdwr env lockfn w1 with
      | (false, w2) => force_lock env lockfn force l1 w2
      | (true, w2) =>
        match malloc env (lockfn_xlink.length + 1) w2 with
        | (false, w3) =>
          finish env fn_to_lock lockfn lockfn_flink force readonly
            { l1 with status := LOCK_ENOMEM } w3
        | (true, w3) =>
          match read env lockfn lockfn_xlink.length w3 with
          | (none, w4) => force_lock env lockfn force l1 w4
          | (some buf, w4) =>
            if buf.length ≠ lockfn_xlink.length then force_lock env lockfn force l1 w4
            else if buf.take (lockfn_xlink.length - 1) =
                lockfn_xlink.take (lockfn_xlink.length - 1) then
              match lseek env lockfn w4 with
              | (false, w5) => force_lock env lockfn force l1 w5
              | (true, w5) =>
                skip env fn_to_lock lockfn lockfn_xlink lockfn_flink force readonly l1 w5
            else force_lock env lockfn force l1 w4

/-- The `try_again` loop, unrolled at most `fuel` times: the locals and the
world with which the end of the function is reached, `none` when the fuel runs
out before that. -/
def try_again (env : Env) (fn_to_lock lockfn lockfn_xlink lockfn_flink : Str)
    (force readonly : Bool) : Nat → Locals → World → Option (Locals × World)
  | 0, _, _ => none
  | fuel + 1, l, w =>
    match attempt env fn_to_lock lockfn lockfn_xlink lockfn_flink force readonly l w with
    | .leave l1 w1 => some (l1, w1)
    | .again l1 w1 =>
      try_again env fn_to_lock lockfn lockfn_xlink lockfn_flink force readonly fuel l1 w1

/-- The end of `lock` (lines 394-415): the quiet time after a steal, the
unconditional `unlink(lockfn)`, `return status`. -/
def lock_exit (env : Env) (lockfn : Str) (force : Bool) (l : Locals) (w : World) :
    Status × World :=
  let w1 := if l.status = LOCK_OK ∧ force = true ∧
      (l.stealx = true ∨ l.stealw = true ∨ l.stealr = true)
    then select env env.LEASE_TIME_SECS w else w
  (l.status, (unlink env lockfn w1).2)

/-- `lock(fn_to_lock, uuid, force, readonly)`. When `create_lockfn` fails
`lockfn` is null and the final `unlink(lockfn)` has no effect. A run in which
a scan has written past the end of `uname` has no result. -/
def lock (env : Env) (fn_to_lock uuid : Option Str) (force readonly : Bool) (w : World) :
    Option (Status × World) :=
  match fn_to_lock, uuid with
  | some fn, some id =>
    match create_lockfn env fn w with
    | (none, w1) => some (LOCK_ENOMEM, w1)
    | (some lockfn, w1) =>
      match create_lockfn_link env fn LFXL_FORMAT id readonly w1 with
      | (none, w2) =>
        some (lock_exit env lockfn force ⟨0, LOCK_ENOMEM, false, false, false⟩ w2)
      | (some lockfn_xlink, w2) =>
        match create_lockfn_link env fn LFFL_FORMAT id readonly w2 with
        | (none, w3) =>
          some (lock_exit env lockfn force ⟨0, LOCK_ENOMEM, false, false, false⟩ w3)
        | (some lockfn_flink, w3) =>
          match try_again env fn lockfn lockfn_xlink lockfn_flink force readonly (RETRY_MAX + 2)
              ⟨0, LOCK_OK, false, false, false⟩ w3 with
          | none => none
          | some r =>
            if r.2.overruns = w.overruns then some (lock_exit env lockfn force r.1 r.2)
            else none
  | _, _ => some (LOCK_EBADPARM, w)

/-- `unlock(fn_to_unlock, uuid, readonly)`. -/
def unlock (env : Env) (fn_to_unlock uuid : Option Str) (readonly : Bool) (w : World) :
    Status × World :=
  match fn_to_unlock, uuid with
  | some fn, some id =>
    match create_lockfn_link env fn LFFL_FORMAT id readonly w with
    | (none, w1) => (LOCK_ENOMEM, w1)
    | (some lockfn_link, w1) => (LOCK_OK, (unlink env lockfn_link w1).2)
  | _, _ => (LOCK_EBADPARM, w)

/-- The directory and base name a path resolves to. -/
def key (path : Str) : Str × Str := (dir_of path, base_of path)

/-- The name, within the directory of `T`, of the final lock `L_f` of the
owner `owner` on the host `host`: `basename(T).xenlk.<host>.<owner>.f<mode>`. -/
def final_name (T host owner : Str) (readonly : Bool) : Str :=
  base_of T ++ sprintf LFFL_FORMAT [host, owner, mode_str readonly]

/-- Entry `e` is a final lock file for the target `T` in mode `readonly`: it is
in the directory of `T` and carries the name `L_f` of some host and owner. -/
def is_final_mode (T : Str) (readonly : Bool) (e : Entry) : Prop :=
  e.dir = dir_of T ∧
    ∃ host owner, '/' ∉ host ∧ '/' ∉ owner ∧ e.name = final_name T host owner readonly

/-- Entry `e` is a final lock file for the target `T`, of either mode. -/
def is_final (T : Str) (e : Entry) : Prop := ∃ readonly, is_final_mode T readonly e

/-- Entry `e` is a sibling that the scans of `lock_holder` and `lock_delta` for
the target `T` look at by its name: it is in the directory of `T`, its name
starts with the base name of `T` and is not that base name. -/
def is_sibling (T : Str) (e : Entry) : Prop :=
  e.dir = dir_of T ∧ base_of T <+: e.name ∧ e.name ≠ base_of T

/-- The directory of `T` holds, next to `T` itself, nothing whose name starts
with the base name of `T` except final lock files for `T`. -/
def only_finals (T : Str) (w : World) : Prop :=
  ∀ e ∈ w.files, is_sibling T e → is_final T e

/-- Does the scan of `lock_holder` for the names `fn`, `lockfn`, `lockfn_link`
look at the directory entry named `d_name`? (Lines 145-148: the name is none of
the three base names and starts with the base name of `fn`.) -/
def scanned (fn lockfn lockfn_link d_name : Str) : Bool :=
  decide (d_name ≠ base_of fn ∧ d_name ≠ base_of lockfn ∧ d_name ≠ base_of lockfn_link) &&
    (base_of fn).isPrefixOf d_name

/-- The names `readdir` delivers for the directory of `lockfn`. -/
def listing (lockfn : Str) (w : World) : List Str :=
  (w.files.filter (fun e => e.dir == dir_of lockfn)).map (fun e => e.name)

/-- Does a non-forcing scan with the classifier `eval` find a conflict? -/
def conflict (fn lockfn lockfn_link : Str) (readonly : Bool) (eval : Str → Bool → Bool)
    (w : World) : Bool :=
  (listing lockfn w).any (fun d => scanned fn lockfn lockfn_link d && eval d readonly)

/-- A classifier that looks at the last character of a name for an `r` or a
`w` finds nothing in `"."` and `".."`. -/
def blind_to_dots (eval : Str → Bool → Bool) : Prop :=
  ∀ readonly, eval ".".toList readonly = false ∧ eval "..".toList readonly = false

/-- The world in which a fault-free `lock` that found neither `X(T)` nor its
`L_x` holds the exclusive phase: `X(T)` has been created with a fresh inode and
holds the text `Lx`, the link `Lx` has been made, compared and removed. -/
def excl_world (X Lx : Str) (w : World) : World :=
  { files := w.files ++ [⟨dir_of X, base_of X, w.next_ino, Lx, w.clock⟩]
    next_ino := w.next_ino + 1
    clock := w.clock
    trace := [.unlink Lx, .lstat Lx, .lstat X, .link X Lx, .write X Lx, .open_excl X] ++ w.trace }

/-- The final lock file `Lf` rewritten at time `now`: its bytes are overwritten
from offset 0 with the name and its modification time is set. -/
def refresh (Lf : Str) (now : Nat) (e : Entry) : Entry :=
  if same_file Lf e then { e with content := Lf ++ e.content.drop Lf.length, mtime := now } else e

/-- The test `lock` makes on the bytes of an existing `X(T)` (lines 232-238):
`read` delivers `strlen(Lx)` bytes and they agree with the caller's record `Lx`
on all but the last character. -/
def owns_record (Lx content : Str) : Bool :=
  decide ((content.take Lx.length).length = Lx.length) &&
    decide ((content.take Lx.length).take (Lx.length - 1) = Lx.take (Lx.length - 1))

/-- Is the call one that a pass through `try_again` makes in front of an `X(T)`
it may not take: the exclusive create, the `open` for reading, the buffer, the
`read`, or the random sleep? None of them changes the directory. -/
def refused_call (X : Str) : Call → Bool
  | .open_excl p => p == X
  | .open_rdwr p => p == X
  | .malloc _ => true
  | .read p _ => p == X
  | .random => true
  | .usleep => true
  | _ => false

/-- The world in which `lock` reaches the label `try_again` when none of the
five calls of its name synthesis failed. -/
def names_world (env : Env) (T owner : Str) (w : World) : World :=
  ((((w.log (.malloc (T.length + LF_POSTFIX.length + 1))).log .gethostname).log
    (.malloc (link_alloc T env.hostname owner))).log .gethostname).log
    (.malloc (link_alloc T env.hostname owner))

/-- The world a stretch of `lock` ends in. -/
def Next.world : Next → World
  | .leave _ w => w
  | .again _ w => w

/-- A stretch of `lock` either reaches the end of the function, or goes back to
`try_again` with a failure status and a retry counter above `n`. -/
def Next.progress (n : Nat) : Next → Prop
  | .leave _ _ => True
  | .again l _ => l.status ≠ LOCK_OK ∧ n < l.retry_attempts

/-- A stretch of `lock` that reaches the end of the function with status
`LOCK_OK` has written `Lf` and left no `Lx`. -/
def Next.held (Lx Lf : Str) : Next → Prop
  | .leave l w => l.status = LOCK_OK → w.has Lf = true ∧ w.has Lx = false
  | .again _ _ => True

/-- A stretch of `lock` leaves no `Lx` behind. -/
def Next.no_xlink (Lx : Str) : Next → Prop
  | .leave _ w => w.has Lx = false
  | .again _ w => w.has Lx = false

/-- A stretch of `lock` leaves no `Lf` behind unless it reaches the end of the
function with status `LOCK_OK`. -/
def Next.no_flink (Lf : Str) : Next → Prop
  | .leave l w => l.status ≠ LOCK_OK → w.has Lf = false
  | .again _ w => w.has Lf = false

/-- The readers/writer invariant on a list of directory entries: among the
final lock files for `T`, either no two are of mode `w` and none is of mode
`r`, or none is of mode `w`. -/
def InvL (T : Str) (fs : List Entry) : Prop :=
  (fs.Pairwise (fun a b => ¬ (is_final_mode T false a ∧ is_final_mode T false b)) ∧
      ∀ e ∈ fs, ¬ is_final_mode T true e) ∨
    ∀ e ∈ fs, ¬ is_final_mode T false e

/-- The readers/writer invariant `Inv(D)` for the target `T`. -/
def Inv (T : Str) (w : World) : Prop := InvL T w.files

/-- A call of the sequential use of the lock on one target: a non-forcing
`lock` or an `unlock`, by some owner in some mode. -/
inductive Op
  | lock (owner : Str) (readonly : Bool)
  | unlock (owner : Str) (readonly : Bool)

/-- The calls `ops` on the target `T`, one after the other, each running to
completion before the next starts. -/
def run (env : Env) (T : Str) : List Op → World → Option World
  | [], w => some w
  | .lock owner readonly :: ops, w =>
    match lock env (some T) (some owner) false readonly w with
    | some (_, w1) => run env T ops w1
    | none => none
  | .unlock owner readonly :: ops, w =>
    run env T ops (unlock env (some T) (some owner) readonly w).2

/-- A property of the world that survives every change `lock` can make to it
within the bounds of its buffers: recording a call, the passing of time, and
creating, linking, writing or removing a name, the first three at names in `C`
only and the last at names in `R` only. -/
structure Stable (C R : Str → Prop) (P : World → Prop) : Prop where
  log : ∀ w c, c.is_overrun = false → P w → P (w.log c)
  tick : ∀ w n, P w → P { w with clock := w.clock + n }
  create : ∀ w p, C p → w.has p = false → P w → P (w.create p)
  add_link : ∀ w e p, C p → w.has p = false → P w → P (w.add_link e p)
  write_at : ∀ w p d, C p → P w → P (w.write_at p d)
  remove : ∀ w p, R p → P w → P (w.remove p)

/-- What `lstat` finds for a directory in the concrete environments below: it
was last changed at time 100. -/
def dir100 (path : Str) : Entry := ⟨dir_of path, base_of path, 1, [], 100⟩

/-- A fault-free environment on the host `"h"`, with fresh memory from `malloc`. -/
def env0 : Env := ⟨"h".toList, fun _ _ => false, fun _ => 42, 30, fun _ => [], fun _ => dir100⟩

/-- The directory `/tmp` holding the writer lock of owner `001` on `/tmp/f`. -/
def w_held : World :=
  ⟨[⟨"/tmp".toList, "f.xenlk.h.001.fw".toList, 2, "/tmp/f.xenlk.h.001.fw".toList, 100⟩], 3, 100, []⟩


/-- The directory `/tmp` while another owner (`002`) is in its exclusive phase
for `/tmp/f`: only `X(T) = /tmp/f.xenlk` exists, holding that owner's record. -/
def w_foreign_x : World :=
  ⟨[⟨"/tmp".toList, "f.xenlk".toList, 7, "/tmp/f.xenlk.h.002.xw".toList, 99⟩], 8, 100, []⟩

/-- The directory `/tmp` holding the reader locks of the owners `001` and `002`
on `/tmp/f`. -/
def w_readers : World :=
  ⟨[⟨"/tmp".toList, "f.xenlk.h.001.fr".toList, 2, "/tmp/f.xenlk.h.001.fr".toList, 100⟩,
    ⟨"/tmp".toList, "f.xenlk.h.002.fr".toList, 3, "/tmp/f.xenlk.h.002.fr".toList, 100⟩], 4, 100, []⟩

/-- The directory `/tmp` holding another target, `/tmp/f2`, and the writer lock
of owner `009` on it; nothing in it belongs to the target `/tmp/f`. -/
def w_neighbour : World :=
  ⟨[⟨"/tmp".toList, "f2".toList, 2, "data".toList, 90⟩,
    ⟨"/tmp".toList, "f2.xenlk.h.009.fw".toList, 3, "/tmp/f2.xenlk.h.009.fw".toList, 95⟩], 4, 100, []⟩

/-- The empty directory. -/
def w_empty : World := ⟨[], 1, 100, []⟩

/-- An environment in which every `write` to the final lock file of owner `001`
on `/tmp/f` fails (a full disk, say) and nothing else does. -/
def env_wfail : Env :=
  ⟨"h".toList,
   fun _ c => match c with
     | .write p _ => p == "/tmp/f.xenlk.h.001.fw".toList
     | _ => false,
   fun _ => 42, 30, fun _ => [], fun _ => dir100⟩

/-- An environment in which every `unlink` of `/tmp/f.xenlk` is refused and
nothing else fails. -/
def env_ufail : Env :=
  ⟨"h".toList,
   fun _ c => match c with
     | .unlink p => p == "/tmp/f.xenlk".toList
     | _ => false,
   fun _ => 42, 30, fun _ => [], fun _ => dir100⟩

/-- An environment in which every allocation fails and nothing else does. -/
def env_mfail : Env :=
  ⟨"h".toList,
   fun _ c => match c with
     | .malloc _ => true
     | _ => false,
   fun _ => 42, 30, fun _ => [], fun _ => dir100⟩

/-- An environment in which every `unlink` of `path` is refused (a directory
without write permission, say) and nothing else fails. -/
def env_refuse (path : Str) : Env :=
  ⟨"h".toList,
   fun _ c => match c with
     | .unlink p => p == path
     | _ => false,
   fun _ => 42, 30, fun _ => [], fun _ => dir100⟩

/-- An environment in which every allocation of `size` bytes fails and nothing
else does. -/
def env_nomem (size : Nat) : Env :=
  ⟨"h".toList,
   fun _ c => match c with
     | .malloc n => n == size
     | _ => false,
   fun _ => 42, 30, fun _ => [], fun _ => dir100⟩

/-- An environment in which the `opendir` issued as call number 14 of the run
(counted from 0) fails, no descriptor being left, and nothing else does. -/
def env_ofail : Env :=
  ⟨"h".toList,
   fun n c => match c with
     | .opendir _ => n == 14
     | _ => false,
   fun _ => 42, 30, fun _ => [], fun _ => dir100⟩

/-- The directory `/tmp` holding the writer lock on `/tmp/f` of an owner with
the twelve-byte id `0123456789ab`. -/
def w_long : World :=
  ⟨[⟨"/tmp".toList, "f.xenlk.h.0123456789ab.fw".toList, 2,
      "/tmp/f.xenlk.h.0123456789ab.fw".toList, 100⟩], 3, 100, []⟩

/-- The bytes a recycled chunk holds behind a short prefix: what is left of a
pointer the allocator kept there. -/
def garbage : Str := [Char.ofNat 5]

/-- An environment in which the chunks that `malloc` returns as the calls
number `ks` of the run (counted from 0) are recycled ones, and in which no
directory can be opened but `/tmp`. -/
def env_recycled (ks : List Nat) : Env :=
  ⟨"h".toList,
   fun _ c => match c with
     | .opendir d => d != "/tmp".toList
     | _ => false,
   fun _ => 42, 30, fun n => if n ∈ ks then garbage else [], fun _ => dir100⟩

/-- The directory `/` five seconds after owner `001` took the writer lock on
`/f`. -/
def w_root : World :=
  ⟨[⟨[], "f.xenlk.h.001.fw".toList, 2, "/f.xenlk.h.001.fw".toList, 100⟩], 3, 105, []⟩

/-! ## The steps of `lock` for callers that run at the same time

A second embedding of `lock`, one step per system call, over a directory that
several callers share. A file descriptor is the number of the inode it was
opened on, so `read` and `write` reach the inode even after its name is gone.
Modification times play no part in `lock` and are left out. `readdir` delivers
the names that are in the directory when `opendir` is called. -/

/-- A name in a directory, bound to an inode. -/
structure Dirent where
  dir : Str
  name : Str
  ino : Nat
  deriving DecidableEq

/-- The directories that concurrent callers share: the names, the bytes of
every inode (the first pair for an inode number counts), and the number the
next new inode gets. -/
structure Disk where
  links : List Dirent
  data : List (Nat × Str)
  next_ino : Nat
  deriving DecidableEq

/-- Does the directory entry `l` carry the name `path` resolves to? -/
def names_path (path : Str) (l : Dirent) : Bool :=
  l.dir == dir_of path && l.name == base_of path

/-- The inode a path names, if any. -/
def Disk.ino (d : Disk) (path : Str) : Option Nat :=
  (d.links.find? (names_path path)).map (fun l => l.ino)

/-- The bytes of an inode. -/
def Disk.bytes (d : Disk) (i : Nat) : Str :=
  match d.data.find? (fun x => x.1 == i) with
  | some x => x.2
  | none => []

/-- A new empty file under `path`, on a new inode. -/
def Disk.creat (d : Disk) (path : Str) : Disk :=
  { links := d.links ++ [⟨dir_of path, base_of path, d.next_ino⟩]
    data := (d.next_ino, []) :: d.data
    next_ino := d.next_ino + 1 }

/-- The bytes `s` written at offset 0 of the inode `i`. -/
def Disk.put (d : Disk) (i : Nat) (s : Str) : Disk :=
  { d with data := (i, s ++ (d.bytes i).drop s.length) :: d.data }

/-- `link(path, newpath)`: nothing happens when `path` is missing or `newpath`
exists. -/
def Disk.link (d : Disk) (path newpath : Str) : Disk :=
  match d.ino path with
  | some i =>
    if (d.ino newpath).isSome then d
    else { d with links := d.links ++ [⟨dir_of newpath, base_of newpath, i⟩] }
  | none => d

/-- `unlink(path)`: the name is removed, the inode stays for those who have it
open. -/
def Disk.unlink (d : Disk) (path : Str) : Disk :=
  { d with links := d.links.filter (fun l => !names_path path l) }

/-- The names `readdir` delivers for a directory. -/
def Disk.names (d : Disk) (dirname : Str) : List Str :=
  (d.links.filter (fun l => l.dir == dirname)).map (fun l => l.name)

/-- `unlink(path)` as a call that may fail for a reason outside the directory;
its result is never looked at by `lock`. -/
def sys_unlink (flt : Call → Bool) (path : Str) (d : Disk) : Disk :=
  if flt (.unlink path) then d else d.unlink path

/-- The arguments of one call of `lock`, and the host it runs on. -/
structure Caller where
  host : Str
  fn : Str
  uuid : Str
  force : Bool
  readonly : Bool
  deriving DecidableEq

/-- The name `lockfn` of the caller. -/
def Caller.X (a : Caller) : Str := lockfn_str a.fn

/-- The name `lockfn_xlink` of the caller. -/
def Caller.Lx (a : Caller) : Str := link_str a.fn LFXL_FORMAT a.host a.uuid a.readonly

/-- The name `lockfn_flink` of the caller. -/
def Caller.Lf (a : Caller) : Str := link_str a.fn LFFL_FORMAT a.host a.uuid a.readonly

/-- The classifier `lock_holder` was called with. -/
inductive Which
  | writer
  | reader
  deriving DecidableEq

/-- Where a caller stands in `lock`: before the system call named (together
with the library calls in front of it). -/
inductive PC
  /-- After the null test, before the name synthesis (lines 197-208). -/
  | start
  /-- At `try_again` (line 210), before `open(lockfn, O_CREAT | O_EXCL)`. -/
  | try_again
  /-- Before `open(lockfn, O_RDWR)` (line 220). -/
  | reopen
  /-- Before `malloc` and `read(fd, ...)` (lines 222-238). -/
  | read (fd : Nat)
  /-- At `force_lock` (line 259). -/
  | force_lock
  /-- At `skip` (line 276), before `write(fd, lockfn_xlink, ...)`. -/
  | skip (fd : Nat)
  /-- After a failed `write`, before `unlink(lockfn)` (line 289). -/
  | wfail
  /-- At the `while` of line 299, before `link(lockfn, lockfn_xlink)`. -/
  | link
  /-- Before `lstat(lockfn, &stat1)` (line 306). -/
  | lstat1
  /-- Before `lstat(lockfn_xlink, &stat2)` (line 307). -/
  | lstat2 (ino1 : Nat)
  /-- The inodes are the same: before `unlink(lockfn_xlink)` (line 327). -/
  | same
  /-- The inodes differ: before `unlink(lockfn)` (line 335). -/
  | differ1
  /-- Before `unlink(lockfn_xlink)` (line 339). -/
  | differ2
  /-- An `lstat` failed: before `unlink(lockfn)` (line 309). -/
  | statfail1
  /-- Before `unlink(lockfn_xlink)` (line 313). -/
  | statfail2
  /-- At `finish` (line 351), before `lstat(lockfn_flink, ...)`. -/
  | finish
  /-- At the entry of `lock_holder`, before its `opendir`. -/
  | holder (which : Which)
  /-- In the `readdir` loop of `lock_holder`, with the name read at `dirname`
  and the entries still to come. -/
  | readdir (which : Which) (dirname : Str) (names : List Str)
  /-- At `skip_scan` (line 370), before `open(lockfn_flink, O_CREAT)`. -/
  | skip_scan
  /-- Before `write(fd, lockfn_flink, ...)` (line 376). -/
  | update (fd : Nat)
  /-- Before the quiet time of line 394. -/
  | quiet
  /-- Before the last `unlink(lockfn)` (line 404). -/
  | leave
  /-- Returned; the status is in the locals. -/
  | done
  /-- A forcing scan has written past the end of `uname`: the caller has no
  defined next step. -/
  | lost
  deriving DecidableEq

/-- A caller inside `lock`. -/
structure Proc where
  who : Caller
  pc : PC
  l : Locals
  deriving DecidableEq

/-- The return of `lock_holder` into `finish`: a conflict sets the status; with
no conflict the writer scan is followed by the reader scan. -/
def after_holder (p : Proc) (which : Which) (conflict : Bool) : Proc :=
  match which, conflict with
  | .writer, true => { p with pc := .skip_scan, l := { p.l with status := LOCK_EHELD_WR } }
  | .writer, false => { p with pc := .holder .reader }
  | .reader, true => { p with pc := .skip_scan, l := { p.l with status := LOCK_EHELD_RD } }
  | .reader, false => { p with pc := .skip_scan }

/-- `*stole = v` for the flag `lock_holder` was given. -/
def set_stole (l : Locals) (which : Which) (v : Bool) : Locals :=
  match which with
  | .writer => { l with stealw := v }
  | .reader => { l with stealr := v }

/-- The classifier of a scan. -/
def eval_of (which : Which) : Str → Bool → Bool :=
  match which with
  | .writer => writer_eval
  | .reader => reader_eval

/-- One step of a caller: the system call it stands before, with the library
calls around it. `flt c` says that the call `c` fails in this step for a
reason outside the directory; `junk` are the bytes a chunk obtained in this
step holds behind the prefix that `strncpy` copies into it. -/
def Proc.step (flt : Call → Bool) (junk : Str) (p : Proc) (d : Disk) : Proc × Disk :=
  match p.pc with
  | .start =>
    if flt (.malloc (p.who.fn.length + LF_POSTFIX.length + 1)) then
      ({ p with pc := .done, l := { p.l with status := LOCK_ENOMEM } }, d)
    else if flt .gethostname || flt (.malloc (link_alloc p.who.fn p.who.host p.who.uuid)) then
      ({ p with pc := .leave, l := { p.l with status := LOCK_ENOMEM } }, d)
    else ({ p with pc := .try_again }, d)
  | .try_again =>
    let l1 := { p.l with retry_attempts := p.l.retry_attempts + 1 }
    if p.l.retry_attempts > RETRY_MAX then ({ p with pc := .finish, l := l1 }, d)
    else if !flt (.open_excl p.who.X) && (d.ino p.who.X).isNone then
      ({ p with pc := .skip d.next_ino, l := l1 }, d.creat p.who.X)
    else ({ p with pc := .reopen, l := l1 }, d)
  | .reopen =>
    if flt (.open_rdwr p.who.X) then ({ p with pc := .force_lock }, d)
    else
      match d.ino p.who.X with
      | some i => ({ p with pc := .read i }, d)
      | none => ({ p with pc := .force_lock }, d)
  | .read fd =>
    if flt (.malloc (p.who.Lx.length + 1)) then
      ({ p with pc := .finish, l := { p.l with status := LOCK_ENOMEM } }, d)
    else if flt (.read p.who.X p.who.Lx.length) then ({ p with pc := .force_lock }, d)
    else if ((d.bytes fd).take p.who.Lx.length).length ≠ p.who.Lx.length then
      ({ p with pc := .force_lock }, d)
    else if ((d.bytes fd).take p.who.Lx.length).take (p.who.Lx.length - 1) =
        p.who.Lx.take (p.who.Lx.length - 1) then
      if flt (.lseek p.who.X) then ({ p with pc := .force_lock }, d)
      else ({ p with pc := .skip fd }, d)
    else ({ p with pc := .force_lock }, d)
  | .force_lock =>
    ({ p with pc := .try_again,
              l := { p.l with stealx := p.l.stealx || p.who.force, status := LOCK_EXLOCK_OPEN } },
      if p.who.force then sys_unlink flt p.who.X d else d)
  | .skip fd =>
    if flt (.write p.who.X p.who.Lx) then
      ({ p with pc := .wfail, l := { p.l with status := LOCK_EXLOCK_WRITE } }, d)
    else ({ p with pc := .link }, d.put fd p.who.Lx)
  | .wfail => ({ p with pc := .try_again }, sys_unlink flt p.who.X d)
  | .link =>
    let l1 := { p.l with retry_attempts := p.l.retry_attempts + 1 }
    if p.l.retry_attempts < RETRY_MAX then
      ({ p with pc := .lstat1, l := l1 },
        if flt (.link p.who.X p.who.Lx) then d else d.link p.who.X p.who.Lx)
    else ({ p with pc := .finish, l := l1 }, d)
  | .lstat1 =>
    if flt (.lstat p.who.X) then ({ p with pc := .statfail1 }, d)
    else
      match d.ino p.who.X with
      | some i => ({ p with pc := .lstat2 i }, d)
      | none => ({ p with pc := .statfail1 }, d)
  | .lstat2 ino1 =>
    if flt (.lstat p.who.Lx) then ({ p with pc := .statfail1 }, d)
    else
      match d.ino p.who.Lx with
      | some ino2 =>
        if ino1 = ino2 then ({ p with pc := .same, l := { p.l with status := LOCK_OK } }, d)
        else ({ p with pc := .differ1 }, d)
      | none => ({ p with pc := .statfail1 }, d)
  | .same => ({ p with pc := .finish }, sys_unlink flt p.who.Lx d)
  | .differ1 => ({ p with pc := .differ2 }, sys_unlink flt p.who.X d)
  | .differ2 =>
    ({ p with pc := .try_again, l := { p.l with status := LOCK_EINODE } },
      sys_unlink flt p.who.Lx d)
  | .statfail1 => ({ p with pc := .statfail2 }, sys_unlink flt p.who.X d)
  | .statfail2 =>
    ({ p with pc := .finish, l := { p.l with status := LOCK_ESTAT } },
      sys_unlink flt p.who.Lx d)
  | .finish =>
    if p.l.status = LOCK_OK then
      if !flt (.lstat p.who.Lf) && (d.ino p.who.Lf).isSome then ({ p with pc := .skip_scan }, d)
      else ({ p with pc := .holder .writer }, d)
    else ({ p with pc := .skip_scan }, d)
  | .holder which =>
    let p1 := { p with l := set_stole p.l which false }
    if flt (.malloc p.who.X.length) || flt (.malloc (p.who.Lf.length + 8)) ||
        flt (.opendir (dirname_of junk p.who.X)) || dirname_of junk p.who.X = [] then
      (after_holder p1 which false, d)
    else
      ({ p1 with
          pc := .readdir which (dirname_of junk p.who.X)
            (".".toList :: "..".toList :: d.names (dirname_of junk p.who.X)) }, d)
  | .readdir which _ [] => (after_holder p which false, d)
  | .readdir which dirname (d_name :: rest) =>
    if scanned p.who.fn p.who.X p.who.Lf d_name then
      if p.who.force then
        if (dirname ++ "/".toList ++ d_name).length + 1 ≤ p.who.Lf.length + 8 then
          ({ p with pc := .readdir which dirname rest, l := set_stole p.l which true },
            sys_unlink flt (dirname ++ "/".toList ++ d_name) d)
        else ({ p with pc := .lost }, d)
      else if eval_of which d_name p.who.readonly then (after_holder p which true, d)
      else ({ p with pc := .readdir which dirname rest }, d)
    else ({ p with pc := .readdir which dirname rest }, d)
  | .skip_scan =>
    if p.l.status = LOCK_OK then
      if flt (.open_creat p.who.Lf) then
        ({ p with pc := .quiet, l := { p.l with status := LOCK_EOPEN } }, d)
      else
        match d.ino p.who.Lf with
        | some i => ({ p with pc := .update i }, d)
        | none => ({ p with pc := .update d.next_ino }, d.creat p.who.Lf)
    else ({ p with pc := .quiet }, d)
  | .update fd =>
    if flt (.write p.who.Lf p.who.Lf) then
      ({ p with pc := .try_again, l := { p.l with status := LOCK_EUPDATE } }, d)
    else ({ p with pc := .quiet }, d.put fd p.who.Lf)
  | .quiet => ({ p with pc := .leave }, d)
  | .leave => ({ p with pc := .done }, sys_unlink flt p.who.X d)
  | .done => (p, d)
  | .lost => (p, d)

/-- Callers of `lock` that run at the same time, and the directories they share. -/
structure Config where
  procs : List Proc
  disk : Disk
  deriving DecidableEq

/-- The caller number `i` makes its next step. -/
def Config.step (flt : Call → Bool) (junk : Str) (i : Nat) (c : Config) : Config :=
  match c.procs[i]? with
  | some p => ⟨c.procs.set i (p.step flt junk c.disk).1, (p.step flt junk c.disk).2⟩
  | none => c

/-- An interleaving: the callers step in the order the schedule names them, no
call fails for a reason outside the directory, and every chunk of `dirname`
holds a zero byte where the copied prefix ends. -/
def exec : List Nat → Config → Config
  | [], c => c
  | i :: rest, c => exec rest (c.step (fun _ => false) [] i)

/-- The caller of `lock(T, owner, 0, 0)` on the host `host`, for the pair
`id` of `host` and `owner`. -/
def writer_of (T : Str) (id : Str × Str) : Caller := ⟨id.1, T, id.2, false, false⟩

/-- A caller at the start of `lock`, with the locals as they are declared
(lines 185-192). -/
def Caller.enter (a : Caller) : Proc := ⟨a, .start, ⟨0, LOCK_OK, false, false, false⟩⟩

/-- The callers `ids` (host and owner), each at the start of a non-forcing
`lock(T, owner, 0, 0)`, on the disk `d`. -/
def init (T : Str) (ids : List (Str × Str)) (d : Disk) : Config :=
  ⟨ids.map (fun id => (writer_of T id).enter), d⟩

/-! ## Vocabulary for callers that run at the same time -/

/-- The caller holds the exclusive phase: it has seen the inodes of `X(T)` and
of its `L_x` agree and has not yet unlinked `X(T)`. -/
def Proc.holds (p : Proc) : Bool :=
  (match p.pc with
    | .same | .finish | .holder _ | .readdir _ _ _ | .skip_scan | .update _ | .quiet | .leave =>
      true
    | _ => false) &&
  (p.l.status == LOCK_OK || p.l.status == LOCK_EHELD_WR || p.l.status == LOCK_EHELD_RD ||
    p.l.status == LOCK_EOPEN)

/-- Neither of the two callers mistakes a record of the other (its `L_x` or
its `L_f` name, as `lock` writes them into the lock files) for its own. -/
def apart_ids (T : Str) (a b : Str × Str) : Bool :=
  !owns_record (writer_of T b).Lx (writer_of T a).Lx &&
  !owns_record (writer_of T b).Lx (writer_of T a).Lf &&
  !owns_record (writer_of T a).Lx (writer_of T b).Lx &&
  !owns_record (writer_of T a).Lx (writer_of T b).Lf

/-- A disk without files. -/
def d_empty : Disk := ⟨[], [], 1⟩

/-- Two non-forcing writers on `/tmp/f` whose owner strings are `1` and `1.xw`:
the record of the second starts with the record of the first. -/
def c_mistaken : Config :=
  init "/tmp/f".toList [("h".toList, "1".toList), ("h".toList, "1.xw".toList)] d_empty

/-- The caller `1.xw` runs up to its writer scan (8 steps), then `1` does (9
steps). -/
def s_mistaken : List Nat := List.replicate 8 1 ++ List.replicate 9 0

/-- A disk that holds the writer lock on `/tmp/f` of an owner with the
twelve-byte id `0123456789ab`. -/
def d_long : Disk :=
  ⟨[⟨"/tmp".toList, "f.xenlk.h.0123456789ab.fw".toList, 2⟩],
    [(2, "/tmp/f.xenlk.h.0123456789ab.fw".toList)], 3⟩

/-- The owner `002` forces the writer lock on `/tmp/f`, on the disk `d_long`. -/
def c_long : Config :=
  ⟨[Caller.enter ⟨"h".toList, "/tmp/f".toList, "002".toList, true, false⟩], d_long⟩
/-! ## Paths -/

theorem strrchr_none {c : Char} {s : Str} : strrchr c s = none ↔ c ∉ s := by
  induction s with
  | nil => simp [strrchr]
  | cons x xs ih =>
    simp only [strrchr]
    cases h : strrchr c xs with
    | none =>
      have := ih.mp h
      by_cases hx : x = c
      · simp [hx]
      · simp [hx, this, Ne.symm hx]
    | some p => 
      have : c ∈ xs := by
        by_contra hc
        rw [ih.mpr hc] at h
        exact absurd h (by simp)
      simp [this]

theorem strrchr_some {c : Char} {s pre post : Str} (h : strrchr c s = some (pre, post)) :
    s = pre ++ c :: post ∧ c ∉ post := by
  induction s generalizing pre post with
  | nil => simp [strrchr] at h
  | cons x xs ih =>
    simp only [strrchr] at h
    cases h2 : strrchr c xs with
    | none =>
      rw [h2] at h
      by_cases hx : x = c
      · simp [hx] at h
        obtain ⟨rfl, rfl⟩ := h
        exact ⟨by simp [hx], strrchr_none.mp h2⟩
      · simp [hx] at h
    | some p =>
      obtain ⟨a, b⟩ := p
      rw [h2] at h
      simp at h
      obtain ⟨rfl, rfl⟩ := h
      obtain ⟨h3, h4⟩ := ih h2
      exact ⟨by simp [h3], h4⟩

theorem strrchr_append {c : Char} (pre post : Str) (h : c ∉ post) :
    strrchr c (pre ++ c :: post) = some (pre, post) := by
  induction pre with
  | nil => simp [strrchr, strrchr_none.mpr h]
  | cons x xs ih => simp [strrchr, ih]

theorem strrchr_append_right {c : Char} (s t : Str) (h : c ∉ t) :
    strrchr c (s ++ t) = match strrchr c s with
      | some (pre, post) => some (pre, post ++ t)
      | none => none := by
  cases h2 : strrchr c s with
  | none =>
    have := strrchr_none.mp h2
    simp [strrchr_none, this, h]
  | some p =>
    obtain ⟨a, b⟩ := p
    obtain ⟨h3, h4⟩ := strrchr_some h2
    subst h3
    have : a ++ c :: b ++ t = a ++ c :: (b ++ t) := by simp
    rw [this, strrchr_append]
    simp [h4, h]

theorem dir_of_append (s t : Str) (h : '/' ∉ t) : dir_of (s ++ t) = dir_of s := by
  unfold dir_of
  rw [strrchr_append_right s t h]
  cases strrchr '/' s <;> simp

theorem base_of_append (s t : Str) (h : '/' ∉ t) : base_of (s ++ t) = base_of s ++ t := by
  unfold base_of
  rw [strrchr_append_right s t h]
  cases strrchr '/' s <;> simp

theorem key_join (d b : Str) (h : '/' ∉ b) : key (d ++ "/".toList ++ b) = (d, b) := by
  have : d ++ "/".toList ++ b = d ++ '/' :: b := by simp
  simp [key, dir_of, base_of, this, strrchr_append _ _ h]

/-- A path is its directory part, a `'/'` and its base name, up to a leading `"./"`. -/
theorem key_norm (p : Str) :
    (key p).1 ++ '/' :: (key p).2 = p ∨ (key p).1 ++ '/' :: (key p).2 = '.' :: '/' :: p := by
  unfold key dir_of base_of
  cases h : strrchr '/' p with
  | none => right; simp
  | some q =>
    obtain ⟨a, b⟩ := q
    left
    simp [(strrchr_some h).1]

theorem key_inj {p q : Str} (h : key p = key q) :
    p = q ∨ p.length = q.length + 2 ∨ q.length = p.length + 2 := by
  have hp := key_norm p
  have hq := key_norm q
  rw [h] at hp
  rcases hp with hp | hp <;> rcases hq with hq | hq
  · left; exact hp.symm.trans hq
  · right; left
    have := congrArg List.length (hp.symm.trans hq)
    simp at this; omega
  · right; right
    have := congrArg List.length (hq.symm.trans hp)
    simp at this; omega
  · left
    have := hp.symm.trans hq
    simpa using this

theorem key_ne_of_length {p q : Str} (h1 : p ≠ q) (h2 : p.length ≠ q.length + 2)
    (h3 : q.length ≠ p.length + 2) : key p ≠ key q := by
  intro h
  rcases key_inj h with h | h | h <;> contradiction

theorem same_file_iff (p : Str) (e : Entry) : same_file p e = true ↔ (e.dir, e.name) = key p := by
  simp [same_file, key]
/-! ## The directory under each call -/

section calls
variable (env : Env) (w : World)

theorem has_eq_any (p : Str) : w.has p = w.files.any (same_file p) := by
  unfold World.has World.lookup
  induction w.files with
  | nil => rfl
  | cons e es ih =>
    simp only [List.find?_cons, List.any_cons]
    cases h : same_file p e <;> simp [ih]

theorem same_file_congr {p q : Str} (h : key p = key q) : same_file p = same_file q := by
  funext e
  simp only [key, Prod.mk.injEq] at h
  simp [same_file, h.1, h.2]

theorem has_congr {p q : Str} (h : key p = key q) : w.has p = w.has q := by
  simp [has_eq_any, same_file_congr h]

theorem same_file_key {p q : Str} {e : Entry} (hp : same_file p e = true)
    (hq : same_file q e = true) : key p = key q := by
  rw [same_file_iff] at hp hq
  rw [← hp, ← hq]

@[simp] theorem log_files (c : Call) : (w.log c).files = w.files := rfl
@[simp] theorem log_trace (c : Call) : (w.log c).trace = c :: w.trace := rfl
@[simp] theorem log_clock (c : Call) : (w.log c).clock = w.clock := rfl
@[simp] theorem log_next_ino (c : Call) : (w.log c).next_ino = w.next_ino := rfl
@[simp] theorem log_has (c : Call) (q : Str) : (w.log c).has q = w.has q := rfl
@[simp] theorem log_lookup (c : Call) (q : Str) : (w.log c).lookup q = w.lookup q := rfl

@[simp] theorem create_trace (p : Str) : (w.create p).trace = w.trace := rfl
@[simp] theorem create_clock (p : Str) : (w.create p).clock = w.clock := rfl
@[simp] theorem remove_trace (p : Str) : (w.remove p).trace = w.trace := rfl
@[simp] theorem remove_clock (p : Str) : (w.remove p).clock = w.clock := rfl
@[simp] theorem remove_next_ino (p : Str) : (w.remove p).next_ino = w.next_ino := rfl

theorem create_has (p q : Str) : (w.create p).has q = (w.has q || decide (key p = key q)) := by
  simp only [has_eq_any, World.create, List.any_append, List.any_cons, List.any_nil,
    Bool.or_false]
  congr 1
  rw [Bool.eq_iff_iff]
  simp [same_file, key]

theorem remove_has (p q : Str) : (w.remove p).has q = (w.has q && !decide (key p = key q)) := by
  simp only [has_eq_any, World.remove]
  induction w.files with
  | nil => simp
  | cons e es ih =>
    simp only [List.filter_cons]
    by_cases hp : same_file p e = true
    · simp only [hp, Bool.not_true, Bool.false_eq_true, ↓reduceIte, ih, List.any_cons]
      by_cases hq : same_file q e = true
      · simp [hq, same_file_key hp hq]
      · simp [hq]
    · simp only [hp, Bool.not_false, ↓reduceIte, List.any_cons, ih]
      by_cases hq : same_file q e = true
      · have : key p ≠ key q := by
          intro h
          rw [same_file_congr h] at hp
          exact hp hq
        simp [hq, this]
      · simp [hq]

/-! ### malloc, gethostname, random, the sleeps -/

@[simp] theorem malloc_fst (n : Nat) : (malloc env n w).1 = !env.fault w.trace.length (.malloc n) := rfl
@[simp] theorem malloc_snd (n : Nat) : (malloc env n w).2 = w.log (.malloc n) := rfl

theorem gethostname_fst :
    (gethostname env w).1 = if env.fault w.trace.length .gethostname then none else some env.hostname := by
  unfold gethostname tick
  cases env.fault w.trace.length .gethostname <;> rfl

@[simp] theorem gethostname_snd : (gethostname env w).2 = w.log .gethostname := by
  unfold gethostname tick
  cases env.fault w.trace.length .gethostname <;> rfl

@[simp] theorem XSLEEP_eq : XSLEEP env w = (w.log .random).log .usleep := rfl

@[simp] theorem select_files (n : Nat) : (select env n w).files = w.files := rfl
@[simp] theorem select_trace (n : Nat) : (select env n w).trace = .select n :: w.trace := rfl
@[simp] theorem select_clock (n : Nat) : (select env n w).clock = w.clock + n := rfl
@[simp] theorem select_next_ino (n : Nat) : (select env n w).next_ino = w.next_ino := rfl
@[simp] theorem select_has (n : Nat) (q : Str) : (select env n w).has q = w.has q := rfl
@[simp] theorem select_lookup (n : Nat) (q : Str) : (select env n w).lookup q = w.lookup q := rfl

/-! ### open -/

theorem open_excl_eq (p : Str) : open_excl env p w =
    if env.fault w.trace.length (.open_excl p) = true ∨ w.has p = true then (false, w.log (.open_excl p))
    else (true, (w.log (.open_excl p)).create p) := by
  unfold open_excl tick
  cases env.fault w.trace.length (.open_excl p) <;> simp

theorem open_rdwr_eq (p : Str) : open_rdwr env p w =
    (!env.fault w.trace.length (.open_rdwr p) && w.has p, w.log (.open_rdwr p)) := by
  unfold open_rdwr tick
  cases env.fault w.trace.length (.open_rdwr p) <;> simp

theorem open_creat_eq (p : Str) : open_creat env p w =
    if env.fault w.trace.length (.open_creat p) = true then (false, w.log (.open_creat p))
    else if w.has p = true then (true, w.log (.open_creat p))
    else (true, (w.log (.open_creat p)).create p) := by
  unfold open_creat tick
  cases env.fault w.trace.length (.open_creat p) <;> simp

theorem unlink_eq (p : Str) : unlink env p w =
    if env.fault w.trace.length (.unlink p) = true ∨ w.has p = false then (false, w.log (.unlink p))
    else (true, (w.log (.unlink p)).remove p) := by
  unfold unlink tick
  cases env.fault w.trace.length (.unlink p) <;> cases h : w.has p <;> simp [h]

theorem lstat_snd (p : Str) : (lstat env p w).2 = w.log (.lstat p) := by
  unfold lstat tick
  cases env.fault w.trace.length (.lstat p) <;> rfl

theorem lstat_dot (p : Str) : lstat env p w =
    (if env.fault w.trace.length (.lstat p) = true then none
      else if is_dot (base_of p) = true then some (env.dirstat w.trace.length p)
      else w.lookup p, w.log (.lstat p)) := by
  unfold lstat tick
  cases env.fault w.trace.length (.lstat p) <;> simp

theorem lstat_eq (p : Str) (hd : is_dot (base_of p) = false) : lstat env p w =
    (if env.fault w.trace.length (.lstat p) = true then none else w.lookup p, w.log (.lstat p)) := by
  rw [lstat_dot, hd]
  simp

theorem write_eq (p d : Str) : write env p d w =
    if env.fault w.trace.length (.write p d) = true then (false, w.log (.write p d))
    else (true, (w.log (.write p d)).write_at p d) := by
  unfold write tick
  cases env.fault w.trace.length (.write p d) <;> simp

theorem link_eq (p q : Str) : link env p q w =
    match w.lookup p with
    | some e =>
      if env.fault w.trace.length (.link p q) = true ∨ w.has q = true then (false, w.log (.link p q))
      else (true, (w.log (.link p q)).add_link e q)
    | none => (false, w.log (.link p q)) := by
  unfold link tick
  cases env.fault w.trace.length (.link p q) <;> cases h : w.lookup p <;> simp [h]

theorem read_eq (p : Str) (n : Nat) : read env p n w =
    (if env.fault w.trace.length (.read p n) = true then none
      else (w.lookup p).map (fun e => e.content.take n), w.log (.read p n)) := by
  unfold read tick
  cases env.fault w.trace.length (.read p n) <;> simp

@[simp] theorem lseek_fst (p : Str) : (lseek env p w).1 = !env.fault w.trace.length (.lseek p) := rfl
@[simp] theorem lseek_snd (p : Str) : (lseek env p w).2 = w.log (.lseek p) := rfl

theorem opendir_snd (d : Str) : (opendir env d w).2 = w.log (.opendir d) := by
  unfold opendir tick
  cases env.fault w.trace.length (.opendir d) <;> rfl

theorem opendir_eq (d : Str) : opendir env d w =
    (if env.fault w.trace.length (.opendir d) = true ∨ d = [] then none
      else some (".".toList :: "..".toList ::
        (w.files.filter (fun e => e.dir == d)).map (fun e => e.name)),
     w.log (.opendir d)) := by
  unfold opendir tick
  cases env.fault w.trace.length (.opendir d) <;> by_cases hd : d = [] <;> simp [hd]

@[simp] theorem write_at_trace (p d : Str) : (w.write_at p d).trace = w.trace := rfl
@[simp] theorem write_at_clock (p d : Str) : (w.write_at p d).clock = w.clock := rfl
@[simp] theorem write_at_next_ino (p d : Str) : (w.write_at p d).next_ino = w.next_ino := rfl
@[simp] theorem add_link_trace (e : Entry) (q : Str) : (w.add_link e q).trace = w.trace := rfl
@[simp] theorem add_link_clock (e : Entry) (q : Str) : (w.add_link e q).clock = w.clock := rfl
@[simp] theorem add_link_next_ino (e : Entry) (q : Str) : (w.add_link e q).next_ino = w.next_ino := rfl

theorem write_at_has (p d q : Str) : (w.write_at p d).has q = w.has q := by
  simp only [has_eq_any, World.write_at, List.any_map]
  congr 1
  funext e
  simp only [Function.comp]
  split <;> simp [same_file]

theorem add_link_has (e : Entry) (p q : Str) :
    (w.add_link e p).has q = (w.has q || decide (key p = key q)) := by
  simp only [has_eq_any, World.add_link, List.any_append, List.any_cons, List.any_nil,
    Bool.or_false]
  congr 1
  rw [Bool.eq_iff_iff]
  simp [same_file, key]

/-- What each call does to the existence of a name. -/
theorem open_excl_has (p q : Str) : (open_excl env p w).2.has q =
    (w.has q || (!env.fault w.trace.length (.open_excl p) && decide (key p = key q))) := by
  rw [open_excl_eq]
  split
  · rename_i h
    rcases h with h | h
    · simp [h]
    · by_cases hk : key p = key q
      · simp [hk, ← has_congr w hk, h]
      · simp [hk]
  · rename_i h
    simp only [not_or, Bool.not_eq_true] at h
    simp [create_has, h.1]

theorem open_creat_has (p q : Str) : (open_creat env p w).2.has q =
    (w.has q || (!env.fault w.trace.length (.open_creat p) && decide (key p = key q))) := by
  rw [open_creat_eq]
  split
  · rename_i h; simp [h]
  · rename_i h
    split
    · rename_i h2
      by_cases hk : key p = key q
      · simp [hk, ← has_congr w hk, h2]
      · simp [hk]
    · simp [create_has, h]

theorem unlink_has (p q : Str) : (unlink env p w).2.has q =
    (w.has q && (env.fault w.trace.length (.unlink p) || !decide (key p = key q))) := by
  rw [unlink_eq]
  split
  · rename_i h
    rcases h with h | h
    · simp [h]
    · by_cases hk : key p = key q
      · simp [hk, ← has_congr w hk, h]
      · simp [hk]
  · rename_i h
    simp only [not_or, Bool.not_eq_true, Bool.not_eq_false] at h
    simp [remove_has, h.1]

theorem write_has (p d q : Str) : (write env p d w).2.has q = w.has q := by
  rw [write_eq]
  split <;> simp [write_at_has]

theorem link_has (p q r : Str) : (link env p q w).2.has r =
    (w.has r || (!env.fault w.trace.length (.link p q) && w.has p && decide (key q = key r))) := by
  rw [link_eq]
  cases h : w.lookup p with
  | none =>
    have : w.has p = false := by simp [World.has, h]
    simp [this]
  | some e =>
    have hp : w.has p = true := by simp [World.has, h]
    simp only [hp, Bool.and_true]
    split
    · rename_i h2
      rcases h2 with h2 | h2
      · simp [h2]
      · by_cases hk : key q = key r
        · simp [hk, ← has_congr w hk, h2]
        · simp [hk]
    · rename_i h2
      simp only [not_or, Bool.not_eq_true] at h2
      simp [add_link_has, h2.1]

@[simp] theorem open_rdwr_has (p q : Str) : (open_rdwr env p w).2.has q = w.has q := by
  simp [open_rdwr_eq]

@[simp] theorem lstat_has (p q : Str) : (lstat env p w).2.has q = w.has q := by
  simp [lstat_snd]

@[simp] theorem read_has (p q : Str) (n : Nat) : (read env p n w).2.has q = w.has q := by
  simp [read_eq]

@[simp] theorem opendir_has (d q : Str) : (opendir env d w).2.has q = w.has q := by
  simp [opendir_snd]

end calls
/-! ## Name synthesis -/

theorem sprintf_LFXL (host owner mode : Str) : sprintf LFXL_FORMAT [host, owner, mode] =
    ".xenlk.".toList ++ host ++ ".".toList ++ owner ++ ".x".toList ++ mode := by
  simp [LFXL_FORMAT, LF_POSTFIX, sprintf]

theorem sprintf_LFFL (host owner mode : Str) : sprintf LFFL_FORMAT [host, owner, mode] =
    ".xenlk.".toList ++ host ++ ".".toList ++ owner ++ ".f".toList ++ mode := by
  simp [LFFL_FORMAT, LF_POSTFIX, sprintf]

theorem create_lockfn_eq (env : Env) (w : World) (T : Str) : create_lockfn env T w =
    (if env.fault w.trace.length (.malloc (T.length + LF_POSTFIX.length + 1)) = true then none
      else some (lockfn_str T), w.log (.malloc (T.length + LF_POSTFIX.length + 1))) := by
  unfold create_lockfn malloc tick
  cases env.fault w.trace.length (.malloc (T.length + LF_POSTFIX.length + 1)) <;> simp

theorem create_lockfn_link_eq (env : Env) (w : World) (T format owner : Str) (readonly : Bool) :
    create_lockfn_link env T format owner readonly w =
    if env.fault w.trace.length .gethostname = true then (none, w.log .gethostname)
    else
      (if env.fault (w.trace.length + 1) (.malloc (link_alloc T env.hostname owner)) = true
        then none else some (link_str T format env.hostname owner readonly),
       (w.log .gethostname).log (.malloc (link_alloc T env.hostname owner))) := by
  unfold create_lockfn_link gethostname malloc tick
  cases env.fault w.trace.length .gethostname <;> simp
  cases env.fault (w.trace.length + 1) (.malloc (link_alloc T env.hostname owner)) <;> simp

theorem getLast?_snoc3 (l : Str) (a b c : Char) : (l ++ [a, b, c]).getLast? = some c := by
  have : l ++ [a, b, c] = (l ++ [a, b]) ++ [c] := by simp
  rw [this, List.getLast?_concat]

theorem link_str_xl (T host owner : Str) (readonly : Bool) :
    link_str T LFXL_FORMAT host owner readonly =
      (T ++ ".xenlk.".toList ++ host ++ ".".toList ++ owner) ++
        ['.', 'x', if readonly then 'r' else 'w'] := by
  cases readonly <;> simp [link_str, sprintf_LFXL, mode_str]

theorem link_str_fl (T host owner : Str) (readonly : Bool) :
    link_str T LFFL_FORMAT host owner readonly =
      (T ++ ".xenlk.".toList ++ host ++ ".".toList ++ owner) ++
        ['.', 'f', if readonly then 'r' else 'w'] := by
  cases readonly <;> simp [link_str, sprintf_LFFL, mode_str]

theorem link_str_length (T host owner : Str) (readonly : Bool) :
    (link_str T LFXL_FORMAT host owner readonly).length = T.length + host.length + owner.length + 11 ∧
    (link_str T LFFL_FORMAT host owner readonly).length = T.length + host.length + owner.length + 11 := by
  rw [link_str_xl, link_str_fl]
  simp
  omega

/-- C10: name synthesis is the documented deterministic format. `create_lockfn`
yields `T ++ ".xenlk"` and `create_lockfn_link` yields
`T ++ ".xenlk." ++ host ++ "." ++ owner ++ ".x" ++ mode` (respectively `".f" ++ mode`)
whenever the allocation (and `gethostname`) succeed, with `mode` being `"r"` for
a read-only caller and `"w"` otherwise; nothing else enters the result, its
last character is the mode character, and with its terminator it fits the
`strlen(T) + strlen(".xenlk") + strlen(host) + strlen(owner) + 8` bytes allocated. -/
theorem C10_name_synthesis (env : Env) (w : World) (T owner : Str) (readonly : Bool) :
    (create_lockfn env T w).1 =
      (if env.fault w.trace.length (.malloc (T.length + LF_POSTFIX.length + 1)) = true then none
       else some (T ++ ".xenlk".toList)) ∧
    (create_lockfn_link env T LFXL_FORMAT owner readonly w).1 =
      (if env.fault w.trace.length .gethostname = true ∨
          env.fault (w.trace.length + 1) (.malloc (link_alloc T env.hostname owner)) = true then none
       else some (T ++ ".xenlk.".toList ++ env.hostname ++ ".".toList ++ owner ++ ".x".toList ++
          (if readonly then "r".toList else "w".toList))) ∧
    (create_lockfn_link env T LFFL_FORMAT owner readonly w).1 =
      (if env.fault w.trace.length .gethostname = true ∨
          env.fault (w.trace.length + 1) (.malloc (link_alloc T env.hostname owner)) = true then none
       else some (T ++ ".xenlk.".toList ++ env.hostname ++ ".".toList ++ owner ++ ".f".toList ++
          (if readonly then "r".toList else "w".toList))) ∧
    (∀ host : Str,
      link_alloc T host owner =
        T.length + ".xenlk".toList.length + host.length + owner.length + 8 ∧
      (link_str T LFXL_FORMAT host owner readonly).getLast? = some (if readonly then 'r' else 'w') ∧
      (link_str T LFFL_FORMAT host owner readonly).getLast? = some (if readonly then 'r' else 'w') ∧
      (link_str T LFXL_FORMAT host owner readonly).length + 1 ≤ link_alloc T host owner ∧
      (link_str T LFFL_FORMAT host owner readonly).length + 1 ≤ link_alloc T host owner) := by
  refine ⟨?_, ?_, ?_, ?_⟩
  · rw [create_lockfn_eq]
    simp [lockfn_str, LF_POSTFIX]
  · rw [create_lockfn_link_eq]
    by_cases h1 : env.fault w.trace.length .gethostname = true
    · simp [h1]
    · by_cases h2 : env.fault (w.trace.length + 1) (.malloc (link_alloc T env.hostname owner)) = true
      · simp [h1, h2]
      · cases readonly <;> simp [h1, h2, link_str, sprintf_LFXL, mode_str]
  · rw [create_lockfn_link_eq]
    by_cases h1 : env.fault w.trace.length .gethostname = true
    · simp [h1]
    · by_cases h2 : env.fault (w.trace.length + 1) (.malloc (link_alloc T env.hostname owner)) = true
      · simp [h1, h2]
      · cases readonly <;> simp [h1, h2, link_str, sprintf_LFFL, mode_str]
  · intro host
    have hl := link_str_length T host owner readonly
    refine ⟨rfl, ?_, ?_, ?_, ?_⟩
    · rw [link_str_xl, getLast?_snoc3]
    · rw [link_str_fl, getLast?_snoc3]
    · rw [hl.1]; simp [link_alloc, LF_POSTFIX]; omega
    · rw [hl.2]; simp [link_alloc, LF_POSTFIX]; omega

/-! ## Names that are not `"."` or `".."` -/

theorem is_dot_length {name : Str} (h : 3 ≤ name.length) : is_dot name = false := by
  unfold is_dot
  rw [Bool.or_eq_false_iff]
  constructor <;>
  · rw [beq_eq_false_iff_ne]
    intro hc
    rw [hc] at h
    simp at h

theorem is_dot_append (s t : Str) (h : '/' ∉ t) (hl : 3 ≤ t.length) :
    is_dot (base_of (s ++ t)) = false := by
  rw [base_of_append s t h]
  exact is_dot_length (by simp; omega)

theorem not_dot_lockfn (T : Str) : is_dot (base_of (lockfn_str T)) = false :=
  is_dot_append T LF_POSTFIX (by decide) (by decide)

theorem not_dot_xlink (T host owner : Str) (readonly : Bool) :
    is_dot (base_of (link_str T LFXL_FORMAT host owner readonly)) = false := by
  rw [link_str_xl]
  exact is_dot_append _ _ (by cases readonly <;> decide) (by simp)

theorem not_dot_flink (T host owner : Str) (readonly : Bool) :
    is_dot (base_of (link_str T LFFL_FORMAT host owner readonly)) = false := by
  rw [link_str_fl]
  exact is_dot_append _ _ (by cases readonly <;> decide) (by simp)

theorem dirname_of_nil (path : Str) : dirname_of [] path = dir_of path := by
  unfold dirname_of dir_of
  cases strrchr '/' path <;> simp

section blocks
variable (env : Env) (fn X Lx Lf : Str) (force readonly : Bool) (l : Locals) (w : World)

theorem skip_scan_eq : skip_scan env Lf l w =
    if l.status = LOCK_OK then
      if (open_creat env Lf w).1 = true then
        if (write env Lf Lf (open_creat env Lf w).2).1 = true then
          .leave l (write env Lf Lf (open_creat env Lf w).2).2
        else .again { l with status := LOCK_EUPDATE }
          (XSLEEP env (write env Lf Lf (open_creat env Lf w).2).2)
      else .leave { l with status := LOCK_EOPEN } (open_creat env Lf w).2
    else .leave l w := by
  unfold skip_scan
  rcases h1 : open_creat env Lf w with ⟨b1, w1⟩
  rcases h2 : write env Lf Lf w1 with ⟨b2, w2⟩
  cases b1 <;> cases b2 <;> simp [h2]

theorem force_lock_eq : force_lock env X force l w =
    .again { l with stealx := l.stealx || force, status := LOCK_EXLOCK_OPEN }
      (XSLEEP env (if force = true then (unlink env X w).2 else w)) := by
  unfold force_lock
  cases force <;> simp

theorem skip_eq : skip env fn X Lx Lf force readonly l w =
    if (write env X Lx w).1 = true then
      link_loop env fn X Lx Lf force readonly l (write env X Lx w).2
    else .again { l with status := LOCK_EXLOCK_WRITE }
      (unlink env X (XSLEEP env (write env X Lx w).2)).2 := by
  unfold skip
  rcases h1 : write env X Lx w with ⟨b1, w1⟩
  cases b1 <;> simp

theorem finish_eq : finish env fn X Lf force readonly l w =
    if l.status = LOCK_OK then
      if ((lstat env Lf w).1).isSome = true then skip_scan env Lf l (lstat env Lf w).2
      else if (lock_holder env fn X Lf force readonly writer_eval (lstat env Lf w).2).1 = true then
        skip_scan env Lf
          { l with
            stealw := (lock_holder env fn X Lf force readonly writer_eval (lstat env Lf w).2).2.1,
            status := LOCK_EHELD_WR }
          (lock_holder env fn X Lf force readonly writer_eval (lstat env Lf w).2).2.2
      else if (lock_holder env fn X Lf force readonly reader_eval
          (lock_holder env fn X Lf force readonly writer_eval (lstat env Lf w).2).2.2).1 = true then
        skip_scan env Lf
          { l with
            stealw := (lock_holder env fn X Lf force readonly writer_eval (lstat env Lf w).2).2.1,
            stealr := (lock_holder env fn X Lf force readonly reader_eval
              (lock_holder env fn X Lf force readonly writer_eval (lstat env Lf w).2).2.2).2.1,
            status := LOCK_EHELD_RD }
          (lock_holder env fn X Lf force readonly reader_eval
            (lock_holder env fn X Lf force readonly writer_eval (lstat env Lf w).2).2.2).2.2
      else
        skip_scan env Lf
          { l with
            stealw := (lock_holder env fn X Lf force readonly writer_eval (lstat env Lf w).2).2.1,
            stealr := (lock_holder env fn X Lf force readonly reader_eval
              (lock_holder env fn X Lf force readonly writer_eval (lstat env Lf w).2).2.2).2.1 }
          (lock_holder env fn X Lf force readonly reader_eval
            (lock_holder env fn X Lf force readonly writer_eval (lstat env Lf w).2).2.2).2.2
    else skip_scan env Lf l w := by
  unfold finish
  rcases h1 : lstat env Lf w with ⟨o1, w1⟩
  rcases h2 : lock_holder env fn X Lf force readonly writer_eval w1 with ⟨b2, s2, w2⟩
  rcases h3 : lock_holder env fn X Lf force readonly reader_eval w2 with ⟨b3, s3, w3⟩
  cases o1 <;> cases b2 <;> cases b3 <;> simp [h2, h3]

theorem stat_failed_eq : stat_failed env fn X Lx Lf force readonly l w =
    finish env fn X Lf force readonly { l with status := LOCK_ESTAT }
      (XSLEEP env (unlink env Lx (unlink env X w).2).2) := rfl

theorem link_loop_eq : link_loop env fn X Lx Lf force readonly l w =
    if l.retry_attempts < RETRY_MAX then
      match (lstat env X (link env X Lx w).2).1 with
      | none =>
        stat_failed env fn X Lx Lf force readonly
          { l with retry_attempts := l.retry_attempts + 1 } (lstat env X (link env X Lx w).2).2
      | some stat1 =>
        match (lstat env Lx (lstat env X (link env X Lx w).2).2).1 with
        | none =>
          stat_failed env fn X Lx Lf force readonly
            { l with retry_attempts := l.retry_attempts + 1 }
            (lstat env Lx (lstat env X (link env X Lx w).2).2).2
        | some stat2 =>
          if stat1.ino = stat2.ino then
            finish env fn X Lf force readonly
              { l with retry_attempts := l.retry_attempts + 1, status := LOCK_OK }
              (unlink env Lx (lstat env Lx (lstat env X (link env X Lx w).2).2).2).2
          else
            .again { l with retry_attempts := l.retry_attempts + 1, status := LOCK_EINODE }
              (XSLEEP env (unlink env Lx (unlink env X
                (lstat env Lx (lstat env X (link env X Lx w).2).2).2).2).2)
    else finish env fn X Lf force readonly { l with retry_attempts := l.retry_attempts + 1 } w := by
  unfold link_loop
  rcases h1 : lstat env X (link env X Lx w).2 with ⟨o1, w1⟩
  rcases h2 : lstat env Lx w1 with ⟨o2, w2⟩
  cases o1 <;> cases o2 <;> simp [h1, h2]

theorem attempt_eq : attempt env fn X Lx Lf force readonly l w =
    if l.retry_attempts > RETRY_MAX then
      finish env fn X Lf force readonly { l with retry_attempts := l.retry_attempts + 1 } w
    else if (open_excl env X w).1 = true then
      skip env fn X Lx Lf force readonly { l with retry_attempts := l.retry_attempts + 1 }
        (open_excl env X w).2
    else if (open_rdwr env X (open_excl env X w).2).1 = true then
      if (malloc env (Lx.length + 1) (open_rdwr env X (open_excl env X w).2).2).1 = true then
        match (read env X Lx.length
            (malloc env (Lx.length + 1) (open_rdwr env X (open_excl env X w).2).2).2).1 with
        | none =>
          force_lock env X force { l with retry_attempts := l.retry_attempts + 1 }
            (read env X Lx.length
              (malloc env (Lx.length + 1) (open_rdwr env X (open_excl env X w).2).2).2).2
        | some buf =>
          if buf.length ≠ Lx.length then
            force_lock env X force { l with retry_attempts := l.retry_attempts + 1 }
              (read env X Lx.length
                (malloc env (Lx.length + 1) (open_rdwr env X (open_excl env X w).2).2).2).2
          else if buf.take (Lx.length - 1) = Lx.take (Lx.length - 1) then
            if (lseek env X (read env X Lx.length
                (malloc env (Lx.length + 1) (open_rdwr env X (open_excl env X w).2).2).2).2).1
                = true then
              skip env fn X Lx Lf force readonly { l with retry_attempts := l.retry_attempts + 1 }
                (lseek env X (read env X Lx.length
                  (malloc env (Lx.length + 1) (open_rdwr env X (open_excl env X w).2).2).2).2).2
            else
              force_lock env X force { l with retry_attempts := l.retry_attempts + 1 }
                (lseek env X (read env X Lx.length
                  (malloc env (Lx.length + 1) (open_rdwr env X (open_excl env X w).2).2).2).2).2
          else
            force_lock env X force { l with retry_attempts := l.retry_attempts + 1 }
              (read env X Lx.length
                (malloc env (Lx.length + 1) (open_rdwr env X (open_excl env X w).2).2).2).2
      else
        finish env fn X Lf force readonly
          { l with retry_attempts := l.retry_attempts + 1, status := LOCK_ENOMEM }
          (malloc env (Lx.length + 1) (open_rdwr env X (open_excl env X w).2).2).2
    else
      force_lock env X force { l with retry_attempts := l.retry_attempts + 1 }
        (open_rdwr env X (open_excl env X w).2).2 := by
  unfold attempt
  rcases h1 : open_excl env X w with ⟨b1, w1⟩
  rcases h2 : open_rdwr env X w1 with ⟨b2, w2⟩
  rcases h3 : malloc env (Lx.length + 1) w2 with ⟨b3, w3⟩
  rcases h4 : read env X Lx.length w3 with ⟨o4, w4⟩
  rcases h5 : lseek env X w4 with ⟨b5, w5⟩
  cases b1 <;> cases b2 <;> cases b3 <;> cases o4 <;> cases b5 <;> simp [h2, h3, h4, h5]

end blocks
/-! ## `unlock` -/

theorem filter_not_same_file_of_not_has (w : World) (p : Str) (h : w.has p = false) :
    w.files.filter (fun e => !same_file p e) = w.files := by
  rw [has_eq_any] at h
  rw [List.filter_eq_self]
  intro e he
  have := List.any_eq_false.mp h e he
  simpa using this

theorem unlink_files_ff (env : Env) (hff : env.fault_free) (w : World) (p : Str) :
    (unlink env p w).2.files = w.files.filter (fun e => !same_file p e) := by
  rw [unlink_eq]
  by_cases h : w.has p = true
  · simp [hff _ _, h, World.remove]
  · simp only [Bool.not_eq_true] at h
    simp [hff _ _, h, filter_not_same_file_of_not_has]

theorem unlock_ff (env : Env) (hff : env.fault_free) (w : World) (T owner : Str)
    (readonly : Bool) :
    unlock env (some T) (some owner) readonly w =
      (LOCK_OK, (unlink env (link_str T LFFL_FORMAT env.hostname owner readonly)
        ((w.log .gethostname).log (.malloc (link_alloc T env.hostname owner)))).2) := by
  simp [unlock, create_lockfn_link_eq, hff _ _]

/-- `unlock` when `gethostname` and the allocation succeed: the status is
`LOCK_OK` whatever `unlink` answers. -/
theorem unlock_named (env : Env) (hG : ∀ n, env.fault n .gethostname = false)
    (hM : ∀ n k, env.fault n (.malloc k) = false) (w : World) (T owner : Str)
    (readonly : Bool) :
    unlock env (some T) (some owner) readonly w =
      (LOCK_OK, (unlink env (link_str T LFFL_FORMAT env.hostname owner readonly)
        ((w.log .gethostname).log (.malloc (link_alloc T env.hostname owner)))).2) := by
  simp [unlock, create_lockfn_link_eq, hG _, hM _ _]

/-- Whether or not it is refused, `unlink(p)` leaves every other name alone. -/
theorem unlink_others (env : Env) (w : World) (p : Str) (e : Entry)
    (h : same_file p e = false) : e ∈ (unlink env p w).2.files ↔ e ∈ w.files := by
  rw [unlink_eq]
  split
  · rfl
  · simp [World.remove, h]

/-- An `unlink(p)` that is not refused leaves no entry `p`. -/
theorem unlink_files_of (env : Env) (w : World) (p : Str)
    (hU : ∀ n, env.fault n (.unlink p) = false) :
    (unlink env p w).2.files = w.files.filter (fun e => !same_file p e) := by
  rw [unlink_eq]
  by_cases h : w.has p = true
  · simp [hU _, h, World.remove]
  · simp only [Bool.not_eq_true] at h
    simp [hU _, h, filter_not_same_file_of_not_has]

/-- C6 (amended): release is idempotent and touches only the caller's final
lock. When `gethostname` and the allocation succeed, `unlock T owner readonly`
returns `LOCK_OK` whether or not `L_f` exists and whatever `unlink` answers, a
second `unlock` returns `LOCK_OK` again, and every entry other than `L_f` is
in the directory afterwards exactly if it was there before. If moreover the
`unlink` of `L_f` is not refused, the name `L_f` does not exist afterwards, the
directory is the one before with the entry `L_f` taken out, and the second
`unlock` leaves it as it is. -/
theorem C6_unlock_idempotent (env : Env) (hG : ∀ n, env.fault n .gethostname = false)
    (hM : ∀ n k, env.fault n (.malloc k) = false) (w : World) (T owner : Str)
    (readonly : Bool) :
    (unlock env (some T) (some owner) readonly w).1 = LOCK_OK ∧
    (unlock env (some T) (some owner) readonly
      (unlock env (some T) (some owner) readonly w).2).1 = LOCK_OK ∧
    (∀ e, same_file (link_str T LFFL_FORMAT env.hostname owner readonly) e = false →
      (e ∈ (unlock env (some T) (some owner) readonly w).2.files ↔ e ∈ w.files)) ∧
    ((∀ n, env.fault n (.unlink (link_str T LFFL_FORMAT env.hostname owner readonly)) = false) →
      (unlock env (some T) (some owner) readonly w).2.has
        (link_str T LFFL_FORMAT env.hostname owner readonly) = false ∧
      (unlock env (some T) (some owner) readonly w).2.files =
        w.files.filter
          (fun e => !same_file (link_str T LFFL_FORMAT env.hostname owner readonly) e) ∧
      (unlock env (some T) (some owner) readonly
        (unlock env (some T) (some owner) readonly w).2).2.files =
        (unlock env (some T) (some owner) readonly w).2.files) := by
  refine ⟨by rw [unlock_named env hG hM], by rw [unlock_named env hG hM], ?_, ?_⟩
  · intro e he
    rw [unlock_named env hG hM]
    exact unlink_others env _ _ e he
  · intro hU
    have h1 : (unlock env (some T) (some owner) readonly w).2.has
        (link_str T LFFL_FORMAT env.hostname owner readonly) = false := by
      rw [unlock_named env hG hM]
      simp [unlink_has, hU _]
    refine ⟨h1, ?_, ?_⟩
    · rw [unlock_named env hG hM]
      simp [unlink_files_of env _ _ hU]
    · rw [unlock_named env hG hM _ T]
      simp only [unlink_files_of env _ _ hU, log_files]
      exact filter_not_same_file_of_not_has _ _ h1

/-- C6 as stated fails when the `unlink` is refused: `unlock` does not look at
its result. With the writer lock of owner `001` on `/tmp/f` in place and its
`unlink` refused, `unlock("/tmp/f", "001", 0)` returns `LOCK_OK` and the lock
file is still there. -/
theorem C6_counterexample :
    (unlock (env_refuse "/tmp/f.xenlk.h.001.fw".toList) (some "/tmp/f".toList)
      (some "001".toList) false w_held).1 = LOCK_OK ∧
    (unlock (env_refuse "/tmp/f.xenlk.h.001.fw".toList) (some "/tmp/f".toList)
      (some "001".toList) false w_held).2.has "/tmp/f.xenlk.h.001.fw".toList = true := by
  decide

theorem env0_fault_free : env0.fault_free := fun _ _ => rfl

/-- C6 at a concrete input: owner `001` releases its writer lock on `/tmp/f` twice. -/
theorem C6_unlock_idempotent_witness :
    (unlock env0 (some "/tmp/f".toList) (some "001".toList) false w_held).1 = LOCK_OK ∧
    (unlock env0 (some "/tmp/f".toList) (some "001".toList) false
      (unlock env0 (some "/tmp/f".toList) (some "001".toList) false w_held).2).1 = LOCK_OK ∧
    (unlock env0 (some "/tmp/f".toList) (some "001".toList) false w_held).2.files = [] ∧
    (unlock env0 (some "/tmp/f".toList) (some "001".toList) false
      (unlock env0 (some "/tmp/f".toList) (some "001".toList) false w_held).2).2.files = [] := by
  obtain ⟨h1, h2, _, h4⟩ := C6_unlock_idempotent env0 (fun _ => rfl) (fun _ _ => rfl) w_held
    "/tmp/f".toList "001".toList false
  obtain ⟨_, h5, h6⟩ := h4 (fun _ => rfl)
  have h7 : (unlock env0 (some "/tmp/f".toList) (some "001".toList) false w_held).2.files = [] :=
    h5.trans (by decide)
  exact ⟨h1, h2, h7, h6.trans h7⟩
theorem lock_holder_eq (env : Env) (fn X Lf : Str) (force readonly : Bool)
    (eval : Str → Bool → Bool) (w : World) :
    lock_holder env fn X Lf force readonly eval w =
    if env.fault w.trace.length (.malloc X.length) = true ∨
        env.fault (w.trace.length + 1) (.malloc (Lf.length + 8)) = true then
      (false, false, (w.log (.malloc X.length)).log (.malloc (Lf.length + 8)))
    else if env.fault (w.trace.length + 2)
        (.opendir (dirname_of (env.junk w.trace.length) X)) = true ∨
        dirname_of (env.junk w.trace.length) X = [] then
      (false, false,
        ((w.log (.malloc X.length)).log (.malloc (Lf.length + 8))).log
          (.opendir (dirname_of (env.junk w.trace.length) X)))
    else
      scan_dir env (base_of fn) (base_of X) (base_of Lf) (dirname_of (env.junk w.trace.length) X)
        (Lf.length + 8) force readonly eval
        (".".toList :: "..".toList ::
          (w.files.filter (fun e => e.dir == dirname_of (env.junk w.trace.length) X)).map
            (fun e => e.name)) false
        (((w.log (.malloc X.length)).log (.malloc (Lf.length + 8))).log
          (.opendir (dirname_of (env.junk w.trace.length) X))) := by
  unfold lock_holder
  simp only [malloc, tick, opendir_eq, log_trace, List.length_cons, log_files]
  cases env.fault w.trace.length (.malloc X.length) <;>
    cases env.fault (w.trace.length + 1) (.malloc (Lf.length + 8)) <;>
    cases env.fault (w.trace.length + 1 + 1)
      (.opendir (dirname_of (env.junk w.trace.length) X)) <;>
    by_cases hd : dirname_of (env.junk w.trace.length) X = [] <;> simp_all

/-! ## Properties that every call preserves -/

section stable
variable {C R : Str → Prop} {P : World → Prop} (hS : Stable C R P) (env : Env)
include hS

theorem stable_malloc (w : World) (n : Nat) (h : P w) : P (malloc env n w).2 := hS.log _ _ rfl h

theorem stable_XSLEEP (w : World) (h : P w) : P (XSLEEP env w) := hS.log _ _ rfl (hS.log _ _ rfl h)

theorem stable_select (w : World) (n : Nat) (h : P w) : P (select env n w) :=
  hS.tick _ n (hS.log _ (.select n) rfl h)

theorem stable_gethostname (w : World) (h : P w) : P (gethostname env w).2 := by
  rw [gethostname_snd]; exact hS.log _ _ rfl h

theorem stable_open_excl (w : World) (p : Str) (hp : C p) (h : P w) : P (open_excl env p w).2 := by
  rw [open_excl_eq]
  split
  · exact hS.log _ _ rfl h
  · rename_i hc
    simp only [not_or, Bool.not_eq_true] at hc
    exact hS.create _ _ hp (by simpa using hc.2) (hS.log _ _ rfl h)

theorem stable_open_creat (w : World) (p : Str) (hp : C p) (h : P w) :
    P (open_creat env p w).2 := by
  rw [open_creat_eq]
  split
  · exact hS.log _ _ rfl h
  · split
    · exact hS.log _ _ rfl h
    · rename_i hc
      exact hS.create _ _ hp (by simpa using hc) (hS.log _ _ rfl h)

theorem stable_open_rdwr (w : World) (p : Str) (h : P w) : P (open_rdwr env p w).2 := by
  rw [open_rdwr_eq]; exact hS.log _ _ rfl h

theorem stable_read (w : World) (p : Str) (n : Nat) (h : P w) : P (read env p n w).2 := by
  rw [read_eq]; exact hS.log _ _ rfl h

theorem stable_lseek (w : World) (p : Str) (h : P w) : P (lseek env p w).2 := hS.log _ _ rfl h

theorem stable_lstat (w : World) (p : Str) (h : P w) : P (lstat env p w).2 := by
  rw [lstat_snd]; exact hS.log _ _ rfl h

theorem stable_opendir (w : World) (d : Str) (h : P w) : P (opendir env d w).2 := by
  rw [opendir_snd]; exact hS.log _ _ rfl h

theorem stable_write (w : World) (p d : Str) (hp : C p) (h : P w) : P (write env p d w).2 := by
  rw [write_eq]
  split
  · exact hS.log _ _ rfl h
  · exact hS.write_at _ _ _ hp (hS.log _ _ rfl h)

theorem stable_link (w : World) (p q : Str) (hq : C q) (h : P w) : P (link env p q w).2 := by
  rw [link_eq]
  split
  · split
    · exact hS.log _ _ rfl h
    · rename_i hc
      simp only [not_or, Bool.not_eq_true] at hc
      exact hS.add_link _ _ _ hq (by simpa using hc.2) (hS.log _ _ rfl h)
  · exact hS.log _ _ rfl h

theorem stable_unlink (w : World) (p : Str) (hp : R p) (h : P w) : P (unlink env p w).2 := by
  rw [unlink_eq]
  split
  · exact hS.log _ _ rfl h
  · exact hS.remove _ _ hp (hS.log _ _ rfl h)

omit hS in
theorem stable_build_uname (room : Nat) (dirname d_name : Str)
    (hO : ∀ w room path, P w → P (w.log (.overrun room path))) (w : World) (h : P w) :
    P (build_uname room dirname d_name w) := by
  unfold build_uname
  split
  · exact h
  · exact hO _ _ _ h

theorem stable_scan_dir (p1 p2 p3 dirname : Str) (room : Nat) (force readonly : Bool)
    (eval : Str → Bool → Bool) (hR : force = true → ∀ p, R p)
    (hO : force = true → ∀ w room path, P w → P (w.log (.overrun room path)))
    (names : List Str) (stole : Bool) (w : World) (h : P w) :
    P (scan_dir env p1 p2 p3 dirname room force readonly eval names stole w).2.2 := by
  induction names generalizing stole w with
  | nil => exact h
  | cons d rest ih =>
    simp only [scan_dir]
    split
    · split
      · rename_i hf
        exact ih _ _ (stable_unlink hS env _ _ (hR hf _)
          (stable_build_uname _ _ _ (hO hf) _ h))
      · split
        · exact h
        · exact ih _ _ h
    · exact ih _ _ h

theorem stable_lock_holder (fn X Lf : Str) (force readonly : Bool) (eval : Str → Bool → Bool)
    (hR : force = true → ∀ p, R p)
    (hO : force = true → ∀ w room path, P w → P (w.log (.overrun room path)))
    (w : World) (h : P w) :
    P (lock_holder env fn X Lf force readonly eval w).2.2 := by
  rw [lock_holder_eq]
  split
  · exact hS.log _ _ rfl (hS.log _ _ rfl h)
  · split
    · exact hS.log _ _ rfl (hS.log _ _ rfl (hS.log _ _ rfl h))
    · exact stable_scan_dir hS env _ _ _ _ _ _ _ _ hR hO _ _ _
        (hS.log _ _ rfl (hS.log _ _ rfl (hS.log _ _ rfl h)))

end stable
section stable_lock
variable {C R : Str → Prop} {P : World → Prop} (hS : Stable C R P) (env : Env)
  (fn X Lx Lf : Str) (force readonly : Bool)
  (hX : C X) (hLx : C Lx) (hLf : C Lf) (hRX : R X) (hRLx : R Lx) (hR : force = true → ∀ p, R p)
  (hO : force = true → ∀ w room path, P w → P (w.log (.overrun room path)))
include hS hLf

theorem stable_skip_scan (l : Locals) (w : World) (h : P w) :
    P (skip_scan env Lf l w).world := by
  rw [skip_scan_eq]
  split_ifs
  · exact stable_write hS env _ _ _ hLf (stable_open_creat hS env _ _ hLf h)
  · exact stable_XSLEEP hS env _ (stable_write hS env _ _ _ hLf (stable_open_creat hS env _ _ hLf h))
  · exact stable_open_creat hS env _ _ hLf h
  · exact h

include hR hO

theorem stable_finish (l : Locals) (w : World) (h : P w) :
    P (finish env fn X Lf force readonly l w).world := by
  rw [finish_eq]
  split_ifs
  · exact stable_skip_scan hS env _ hLf _ _ (stable_lstat hS env _ _ h)
  · exact stable_skip_scan hS env _ hLf _ _
      (stable_lock_holder hS env _ _ _ _ _ _ hR hO _ (stable_lstat hS env _ _ h))
  · exact stable_skip_scan hS env _ hLf _ _
      (stable_lock_holder hS env _ _ _ _ _ _ hR hO _
        (stable_lock_holder hS env _ _ _ _ _ _ hR hO _ (stable_lstat hS env _ _ h)))
  · exact stable_skip_scan hS env _ hLf _ _
      (stable_lock_holder hS env _ _ _ _ _ _ hR hO _
        (stable_lock_holder hS env _ _ _ _ _ _ hR hO _ (stable_lstat hS env _ _ h)))
  · exact stable_skip_scan hS env _ hLf _ _ h

include hRX hRLx

theorem stable_stat_failed (l : Locals) (w : World) (h : P w) :
    P (stat_failed env fn X Lx Lf force readonly l w).world := by
  rw [stat_failed_eq]
  exact stable_finish hS env _ _ _ _ _ hLf hR hO _ _
    (stable_XSLEEP hS env _ (stable_unlink hS env _ _ hRLx (stable_unlink hS env _ _ hRX h)))

include hLx

theorem stable_link_loop (l : Locals) (w : World) (h : P w) :
    P (link_loop env fn X Lx Lf force readonly l w).world := by
  have h1 := stable_lstat hS env _ X (stable_link hS env _ X Lx hLx h)
  have h2 := stable_lstat hS env _ Lx h1
  rw [link_loop_eq]
  split_ifs
  · split
    · exact stable_stat_failed hS env _ _ _ _ _ _ hLf hRX hRLx hR hO _ _ h1
    · split
      · exact stable_stat_failed hS env _ _ _ _ _ _ hLf hRX hRLx hR hO _ _ h2
      · split_ifs
        · exact stable_finish hS env _ _ _ _ _ hLf hR hO _ _ (stable_unlink hS env _ _ hRLx h2)
        · exact stable_XSLEEP hS env _
            (stable_unlink hS env _ _ hRLx (stable_unlink hS env _ _ hRX h2))
  · exact stable_finish hS env _ _ _ _ _ hLf hR hO _ _ h

include hX

theorem stable_skip (l : Locals) (w : World) (h : P w) :
    P (skip env fn X Lx Lf force readonly l w).world := by
  rw [skip_eq]
  split_ifs
  · exact stable_link_loop hS env _ _ _ _ _ _ hLx hLf hRX hRLx hR hO _ _
      (stable_write hS env _ _ _ hX h)
  · exact stable_unlink hS env _ _ hRX (stable_XSLEEP hS env _ (stable_write hS env _ _ _ hX h))

omit hLx hLf hRLx hR hO hX in
theorem stable_force_lock (l : Locals) (w : World) (h : P w) :
    P (force_lock env X force l w).world := by
  rw [force_lock_eq]
  split_ifs
  · exact stable_XSLEEP hS env _ (stable_unlink hS env _ _ hRX h)
  · exact stable_XSLEEP hS env _ h

theorem stable_attempt (l : Locals) (w : World) (h : P w) :
    P (attempt env fn X Lx Lf force readonly l w).world := by
  have h1 := stable_open_excl hS env _ X hX h
  have h2 := stable_open_rdwr hS env _ X h1
  have h3 := stable_malloc hS env _ (Lx.length + 1) h2
  have h4 := stable_read hS env _ X Lx.length h3
  have h5 := stable_lseek hS env _ X h4
  rw [attempt_eq]
  repeat' split
  all_goals first
    | exact stable_finish hS env _ _ _ _ _ hLf hR hO _ _ h
    | exact stable_finish hS env _ _ _ _ _ hLf hR hO _ _ h3
    | exact stable_skip hS env _ _ _ _ _ _ hX hLx hLf hRX hRLx hR hO _ _ h1
    | exact stable_skip hS env _ _ _ _ _ _ hX hLx hLf hRX hRLx hR hO _ _ h5
    | exact stable_force_lock hS env _ _ hRX _ _ h2
    | exact stable_force_lock hS env _ _ hRX _ _ h4
    | exact stable_force_lock hS env _ _ hRX _ _ h5

theorem stable_try_again (fuel : Nat) (l : Locals) (w : World) (h : P w) (r : Locals × World)
    (hr : try_again env fn X Lx Lf force readonly fuel l w = some r) : P r.2 := by
  induction fuel generalizing l w with
  | zero => simp [try_again] at hr
  | succ n ih =>
    have ha := stable_attempt hS env fn X Lx Lf force readonly hX hLx hLf hRX hRLx hR hO l w h
    simp only [try_again] at hr
    cases hA : attempt env fn X Lx Lf force readonly l w with
    | leave l1 w1 =>
      rw [hA] at hr ha
      simp only [Option.some.injEq] at hr
      subst hr
      exact ha
    | again l1 w1 =>
      rw [hA] at hr ha
      exact ih l1 w1 ha hr

omit hLx hLf hRLx hR hO hX in
theorem stable_lock_exit (l : Locals) (w : World) (h : P w) :
    P (lock_exit env X force l w).2 := by
  unfold lock_exit
  simp only
  split_ifs
  · exact stable_unlink hS env _ _ hRX (stable_select hS env _ _ h)
  · exact stable_unlink hS env _ _ hRX h

end stable_lock
/-! ## `lock` as a whole -/

/-- The initial values of the locals of `lock`. -/
theorem lock_eq (env : Env) (T owner : Str) (force readonly : Bool) (w : World) :
    lock env (some T) (some owner) force readonly w =
    match (create_lockfn env T w).1 with
    | none => some (LOCK_ENOMEM, (create_lockfn env T w).2)
    | some X =>
      match (create_lockfn_link env T LFXL_FORMAT owner readonly (create_lockfn env T w).2).1 with
      | none =>
        some (lock_exit env X force ⟨0, LOCK_ENOMEM, false, false, false⟩
          (create_lockfn_link env T LFXL_FORMAT owner readonly (create_lockfn env T w).2).2)
      | some Lx =>
        match (create_lockfn_link env T LFFL_FORMAT owner readonly
            (create_lockfn_link env T LFXL_FORMAT owner readonly
              (create_lockfn env T w).2).2).1 with
        | none =>
          some (lock_exit env X force ⟨0, LOCK_ENOMEM, false, false, false⟩
            (create_lockfn_link env T LFFL_FORMAT owner readonly
              (create_lockfn_link env T LFXL_FORMAT owner readonly
                (create_lockfn env T w).2).2).2)
        | some Lf =>
          (try_again env T X Lx Lf force readonly (RETRY_MAX + 2)
            ⟨0, LOCK_OK, false, false, false⟩
            (create_lockfn_link env T LFFL_FORMAT owner readonly
              (create_lockfn_link env T LFXL_FORMAT owner readonly
                (create_lockfn env T w).2).2).2).bind
            (fun r => if r.2.overruns = w.overruns then some (lock_exit env X force r.1 r.2)
              else none) := by
  simp only [lock]
  rcases h1 : create_lockfn env T w with ⟨o1, w1⟩
  rcases h2 : create_lockfn_link env T LFXL_FORMAT owner readonly w1 with ⟨o2, w2⟩
  rcases h3 : create_lockfn_link env T LFFL_FORMAT owner readonly w2 with ⟨o3, w3⟩
  cases o1 <;> cases o2 <;> cases o3 <;> simp only [h2, h3]
  cases try_again env T _ _ _ force readonly (RETRY_MAX + 2) ⟨0, LOCK_OK, false, false, false⟩ w3
    <;> rfl

/-! ### Runs within the bounds of `uname` -/

theorem overruns_log (w : World) (c : Call) (h : c.is_overrun = false) :
    (w.log c).overruns = w.overruns := by
  simp [World.overruns, World.log, List.countP_cons, h]

/-- The number of overruns changes with nothing but an overrun. -/
theorem stable_overruns (n : Nat) :
    Stable (fun _ => True) (fun _ => True) (fun w => w.overruns = n) where
  log := fun w c hc h => by rw [overruns_log w c hc]; exact h
  tick := fun _ _ h => h
  create := fun _ _ _ _ h => h
  add_link := fun _ _ _ _ _ h => h
  write_at := fun _ _ _ _ h => h
  remove := fun _ _ _ h => h

theorem create_lockfn_overruns (env : Env) (T : Str) (w : World) :
    (create_lockfn env T w).2.overruns = w.overruns := by
  unfold create_lockfn
  have h := stable_malloc (stable_overruns w.overruns) env w (T.length + LF_POSTFIX.length + 1) rfl
  split <;> rename_i h1 <;> rw [h1] at h <;> exact h

theorem create_lockfn_link_overruns (env : Env) (T fmt owner : Str) (readonly : Bool)
    (w : World) : (create_lockfn_link env T fmt owner readonly w).2.overruns = w.overruns := by
  unfold create_lockfn_link
  have h := stable_gethostname (stable_overruns w.overruns) env w rfl
  split
  · rename_i h1
    rw [h1] at h
    exact h
  · rename_i hostname w1 h1
    rw [h1] at h
    have h2 := stable_malloc (stable_overruns w.overruns) env w1
      (link_alloc T hostname owner) h
    split <;> rename_i h3 <;> rw [h3] at h2 <;> exact h2

/-- A non-forcing `lock` builds no name in `uname`. -/
theorem try_again_overruns (env : Env) (fn X Lx Lf : Str) (readonly : Bool) (fuel : Nat)
    (l : Locals) (w : World) (r : Locals × World)
    (hr : try_again env fn X Lx Lf false readonly fuel l w = some r) :
    r.2.overruns = w.overruns :=
  stable_try_again (stable_overruns w.overruns) env fn X Lx Lf false readonly trivial trivial
    trivial trivial trivial (fun h => by cases h) (fun h => by cases h) fuel l w rfl r hr

/-- A non-forcing `lock` in terms of its retry loop. -/
theorem lock_nonforce_eq (env : Env) (T owner : Str) (readonly : Bool) (w : World) :
    lock env (some T) (some owner) false readonly w =
    match (create_lockfn env T w).1 with
    | none => some (LOCK_ENOMEM, (create_lockfn env T w).2)
    | some X =>
      match (create_lockfn_link env T LFXL_FORMAT owner readonly (create_lockfn env T w).2).1 with
      | none =>
        some (lock_exit env X false ⟨0, LOCK_ENOMEM, false, false, false⟩
          (create_lockfn_link env T LFXL_FORMAT owner readonly (create_lockfn env T w).2).2)
      | some Lx =>
        match (create_lockfn_link env T LFFL_FORMAT owner readonly
            (create_lockfn_link env T LFXL_FORMAT owner readonly
              (create_lockfn env T w).2).2).1 with
        | none =>
          some (lock_exit env X false ⟨0, LOCK_ENOMEM, false, false, false⟩
            (create_lockfn_link env T LFFL_FORMAT owner readonly
              (create_lockfn_link env T LFXL_FORMAT owner readonly
                (create_lockfn env T w).2).2).2)
        | some Lf =>
          (try_again env T X Lx Lf false readonly (RETRY_MAX + 2)
            ⟨0, LOCK_OK, false, false, false⟩
            (create_lockfn_link env T LFFL_FORMAT owner readonly
              (create_lockfn_link env T LFXL_FORMAT owner readonly
                (create_lockfn env T w).2).2).2).map
            (fun r => lock_exit env X false r.1 r.2) := by
  rw [lock_eq]
  cases (create_lockfn env T w).1 with
  | none => rfl
  | some X =>
    cases (create_lockfn_link env T LFXL_FORMAT owner readonly (create_lockfn env T w).2).1 with
    | none => rfl
    | some Lx =>
      cases (create_lockfn_link env T LFFL_FORMAT owner readonly
          (create_lockfn_link env T LFXL_FORMAT owner readonly
            (create_lockfn env T w).2).2).1 with
      | none => rfl
      | some Lf =>
        simp only
        cases hr : try_again env T X Lx Lf false readonly (RETRY_MAX + 2)
            ⟨0, LOCK_OK, false, false, false⟩
            (create_lockfn_link env T LFFL_FORMAT owner readonly
              (create_lockfn_link env T LFXL_FORMAT owner readonly
                (create_lockfn env T w).2).2).2 with
        | none => rfl
        | some r =>
          have h := try_again_overruns env T X Lx Lf readonly _ _ _ r hr
          rw [create_lockfn_link_overruns, create_lockfn_link_overruns,
            create_lockfn_overruns] at h
          simp [h]

/-- The world in which `lock` reaches `try_again` when its three names could
be built. -/
theorem names_world_eq (env : Env) (hff : env.fault_free) (T owner : Str) (readonly : Bool)
    (w : World) :
    (create_lockfn_link env T LFFL_FORMAT owner readonly
      (create_lockfn_link env T LFXL_FORMAT owner readonly (create_lockfn env T w).2).2).2 =
    names_world env T owner w := by
  simp [create_lockfn_eq, create_lockfn_link_eq, hff _ _, names_world]

theorem names_world_overruns (env : Env) (T owner : Str) (w : World) :
    (names_world env T owner w).overruns = w.overruns := by
  simp [names_world, overruns_log, Call.is_overrun]

theorem lock_ff_any (env : Env) (hff : env.fault_free) (T owner : Str) (force readonly : Bool)
    (w : World) :
    lock env (some T) (some owner) force readonly w =
      (try_again env T (lockfn_str T) (link_str T LFXL_FORMAT env.hostname owner readonly)
        (link_str T LFFL_FORMAT env.hostname owner readonly) force readonly (RETRY_MAX + 2)
        ⟨0, LOCK_OK, false, false, false⟩ (names_world env T owner w)).bind
        (fun r => if r.2.overruns = w.overruns then
          some (lock_exit env (lockfn_str T) force r.1 r.2) else none) := by
  rw [lock_eq, names_world_eq env hff]
  simp [create_lockfn_eq, create_lockfn_link_eq, hff _ _]

theorem lock_ff (env : Env) (hff : env.fault_free) (T owner : Str) (readonly : Bool)
    (w : World) :
    lock env (some T) (some owner) false readonly w =
      (try_again env T (lockfn_str T) (link_str T LFXL_FORMAT env.hostname owner readonly)
        (link_str T LFFL_FORMAT env.hostname owner readonly) false readonly (RETRY_MAX + 2)
        ⟨0, LOCK_OK, false, false, false⟩ (names_world env T owner w)).map
        (fun r => lock_exit env (lockfn_str T) false r.1 r.2) := by
  rw [lock_nonforce_eq, names_world_eq env hff]
  simp [create_lockfn_eq, create_lockfn_link_eq, hff _ _]

/-! ### Termination -/

section termination
variable (env : Env) (fn X Lx Lf : Str) (force readonly : Bool)

theorem skip_scan_progress (n : Nat) (l : Locals) (w : World) (h : n < l.retry_attempts) :
    (skip_scan env Lf l w).progress n := by
  rw [skip_scan_eq]
  split_ifs <;> simp [Next.progress, h]

theorem finish_progress (n : Nat) (l : Locals) (w : World) (h : n < l.retry_attempts) :
    (finish env fn X Lf force readonly l w).progress n := by
  rw [finish_eq]
  split_ifs <;> exact skip_scan_progress env Lf n _ _ h

theorem link_loop_progress (n : Nat) (l : Locals) (w : World) (h : n ≤ l.retry_attempts) :
    (link_loop env fn X Lx Lf force readonly l w).progress n := by
  rw [link_loop_eq]
  repeat' split
  all_goals first
    | exact finish_progress env fn X Lf force readonly n _ _ (by simp; omega)
    | (simp [Next.progress]; omega)

theorem skip_progress (n : Nat) (l : Locals) (w : World) (h : n < l.retry_attempts) :
    (skip env fn X Lx Lf force readonly l w).progress n := by
  rw [skip_eq]
  split_ifs
  · exact link_loop_progress env fn X Lx Lf force readonly n _ _ (by omega)
  · simp [Next.progress, h]

theorem force_lock_progress (n : Nat) (l : Locals) (w : World) (h : n < l.retry_attempts) :
    (force_lock env X force l w).progress n := by
  rw [force_lock_eq]
  simp [Next.progress, h]

theorem attempt_progress (l : Locals) (w : World) :
    (attempt env fn X Lx Lf force readonly l w).progress l.retry_attempts := by
  rw [attempt_eq]
  repeat' split
  all_goals first
    | exact finish_progress env fn X Lf force readonly _ _ _ (by simp)
    | exact skip_progress env fn X Lx Lf force readonly _ _ _ (by simp)
    | exact force_lock_progress env X force _ _ _ (by simp)

/-- Once the retry counter has passed `RETRY_MAX` with a failure status, the
next pass through `try_again` leaves the function. -/
theorem attempt_exhausted (l : Locals) (w : World) (h1 : RETRY_MAX < l.retry_attempts)
    (h2 : l.status ≠ LOCK_OK) :
    attempt env fn X Lx Lf force readonly l w =
      .leave { l with retry_attempts := l.retry_attempts + 1 } w := by
  rw [attempt_eq, if_pos h1, finish_eq, if_neg (by simpa using h2), skip_scan_eq,
    if_neg (by simpa using h2)]

theorem try_again_total (fuel : Nat) (l : Locals) (w : World)
    (h0 : l.status ≠ LOCK_OK ∨ l.retry_attempts = 0) (h1 : 0 < fuel)
    (h2 : RETRY_MAX + 2 ≤ fuel + l.retry_attempts) :
    ∃ r, try_again env fn X Lx Lf force readonly fuel l w = some r := by
  induction fuel generalizing l w with
  | zero => omega
  | succ n ih =>
    simp only [try_again]
    have hp := attempt_progress env fn X Lx Lf force readonly l w
    cases hA : attempt env fn X Lx Lf force readonly l w with
    | leave l1 w1 => exact ⟨(l1, w1), rfl⟩
    | again l1 w1 =>
      rw [hA] at hp
      simp only [Next.progress] at hp
      have hn : 0 < n := by
        by_contra hn
        have hn0 : n = 0 := by omega
        subst hn0
        have hr : RETRY_MAX < l.retry_attempts := by omega
        have hs : l.status ≠ LOCK_OK := by
          rcases h0 with h0 | h0
          · exact h0
          · simp [RETRY_MAX] at hr; omega
        rw [attempt_exhausted env fn X Lx Lf force readonly l w hr hs] at hA
        cases hA
      exact ih l1 w1 (Or.inl hp.1) hn (by omega)

omit force in
/-- A non-forcing `lock` returns: the fuel of the model is never used up.
(For a forcing `lock` the retry loop ends as well, by `try_again_total`; the
run has a result unless a scan overruns `uname`.) -/
theorem lock_total (fn_to_lock uuid : Option Str) (w : World) :
    ∃ r, lock env fn_to_lock uuid false readonly w = some r := by
  cases fn_to_lock with
  | none => exact ⟨_, rfl⟩
  | some T =>
    cases uuid with
    | none => exact ⟨_, rfl⟩
    | some owner =>
      rw [lock_nonforce_eq]
      generalize (create_lockfn env T w).1 = o1
      generalize (create_lockfn env T w).2 = w1
      generalize (create_lockfn_link env T LFXL_FORMAT owner readonly w1).1 = o2
      generalize (create_lockfn_link env T LFXL_FORMAT owner readonly w1).2 = w2
      generalize (create_lockfn_link env T LFFL_FORMAT owner readonly w2).1 = o3
      generalize (create_lockfn_link env T LFFL_FORMAT owner readonly w2).2 = w3
      cases o1 with
      | none => exact ⟨_, rfl⟩
      | some X =>
        cases o2 with
        | none => exact ⟨_, rfl⟩
        | some Lx =>
          cases o3 with
          | none => exact ⟨_, rfl⟩
          | some Lf =>
            obtain ⟨r, hr⟩ := try_again_total env T X Lx Lf false readonly (RETRY_MAX + 2)
              ⟨0, LOCK_OK, false, false, false⟩ w3 (Or.inr rfl) (by simp) (by simp)
            exact ⟨_, by simp only [hr]; rfl⟩

end termination
/-! ## `lock_delta` -/

theorem final_is_sibling {T : Str} {e : Entry} (h : is_final T e) : is_sibling T e := by
  obtain ⟨ro, hd, host, owner, _, _, hn⟩ := h
  refine ⟨hd, ?_, ?_⟩
  · rw [hn, final_name]; exact List.prefix_append _ _
  · rw [hn, final_name, sprintf_LFFL]
    intro hc
    have := congrArg List.length hc
    simp at this

theorem not_same_file_of_not_has {w : World} {p : Str} (h : w.has p = false) :
    ∀ e ∈ w.files, same_file p e = false := by
  rw [has_eq_any] at h
  exact fun e he => List.any_eq_false.mp h e he |> fun h => by simpa using h

section fault_free
variable (env : Env) (hff : env.fault_free) (w : World)
include hff

theorem malloc_ff (n : Nat) : malloc env n w = (true, w.log (.malloc n)) := by
  simp [malloc, tick, hff _ _]

theorem open_excl_ff (p : Str) (h : w.has p = false) :
    open_excl env p w = (true, (w.log (.open_excl p)).create p) := by
  simp [open_excl_eq, hff _ _, h]

theorem open_excl_ff_exists (p : Str) (h : w.has p = true) :
    open_excl env p w = (false, w.log (.open_excl p)) := by
  simp [open_excl_eq, hff _ _, h]

theorem open_rdwr_ff (p : Str) : open_rdwr env p w = (w.has p, w.log (.open_rdwr p)) := by
  simp [open_rdwr_eq, hff _ _]

theorem open_creat_ff (p : Str) (h : w.has p = false) :
    open_creat env p w = (true, (w.log (.open_creat p)).create p) := by
  simp [open_creat_eq, hff _ _, h]

theorem open_creat_ff_exists (p : Str) (h : w.has p = true) :
    open_creat env p w = (true, w.log (.open_creat p)) := by
  simp [open_creat_eq, hff _ _, h]

theorem lstat_ff (p : Str) (hd : is_dot (base_of p) = false) :
    lstat env p w = (w.lookup p, w.log (.lstat p)) := by
  simp [lstat_eq _ _ _ hd, hff _ _]

theorem read_ff (p : Str) (n : Nat) :
    read env p n w = ((w.lookup p).map (fun e => e.content.take n), w.log (.read p n)) := by
  simp [read_eq, hff _ _]

theorem lseek_ff (p : Str) : lseek env p w = (true, w.log (.lseek p)) := by
  simp [lseek, tick, hff _ _]

theorem write_ff (p d : Str) : write env p d w = (true, (w.log (.write p d)).write_at p d) := by
  simp [write_eq, hff _ _]

theorem unlink_ff (p : Str) (h : w.has p = true) :
    unlink env p w = (true, (w.log (.unlink p)).remove p) := by
  simp [unlink_eq, hff _ _, h]

theorem unlink_ff_absent (p : Str) (h : w.has p = false) :
    unlink env p w = (false, w.log (.unlink p)) := by
  simp [unlink_eq, hff _ _, h]

end fault_free

theorem final_name_length (T host owner : Str) (readonly : Bool) :
    (final_name T host owner readonly).length = (base_of T).length + host.length + owner.length + 11 := by
  cases readonly <;> simp [final_name, sprintf_LFFL, mode_str] <;> omega

theorem key_lockfn_ne_link (T format host owner : Str) (readonly : Bool)
    (hf : format = LFXL_FORMAT ∨ format = LFFL_FORMAT) :
    key (lockfn_str T) ≠ key (link_str T format host owner readonly) := by
  have hl := link_str_length T host owner readonly
  have hlen : (link_str T format host owner readonly).length =
      T.length + host.length + owner.length + 11 := by
    rcases hf with rfl | rfl
    · exact hl.1
    · exact hl.2
  have hx : (lockfn_str T).length = T.length + 6 := by simp [lockfn_str, LF_POSTFIX]
  apply key_ne_of_length
  · intro h
    have := congrArg List.length h
    omega
  · omega
  · omega

theorem key_xlink_ne_flink (T host owner : Str) (readonly : Bool) :
    key (link_str T LFXL_FORMAT host owner readonly) ≠
      key (link_str T LFFL_FORMAT host owner readonly) := by
  have hl := link_str_length T host owner readonly
  apply key_ne_of_length
  · rw [link_str_xl, link_str_fl]
    intro h
    have := List.append_cancel_left h
    simp at this
  · omega
  · omega

/-! ## Distinct names in a directory -/

theorem stable_nodup :
    Stable (fun _ => True) (fun _ => True)
      (fun w => (w.files.map (fun e => (e.dir, e.name))).Nodup) where
  log := fun _ _ _ h => h
  tick := fun _ _ h => h
  create := by
    intro w p _ hp h
    have hn := not_same_file_of_not_has hp
    simp only [World.create, List.map_append, List.map_cons, List.map_nil]
    rw [List.nodup_append]
    refine ⟨h, by simp, ?_⟩
    intro a ha hb
    simp only [List.mem_singleton] at hb
    obtain ⟨e, he, hea⟩ := List.mem_map.mp ha
    have := hn e he
    rw [Bool.eq_false_iff, Ne, same_file_iff] at this
    apply this
    rw [hea, hb, key]
  add_link := by
    intro w e0 p _ hp h
    have hn := not_same_file_of_not_has hp
    simp only [World.add_link, List.map_append, List.map_cons, List.map_nil]
    rw [List.nodup_append]
    refine ⟨h, by simp, ?_⟩
    intro a ha hb
    simp only [List.mem_singleton] at hb
    obtain ⟨e, he, hea⟩ := List.mem_map.mp ha
    have := hn e he
    rw [Bool.eq_false_iff, Ne, same_file_iff] at this
    apply this
    rw [hea, hb, key]
  write_at := by
    intro w p d _ h
    simp only [World.write_at, List.map_map]
    have : ((fun e : Entry => (e.dir, e.name)) ∘ fun e =>
        if same_file p e = true then
          { e with content := d ++ List.drop d.length e.content, mtime := w.clock }
        else e) = fun e => (e.dir, e.name) := by
      funext e
      simp only [Function.comp]
      split <;> rfl
    rw [this]
    exact h
  remove := by
    intro w p _ h
    simp only [World.remove]
    exact List.Nodup.sublist (List.Sublist.map _ (List.filter_sublist _)) h

theorem filter_length_one (fs : List Entry) (hnd : (fs.map (fun e => (e.dir, e.name))).Nodup)
    (p : Str) (h : fs.any (same_file p) = true) : (fs.filter (same_file p)).length = 1 := by
  induction fs with
  | nil => simp at h
  | cons x xs ih =>
    simp only [List.map_cons, List.nodup_cons] at hnd
    by_cases hx : same_file p x = true
    · have hnone : ∀ e ∈ xs, same_file p e = false := by
        intro e he
        rw [Bool.eq_false_iff]
        intro hc
        apply hnd.1
        rw [same_file_iff] at hx hc
        rw [hx, ← hc]
        exact List.mem_map.mpr ⟨e, he, rfl⟩
      have : xs.filter (same_file p) = [] := by
        rw [List.filter_eq_nil_iff]
        intro e he
        simp [hnone e he]
      simp [List.filter_cons, hx, this]
    · simp only [Bool.not_eq_true] at hx
      simp only [List.any_cons, hx, Bool.false_or] at h
      simp [List.filter_cons, hx, ih hnd.2 h]
/-! ## What a successful pass through `lock` leaves behind -/

theorem open_creat_fst (env : Env) (w : World) (p : Str) :
    (open_creat env p w).1 = !env.fault w.trace.length (.open_creat p) := by
  rw [open_creat_eq]
  split
  · rename_i h; simp [h]
  · rename_i h
    split <;> simp [h]

theorem write_fst (env : Env) (w : World) (p d : Str) :
    (write env p d w).1 = !env.fault w.trace.length (.write p d) := by
  rw [write_eq]
  split <;> rename_i h <;> simp [h]

/-- A name that is absent stays absent as long as no call creates it. -/
theorem stable_absent (q : Str) :
    Stable (fun p => key p ≠ key q) (fun _ => True) (fun w => w.has q = false) where
  log := fun _ _ _ h => h
  tick := fun _ _ h => h
  create := by
    intro w p hp _ h
    simp [create_has, h, hp]
  add_link := by
    intro w e p hp _ h
    simp [add_link_has, h, hp]
  write_at := by
    intro w p d _ h
    simp [write_at_has, h]
  remove := by
    intro w p _ h
    simp [remove_has, h]

section held
variable (env : Env) (fn X Lx Lf : Str) (hU : ∀ n, env.fault n (.unlink Lx) = false)
  (force readonly : Bool) (hk : key Lf ≠ key Lx)
include hk

theorem skip_scan_held (l : Locals) (w : World) (h : l.status = LOCK_OK → w.has Lx = false) :
    (skip_scan env Lf l w).held Lx Lf := by
  rw [skip_scan_eq]
  split_ifs with h1 h2 h3
  · intro _
    rw [open_creat_fst] at h2
    simp only [Bool.not_eq_eq_eq_not, Bool.not_true] at h2
    simp [write_has, open_creat_has, h2, hk, h h1]
  · trivial
  · intro hc
    simp at hc
  · intro hc
    exact absurd hc h1

theorem finish_held (l : Locals) (w : World) (h : l.status = LOCK_OK → w.has Lx = false) :
    (finish env fn X Lf force readonly l w).held Lx Lf := by
  have hst := stable_absent Lx
  rw [finish_eq]
  split_ifs with h1
  · exact skip_scan_held env Lx Lf hk _ _ (fun _ => by simpa using h h1)
  · exact skip_scan_held env Lx Lf hk _ _ (fun hc => by simp at hc)
  · exact skip_scan_held env Lx Lf hk _ _ (fun hc => by simp at hc)
  · refine skip_scan_held env Lx Lf hk _ _ (fun _ => ?_)
    exact stable_lock_holder hst env _ _ _ _ _ _ (fun _ _ => trivial) (fun _ _ _ _ h => h) _
      (stable_lock_holder hst env _ _ _ _ _ _ (fun _ _ => trivial) (fun _ _ _ _ h => h) _ (by simpa using h h1))
  · exact skip_scan_held env Lx Lf hk _ _ (fun hc => absurd hc h1)

include hU

theorem link_loop_held (l : Locals) (w : World)
    (h : l.status = LOCK_OK → l.retry_attempts < RETRY_MAX) :
    (link_loop env fn X Lx Lf force readonly l w).held Lx Lf := by
  rw [link_loop_eq]
  repeat' split
  all_goals first
    | trivial
    | (refine finish_held env fn X Lx Lf force readonly hk _ _ (fun hc => ?_)
       first
         | (simp at hc; done)
         | (simp [unlink_has, hU])
         | (have hh := h hc; omega))

theorem skip_held (l : Locals) (w : World)
    (h : l.status = LOCK_OK → l.retry_attempts < RETRY_MAX) :
    (skip env fn X Lx Lf force readonly l w).held Lx Lf := by
  rw [skip_eq]
  split_ifs
  · exact link_loop_held env fn X Lx Lf hU force readonly hk _ _ h
  · trivial

theorem attempt_held (l : Locals) (w : World)
    (h : l.status = LOCK_OK → l.retry_attempts = 0) :
    (attempt env fn X Lx Lf force readonly l w).held Lx Lf := by
  rw [attempt_eq]
  simp only [force_lock_eq]
  repeat' split
  all_goals first
    | trivial
    | (refine skip_held env fn X Lx Lf hU force readonly hk _ _ (fun hc => ?_)
       have := h hc
       simp only [RETRY_MAX]
       omega)
    | (refine finish_held env fn X Lx Lf force readonly hk _ _ (fun hc => ?_)
       first
         | (simp at hc; done)
         | (have hh := h hc; simp only [RETRY_MAX] at *; omega))

theorem try_again_held (fuel : Nat) (l : Locals) (w : World)
    (h : l.status = LOCK_OK → l.retry_attempts = 0) (r : Locals × World)
    (hr : try_again env fn X Lx Lf force readonly fuel l w = some r)
    (hs : r.1.status = LOCK_OK) : r.2.has Lf = true ∧ r.2.has Lx = false := by
  induction fuel generalizing l w with
  | zero => simp [try_again] at hr
  | succ n ih =>
    have ha := attempt_held env fn X Lx Lf hU force readonly hk l w h
    have hp := attempt_progress env fn X Lx Lf force readonly l w
    simp only [try_again] at hr
    cases hA : attempt env fn X Lx Lf force readonly l w with
    | leave l1 w1 =>
      rw [hA] at hr ha
      simp only [Option.some.injEq] at hr
      subst hr
      exact ha hs
    | again l1 w1 =>
      rw [hA] at hr hp
      exact ih l1 w1 (fun hc => absurd hc hp.1) hr

end held
/-! ## The ways `lock` returns -/

theorem create_lockfn_files (env : Env) (T : Str) (w : World) :
    (create_lockfn env T w).2.files = w.files ∧ (create_lockfn env T w).2.clock = w.clock := by
  rw [create_lockfn_eq]; exact ⟨rfl, rfl⟩

theorem create_lockfn_link_files (env : Env) (T format owner : Str) (readonly : Bool)
    (w : World) :
    (create_lockfn_link env T format owner readonly w).2.files = w.files ∧
    (create_lockfn_link env T format owner readonly w).2.clock = w.clock := by
  rw [create_lockfn_link_eq]
  split <;> exact ⟨rfl, rfl⟩

theorem create_lockfn_some (env : Env) (T X : Str) (w : World)
    (h : (create_lockfn env T w).1 = some X) : X = lockfn_str T := by
  rw [create_lockfn_eq] at h
  simp only at h
  split at h
  · simp at h
  · simpa using h.symm

theorem create_lockfn_link_some (env : Env) (T format owner L : Str) (readonly : Bool)
    (w : World) (h : (create_lockfn_link env T format owner readonly w).1 = some L) :
    L = link_str T format env.hostname owner readonly := by
  rw [create_lockfn_link_eq] at h
  split at h
  · simp at h
  · simp only at h
    split at h
    · simp at h
    · simpa using h.symm

/-- Every return of `lock` with non-null arguments: a failed allocation of
`lockfn`; a failed synthesis of a link name, followed by the final unlink; or
the `try_again` loop followed by the end of the function. -/
theorem lock_cases (env : Env) (T owner : Str) (force readonly : Bool) (w w1 : World)
    (s : Status) (h : lock env (some T) (some owner) force readonly w = some (s, w1)) :
    (s = LOCK_ENOMEM ∧ w1.files = w.files) ∨
    (s = LOCK_ENOMEM ∧ ∃ w0, w0.files = w.files ∧ w1 = (unlink env (lockfn_str T) w0).2) ∨
    (∃ w0 r, w0.files = w.files ∧ w0.clock = w.clock ∧
      try_again env T (lockfn_str T) (link_str T LFXL_FORMAT env.hostname owner readonly)
        (link_str T LFFL_FORMAT env.hostname owner readonly) force readonly (RETRY_MAX + 2)
        ⟨0, LOCK_OK, false, false, false⟩ w0 = some r ∧
      (s, w1) = lock_exit env (lockfn_str T) force r.1 r.2) := by
  rw [lock_eq] at h
  have f1 := create_lockfn_files env T w
  have f2 := create_lockfn_link_files env T LFXL_FORMAT owner readonly (create_lockfn env T w).2
  have f3 := create_lockfn_link_files env T LFFL_FORMAT owner readonly
    (create_lockfn_link env T LFXL_FORMAT owner readonly (create_lockfn env T w).2).2
  split at h
  · left
    simp only [Option.some.injEq, Prod.mk.injEq] at h
    exact ⟨h.1.symm, by rw [← h.2, f1.1]⟩
  · rename_i X hX
    have := create_lockfn_some env T X w hX
    subst this
    split at h
    · right; left
      simp only [Option.some.injEq, lock_exit, Prod.mk.injEq] at h
      exact ⟨h.1.symm,
        (create_lockfn_link env T LFXL_FORMAT owner readonly (create_lockfn env T w).2).2,
        by rw [f2.1, f1.1], by rw [← h.2]; simp⟩
    · rename_i Lx hLx
      have := create_lockfn_link_some env T _ owner Lx readonly _ hLx
      subst this
      split at h
      · right; left
        simp only [Option.some.injEq, lock_exit, Prod.mk.injEq] at h
        exact ⟨h.1.symm,
          (create_lockfn_link env T LFFL_FORMAT owner readonly
            (create_lockfn_link env T LFXL_FORMAT owner readonly (create_lockfn env T w).2).2).2,
          by rw [f3.1, f2.1, f1.1], by rw [← h.2]; simp⟩
      · rename_i Lf hLf
        have := create_lockfn_link_some env T _ owner Lf readonly _ hLf
        subst this
        right; right
        rw [Option.bind_eq_some] at h
        obtain ⟨r, hr, he⟩ := h
        split at he
        · simp only [Option.some.injEq] at he
          exact ⟨_, r, by rw [f3.1, f2.1, f1.1], by rw [f3.2, f2.2, f1.2], hr, he.symm⟩
        · cases he

theorem lock_exit_has (env : Env) (X : Str) (hU : ∀ n, env.fault n (.unlink X) = false)
    (force : Bool) (l : Locals) (w : World) (q : Str) :
    (lock_exit env X force l w).2.has q = (w.has q && !decide (key X = key q)) := by
  unfold lock_exit
  simp only
  split <;> simp [unlink_has, hU]

theorem lock_exit_fst (env : Env) (X : Str) (force : Bool) (l : Locals) (w : World) :
    (lock_exit env X force l w).1 = l.status := rfl

/-- What a `lock` that returned `LOCK_OK` leaves behind (no `unlink` of `X(T)`
or of `L_x` being refused for reasons outside the directory, no name twice in
the directory before): no `X(T)`, no `L_x`, the caller's final lock `L_f`, and
still no name twice, so exactly one entry of that name. -/
theorem lock_ok_post (env : Env) (T owner : Str) (force readonly : Bool)
    (hUX : ∀ n, env.fault n (.unlink (lockfn_str T)) = false)
    (hUL : ∀ n,
      env.fault n (.unlink (link_str T LFXL_FORMAT env.hostname owner readonly)) = false)
    (w w1 : World)
    (hnd : (w.files.map (fun e => (e.dir, e.name))).Nodup)
    (h : lock env (some T) (some owner) force readonly w = some (LOCK_OK, w1)) :
    w1.has (lockfn_str T) = false ∧
    w1.has (link_str T LFXL_FORMAT env.hostname owner readonly) = false ∧
    w1.has (link_str T LFFL_FORMAT env.hostname owner readonly) = true ∧
    (w1.files.map (fun e => (e.dir, e.name))).Nodup ∧
    (w1.files.filter
      (same_file (link_str T LFFL_FORMAT env.hostname owner readonly))).length = 1 := by
  rcases lock_cases env T owner force readonly w w1 LOCK_OK h with h1 | h1 | h1
  · exact absurd h1.1 (by decide)
  · exact absurd h1.1 (by decide)
  · obtain ⟨w0, r, hf, _, hr, he⟩ := h1
    have hs : r.1.status = LOCK_OK := by
      have := congrArg Prod.fst he
      simpa [lock_exit] using this.symm
    have hw1 : w1 = (lock_exit env (lockfn_str T) force r.1 r.2).2 := congrArg Prod.snd he
    have hkX := key_lockfn_ne_link T LFXL_FORMAT env.hostname owner readonly (Or.inl rfl)
    have hkF := key_lockfn_ne_link T LFFL_FORMAT env.hostname owner readonly (Or.inr rfl)
    have hkxf := key_xlink_ne_flink T env.hostname owner readonly
    obtain ⟨hLf, hLx⟩ := try_again_held env T (lockfn_str T) _ _ hUL force readonly
      (Ne.symm hkxf) _ _ w0 (fun _ => rfl) r hr hs
    have hnd0 : (w0.files.map (fun e => (e.dir, e.name))).Nodup := by rw [hf]; exact hnd
    have hnd1 := stable_try_again stable_nodup env T (lockfn_str T) _ _ force readonly
      trivial trivial trivial trivial trivial (fun _ _ => trivial) (fun _ _ _ _ h => h)
      _ _ w0 hnd0 r hr
    have hnd2 := stable_lock_exit stable_nodup env (lockfn_str T) force trivial r.1 r.2 hnd1
    rw [← hw1] at hnd2
    have hasF : w1.has (link_str T LFFL_FORMAT env.hostname owner readonly) = true := by
      rw [hw1, lock_exit_has env _ hUX, hLf]
      simp [hkF]
    refine ⟨?_, ?_, hasF, hnd2, ?_⟩
    · rw [hw1, lock_exit_has env _ hUX]
      simp
    · rw [hw1, lock_exit_has env _ hUX, hLx]
      simp
    · rw [has_eq_any] at hasF
      exact filter_length_one _ hnd2 _ hasF

/-- C3 (amended): postcondition of a successful acquire. Whenever `lock`
returns `LOCK_OK` in a run in which no `unlink` of `X(T)` and no `unlink` of the
caller's link `L_x` is refused for reasons outside the directory (whatever else
failed on the way), on return `X(T) = T ++ ".xenlk"` and `L_x` do not exist and
exactly one entry carries the caller's final lock name `L_f` (the directory
having had no name twice before). -/
theorem C3_acquire_postcondition (env : Env) (T owner : Str) (force readonly : Bool)
    (hUX : ∀ n, env.fault n (.unlink (lockfn_str T)) = false)
    (hUL : ∀ n,
      env.fault n (.unlink (link_str T LFXL_FORMAT env.hostname owner readonly)) = false)
    (w w1 : World)
    (hnd : (w.files.map (fun e => (e.dir, e.name))).Nodup)
    (h : lock env (some T) (some owner) force readonly w = some (LOCK_OK, w1)) :
    lockfn_str T = T ++ ".xenlk".toList ∧
    w1.has (lockfn_str T) = false ∧
    w1.has (link_str T LFXL_FORMAT env.hostname owner readonly) = false ∧
    (w1.files.filter
      (same_file (link_str T LFFL_FORMAT env.hostname owner readonly))).length = 1 :=
  have hp := lock_ok_post env T owner force readonly hUX hUL w w1 hnd h
  ⟨rfl, hp.1, hp.2.1, hp.2.2.2.2⟩
/-! ## What a failing pass through `lock` leaves behind -/

section residue_x
variable (env : Env) (hU : ∀ n p, env.fault n (.unlink p) = false)
  (fn X Lx Lf : Str) (force readonly : Bool) (hkX : key X ≠ key Lx) (hkF : key Lf ≠ key Lx)
include hkF

theorem skip_scan_no_xlink (l : Locals) (w : World) (h : w.has Lx = false) :
    (skip_scan env Lf l w).no_xlink Lx := by
  rw [skip_scan_eq]
  split_ifs <;> simp [Next.no_xlink, write_has, open_creat_has, hkF, h]

theorem finish_no_xlink (l : Locals) (w : World) (h : w.has Lx = false) :
    (finish env fn X Lf force readonly l w).no_xlink Lx := by
  have hst := stable_absent Lx
  have h1 : (lstat env Lf w).2.has Lx = false := by simpa using h
  have h2 := stable_lock_holder hst env fn X Lf force readonly writer_eval
    (fun _ _ => trivial) (fun _ _ _ _ h => h) _ h1
  have h3 := stable_lock_holder hst env fn X Lf force readonly reader_eval
    (fun _ _ => trivial) (fun _ _ _ _ h => h) _ h2
  rw [finish_eq]
  split_ifs
  all_goals first
    | exact skip_scan_no_xlink env Lx Lf hkF _ _ h
    | exact skip_scan_no_xlink env Lx Lf hkF _ _ h1
    | exact skip_scan_no_xlink env Lx Lf hkF _ _ h2
    | exact skip_scan_no_xlink env Lx Lf hkF _ _ h3

include hU

theorem link_loop_no_xlink (l : Locals) (w : World) (h : w.has Lx = false) :
    (link_loop env fn X Lx Lf force readonly l w).no_xlink Lx := by
  rw [link_loop_eq]
  simp only [stat_failed_eq]
  repeat' split
  all_goals first
    | exact finish_no_xlink env fn X Lx Lf force readonly hkF _ _ h
    | (refine finish_no_xlink env fn X Lx Lf force readonly hkF _ _ ?_
       simp [unlink_has, hU])
    | simp [Next.no_xlink, unlink_has, hU]

include hkX

theorem attempt_no_xlink (l : Locals) (w : World) (h : w.has Lx = false) :
    (attempt env fn X Lx Lf force readonly l w).no_xlink Lx := by
  have e1 : ∀ W : World, W.has Lx = false → (write env X Lx W).2.has Lx = false := by
    intro W hW; simpa [write_has] using hW
  have h1 : (open_excl env X w).2.has Lx = false := by simp [open_excl_has, h, hkX]
  rw [attempt_eq]
  simp only [force_lock_eq, skip_eq]
  repeat' split
  all_goals first
    | exact finish_no_xlink env fn X Lx Lf force readonly hkF _ _ h
    | (refine finish_no_xlink env fn X Lx Lf force readonly hkF _ _ ?_
       simpa using h1)
    | (refine link_loop_no_xlink env hU fn X Lx Lf force readonly hkF _ _ ?_
       simp [write_has, h1])
    | simp [Next.no_xlink, unlink_has, hU, write_has, h1]

theorem try_again_no_xlink (fuel : Nat) (l : Locals) (w : World) (h : w.has Lx = false)
    (r : Locals × World) (hr : try_again env fn X Lx Lf force readonly fuel l w = some r) :
    r.2.has Lx = false := by
  induction fuel generalizing l w with
  | zero => simp [try_again] at hr
  | succ n ih =>
    have ha := attempt_no_xlink env hU fn X Lx Lf force readonly hkX hkF l w h
    simp only [try_again] at hr
    cases hA : attempt env fn X Lx Lf force readonly l w with
    | leave l1 w1 =>
      rw [hA] at hr ha
      simp only [Option.some.injEq] at hr
      subst hr
      exact ha
    | again l1 w1 =>
      rw [hA] at hr ha
      exact ih l1 w1 ha hr

end residue_x

section residue_f
variable (env : Env) (fn X Lx Lf : Str) (force readonly : Bool)
  (hW : ∀ n d, env.fault n (.write Lf d) = false) (hkX : key X ≠ key Lf) (hkL : key Lx ≠ key Lf)
include hW

theorem skip_scan_no_flink (l : Locals) (w : World) (h : w.has Lf = false) :
    (skip_scan env Lf l w).no_flink Lf := by
  rw [skip_scan_eq]
  split_ifs with h1 h2 h3
  · intro hc; exact absurd h1 hc
  · rw [write_fst] at h3
    simp [hW] at h3
  · intro _
    rw [open_creat_fst] at h2
    simp only [Bool.not_eq_true, Bool.not_eq_false'] at h2
    simp [open_creat_has, h, h2]
  · intro _; exact h

theorem finish_no_flink (l : Locals) (w : World) (h : w.has Lf = false) :
    (finish env fn X Lf force readonly l w).no_flink Lf := by
  have hst := stable_absent Lf
  have h1 : (lstat env Lf w).2.has Lf = false := by simpa using h
  have h2 := stable_lock_holder hst env fn X Lf force readonly writer_eval
    (fun _ _ => trivial) (fun _ _ _ _ h => h) _ h1
  have h3 := stable_lock_holder hst env fn X Lf force readonly reader_eval
    (fun _ _ => trivial) (fun _ _ _ _ h => h) _ h2
  rw [finish_eq]
  split_ifs
  all_goals first
    | exact skip_scan_no_flink env Lf hW _ _ h
    | exact skip_scan_no_flink env Lf hW _ _ h1
    | exact skip_scan_no_flink env Lf hW _ _ h2
    | exact skip_scan_no_flink env Lf hW _ _ h3

include hkL

theorem link_loop_no_flink (l : Locals) (w : World) (h : w.has Lf = false) :
    (link_loop env fn X Lx Lf force readonly l w).no_flink Lf := by
  have hst := stable_absent Lf
  have h1 := stable_lstat hst env _ X (stable_link hst env _ X Lx hkL h)
  have h2 := stable_lstat hst env _ Lx h1
  have u1 : ∀ W : World, W.has Lf = false →
      (XSLEEP env (unlink env Lx (unlink env X W).2).2).has Lf = false := fun W hW' =>
    stable_XSLEEP hst env _ (stable_unlink hst env _ _ trivial (stable_unlink hst env _ _ trivial hW'))
  rw [link_loop_eq]
  simp only [stat_failed_eq]
  repeat' split
  all_goals first
    | exact finish_no_flink env fn X Lf force readonly hW _ _ h
    | exact finish_no_flink env fn X Lf force readonly hW _ _ (u1 _ h1)
    | exact finish_no_flink env fn X Lf force readonly hW _ _ (u1 _ h2)
    | exact finish_no_flink env fn X Lf force readonly hW _ _
        (stable_unlink hst env _ _ trivial h2)
    | exact u1 _ h2

include hkX

theorem attempt_no_flink (l : Locals) (w : World) (h : w.has Lf = false) :
    (attempt env fn X Lx Lf force readonly l w).no_flink Lf := by
  have hst := stable_absent Lf
  have h1 := stable_open_excl hst env _ X hkX h
  have h2 := stable_open_rdwr hst env _ X h1
  have h3 := stable_malloc hst env _ (Lx.length + 1) h2
  have h4 := stable_read hst env _ X Lx.length h3
  have h5 := stable_lseek hst env _ X h4
  have fl : ∀ (l1 : Locals) (W : World), W.has Lf = false →
      (force_lock env X force l1 W).no_flink Lf := by
    intro l1 W hW'
    rw [force_lock_eq]
    split_ifs
    · exact stable_XSLEEP hst env _ (stable_unlink hst env _ _ trivial hW')
    · exact stable_XSLEEP hst env _ hW'
  have sk : ∀ (l1 : Locals) (W : World), W.has Lf = false →
      (skip env fn X Lx Lf force readonly l1 W).no_flink Lf := by
    intro l1 W hW'
    rw [skip_eq]
    split_ifs
    · exact link_loop_no_flink env fn X Lx Lf force readonly hW hkL _ _
        (stable_write hst env _ _ _ hkX hW')
    · exact stable_unlink hst env _ _ trivial
        (stable_XSLEEP hst env _ (stable_write hst env _ _ _ hkX hW'))
  rw [attempt_eq]
  repeat' split
  all_goals first
    | exact finish_no_flink env fn X Lf force readonly hW _ _ h
    | exact finish_no_flink env fn X Lf force readonly hW _ _ h3
    | exact sk _ _ h1
    | exact sk _ _ h5
    | exact fl _ _ h2
    | exact fl _ _ h4

theorem try_again_no_flink (fuel : Nat) (l : Locals) (w : World) (h : w.has Lf = false)
    (r : Locals × World) (hr : try_again env fn X Lx Lf force readonly fuel l w = some r)
    (hs : r.1.status ≠ LOCK_OK) : r.2.has Lf = false := by
  induction fuel generalizing l w with
  | zero => simp [try_again] at hr
  | succ n ih =>
    have ha := attempt_no_flink env fn X Lx Lf force readonly hW hkX hkL l w h
    simp only [try_again] at hr
    cases hA : attempt env fn X Lx Lf force readonly l w with
    | leave l1 w1 =>
      rw [hA] at hr ha
      simp only [Option.some.injEq] at hr
      subst hr
      exact ha hs
    | again l1 w1 =>
      rw [hA] at hr ha
      exact ih l1 w1 ha hr

end residue_f
theorem has_of_files_eq {w w0 : World} (h : w0.files = w.files) (q : Str) : w0.has q = w.has q := by
  simp [has_eq_any, h]

/-- C7 (amended): no residue on failure. For every input, directory and pattern
of call outcomes in which no `unlink` is refused for reasons outside the
directory and no `write` to the final lock file fails: if `lock` returns a
status other than `LOCK_OK`, then none of `X(T)`, `L_x` and `L_f` that did not
exist before the call exists after it. -/
theorem C7_no_residue_on_failure (env : Env) (T owner : Str) (force readonly : Bool)
    (hU : ∀ n p, env.fault n (.unlink p) = false)
    (hW : ∀ n d,
      env.fault n (.write (link_str T LFFL_FORMAT env.hostname owner readonly) d) = false)
    (w w1 : World) (s : Status)
    (h : lock env (some T) (some owner) force readonly w = some (s, w1)) (hs : s ≠ LOCK_OK) :
    (w.has (lockfn_str T) = false → w1.has (lockfn_str T) = false) ∧
    (w.has (link_str T LFXL_FORMAT env.hostname owner readonly) = false →
      w1.has (link_str T LFXL_FORMAT env.hostname owner readonly) = false) ∧
    (w.has (link_str T LFFL_FORMAT env.hostname owner readonly) = false →
      w1.has (link_str T LFFL_FORMAT env.hostname owner readonly) = false) := by
  have hkX := key_lockfn_ne_link T LFXL_FORMAT env.hostname owner readonly (Or.inl rfl)
  have hkF := key_lockfn_ne_link T LFFL_FORMAT env.hostname owner readonly (Or.inr rfl)
  have hkxf := key_xlink_ne_flink T env.hostname owner readonly
  rcases lock_cases env T owner force readonly w w1 s h with h1 | h1 | h1
  · have := fun q => has_of_files_eq h1.2 q
    simp only [this]
    exact ⟨id, id, id⟩
  · obtain ⟨_, w0, hf, rfl⟩ := h1
    have := fun q => has_of_files_eq hf q
    simp only [unlink_has, hU, this]
    refine ⟨?_, ?_, ?_⟩ <;> intro hx <;> simp [hx]
  · obtain ⟨w0, r, hf, _, hr, he⟩ := h1
    have hst : r.1.status ≠ LOCK_OK := by
      have := congrArg Prod.fst he
      rw [lock_exit_fst] at this
      rw [← this]; exact hs
    have hw1 : w1 = (lock_exit env (lockfn_str T) force r.1 r.2).2 := congrArg Prod.snd he
    have h0 := fun q => has_of_files_eq hf q
    refine ⟨?_, ?_, ?_⟩
    · intro _
      rw [hw1, lock_exit_has env _ (fun n => hU n _)]
      simp
    · intro hx
      rw [hw1, lock_exit_has env _ (fun n => hU n _),
        try_again_no_xlink env hU T (lockfn_str T) _ _ force readonly hkX (Ne.symm hkxf) _ _ w0
          (by rw [h0]; exact hx) r hr]
      simp
    · intro hx
      rw [hw1, lock_exit_has env _ (fun n => hU n _),
        try_again_no_flink env T (lockfn_str T) _ _ force readonly hW hkF hkxf _ _ w0
          (by rw [h0]; exact hx) r hr hst]
      simp

/-- C7 as stated fails on two kinds of path. When the `write` of the final lock
file keeps failing, `lock` gives up with `LOCK_EUPDATE` and the final lock file
it created stays behind; and when the last `unlink` of `X(T)` is refused, a
`lock` that returns `LOCK_EHELD_WR` leaves the `X(T)` it created. -/
theorem C7_counterexample :
    ((lock env_wfail (some "/tmp/f".toList) (some "001".toList) false false w_empty).map
        (fun r => (r.1, r.2.files.map (fun e => (e.dir, e.name, e.content)))) =
      some (LOCK_EUPDATE, [("/tmp".toList, "f.xenlk.h.001.fw".toList, [])]) ∧
     w_empty.has "/tmp/f.xenlk.h.001.fw".toList = false) ∧
    ((lock env_ufail (some "/tmp/f".toList) (some "002".toList) false true w_held).map
        (fun r => (r.1, r.2.has "/tmp/f.xenlk".toList)) = some (LOCK_EHELD_WR, true) ∧
     w_held.has "/tmp/f.xenlk".toList = false) := by
  decide

/-- C7 at a concrete input: a reader refused by the writer lock of owner `001`
on `/tmp/f` leaves none of its three files. -/
theorem C7_no_residue_on_failure_witness :
    ∃ w1, lock env0 (some "/tmp/f".toList) (some "002".toList) false true w_held =
        some (LOCK_EHELD_WR, w1) ∧
      w1.has (lockfn_str "/tmp/f".toList) = false ∧
      w1.has (link_str "/tmp/f".toList LFXL_FORMAT env0.hostname "002".toList true) = false ∧
      w1.has (link_str "/tmp/f".toList LFFL_FORMAT env0.hostname "002".toList true) = false := by
  obtain ⟨⟨s, w1⟩, h⟩ := lock_total env0 true (some "/tmp/f".toList) (some "002".toList) w_held
  have hs : s = LOCK_EHELD_WR := by
    have h2 : (lock env0 (some "/tmp/f".toList) (some "002".toList) false true w_held).map
        (fun r => r.1) = some LOCK_EHELD_WR := by decide
    rw [h] at h2
    simpa using h2
  subst hs
  have := C7_no_residue_on_failure env0 "/tmp/f".toList "002".toList false true
    (fun _ _ => rfl) (fun _ _ => rfl) w_held w1 LOCK_EHELD_WR h (by decide)
  exact ⟨w1, h, this.1 (by decide), this.2.1 (by decide), this.2.2 (by decide)⟩
/-- C3 at a concrete input, scenario S1: on the empty directory
`lock("/tmp/f", "001", 0, 0)` returns `LOCK_OK`, and afterwards the directory
holds exactly `/tmp/f.xenlk.h.001.fw`. -/
theorem C3_acquire_postcondition_witness :
    ∃ w1, lock env0 (some "/tmp/f".toList) (some "001".toList) false false w_empty =
        some (LOCK_OK, w1) ∧
      w1.files.map (fun e => (e.dir, e.name)) = [("/tmp".toList, "f.xenlk.h.001.fw".toList)] ∧
      w1.has (lockfn_str "/tmp/f".toList) = false ∧
      w1.has (link_str "/tmp/f".toList LFXL_FORMAT env0.hostname "001".toList false) = false ∧
      (w1.files.filter (same_file
        (link_str "/tmp/f".toList LFFL_FORMAT env0.hostname "001".toList false))).length = 1 := by
  obtain ⟨⟨s, w1⟩, h⟩ := lock_total env0 false (some "/tmp/f".toList) (some "001".toList) w_empty
  have h2 : (lock env0 (some "/tmp/f".toList) (some "001".toList) false false w_empty).map
      (fun r => (r.1, r.2.files.map (fun e => (e.dir, e.name)))) =
      some (LOCK_OK, [("/tmp".toList, "f.xenlk.h.001.fw".toList)]) := by decide
  rw [h] at h2
  simp only [Option.map_some', Option.some.injEq, Prod.mk.injEq] at h2
  obtain ⟨hs, hfiles⟩ := h2
  subst hs
  exact ⟨w1, h, hfiles,
    (C3_acquire_postcondition env0 "/tmp/f".toList "001".toList false false (fun _ => rfl)
      (fun _ => rfl) w_empty w1 (by decide) h).2⟩

/-- C3 as stated fails when an `unlink` is refused: `lock` only logs the
failure. On the empty directory, with the `unlink` of `/tmp/f.xenlk` refused,
`lock("/tmp/f", "001", 0, 0)` returns `LOCK_OK` and `X(T)` is still there; and
with the `unlink` of the caller's link `/tmp/f.xenlk.h.001.xr` refused,
`lock("/tmp/f", "001", 0, 1)` returns `LOCK_OK` and `L_x` is still there. -/
theorem C3_counterexample :
    (lock env_ufail (some "/tmp/f".toList) (some "001".toList) false false w_empty).map
      (fun r => (r.1, r.2.files.map (fun e => e.name))) =
      some (LOCK_OK, ["f.xenlk".toList, "f.xenlk.h.001.fw".toList]) ∧
    (lock (env_refuse "/tmp/f.xenlk.h.001.xr".toList) (some "/tmp/f".toList)
        (some "001".toList) false true w_empty).map
      (fun r => (r.1, r.2.files.map (fun e => e.name))) =
      some (LOCK_OK, ["f.xenlk.h.001.xr".toList, "f.xenlk.h.001.fr".toList]) := by
  refine ⟨by decide, by decide⟩

/-- C8, the bound as stated fails: a non-forcing `lock` facing an `X(T)` that
another owner keeps in place executes the exclusive create 17 times, one more
than `RETRY_MAX = 16`, before it gives up with `LOCK_EXLOCK_OPEN`. -/
theorem C8_seventeen_creates :
    (lock env0 (some "/tmp/f".toList) (some "001".toList) false false w_foreign_x).map
      (fun r => (r.1, r.2.trace.count (.open_excl "/tmp/f.xenlk".toList))) =
    some (LOCK_EXLOCK_OPEN, RETRY_MAX + 1) := by
  decide
/-! ## The scanner without faults -/

theorem scan_dir_nonforce (env : Env) (fn X Lf dirname : Str) (room : Nat) (readonly : Bool)
    (eval : Str → Bool → Bool) (names : List Str) (stole : Bool) (w : World) :
    scan_dir env (base_of fn) (base_of X) (base_of Lf) dirname room false readonly eval names
        stole w =
      (names.any (fun d => scanned fn X Lf d && eval d readonly), stole, w) := by
  induction names with
  | nil => simp [scan_dir]
  | cons d rest ih =>
    simp only [scan_dir, List.any_cons, scanned]
    by_cases hc : d ≠ base_of fn ∧ d ≠ base_of X ∧ d ≠ base_of Lf ∧
        (base_of fn).isPrefixOf d = true
    · rw [if_pos hc]
      have h1 : decide (d ≠ base_of fn ∧ d ≠ base_of X ∧ d ≠ base_of Lf) = true := by
        simp [hc.1, hc.2.1, hc.2.2.1]
      simp only [Bool.false_eq_true, ↓reduceIte, h1, hc.2.2.2, Bool.and_self, Bool.true_and]
      cases he : eval d readonly
      · simp only [Bool.false_eq_true, ↓reduceIte, Bool.false_or]
        rw [ih]
        simp [scanned]
      · simp
    · rw [if_neg hc]
      have h1 : (decide (d ≠ base_of fn ∧ d ≠ base_of X ∧ d ≠ base_of Lf) &&
          (base_of fn).isPrefixOf d) = false := by
        rw [Bool.eq_false_iff]
        intro h
        apply hc
        simp only [Bool.and_eq_true, decide_eq_true_eq] at h
        exact ⟨h.1.1, h.1.2.1, h.1.2.2, h.2⟩
      rw [h1, ih]
      simp [scanned]

theorem writer_eval_dots : blind_to_dots writer_eval := fun _ => ⟨rfl, rfl⟩

theorem reader_eval_dots : blind_to_dots reader_eval := fun _ => ⟨rfl, rfl⟩

/-- The non-forcing scan when no call fails, the chunk of `dirname` is clean and
the directory is not the one with the empty name. -/
theorem lock_holder_nonforce (env : Env) (hff : env.fault_free) (hcl : env.clean)
    (fn X Lf : Str) (hdir : dir_of X ≠ [])
    (readonly : Bool) (eval : Str → Bool → Bool) (he : blind_to_dots eval) (w : World) :
    lock_holder env fn X Lf false readonly eval w =
      (conflict fn X Lf readonly eval w, false,
        ((w.log (.malloc X.length)).log (.malloc (Lf.length + 8))).log (.opendir (dir_of X))) := by
  rw [lock_holder_eq]
  simp only [hff _ _, hcl _, dirname_of_nil, hdir, Bool.false_eq_true, or_self, ↓reduceIte]
  rw [scan_dir_nonforce]
  simp only [List.any_cons, (he readonly).1, (he readonly).2, Bool.and_false, Bool.false_or]
  rfl

theorem conflict_log (fn X Lf : Str) (readonly : Bool) (eval : Str → Bool → Bool) (w : World)
    (c : Call) : conflict fn X Lf readonly eval (w.log c) = conflict fn X Lf readonly eval w := rfl

/-- The world after the final lock file has been (re)written. -/
theorem skip_scan_ff (env : Env) (hff : env.fault_free) (Lf : Str) (l : Locals) (w : World)
    (h : l.status = LOCK_OK) :
    skip_scan env Lf l w = .leave l (write env Lf Lf (open_creat env Lf w).2).2 := by
  rw [skip_scan_eq, if_pos h, open_creat_fst, write_fst]
  simp [hff _ _]

theorem skip_scan_failed (env : Env) (Lf : Str) (l : Locals) (w : World)
    (h : l.status ≠ LOCK_OK) : skip_scan env Lf l w = .leave l w := by
  rw [skip_scan_eq, if_neg h]

/-- `finish` of a non-forcing `lock` without faults, reached with status
`LOCK_OK`: a reassert, a conflict with a writer, a conflict with a reader, or a
new final lock. -/
theorem finish_nonforce (env : Env) (hff : env.fault_free) (hcl : env.clean) (fn X Lf : Str)
    (hdir : dir_of X ≠ []) (hdL : is_dot (base_of Lf) = false) (readonly : Bool)
    (l : Locals) (w : World) (h : l.status = LOCK_OK) :
    finish env fn X Lf false readonly l w =
      if w.has Lf = true then
        .leave l (write env Lf Lf (open_creat env Lf (w.log (.lstat Lf))).2).2
      else if conflict fn X Lf readonly writer_eval w = true then
        .leave { l with stealw := false, status := LOCK_EHELD_WR }
          ((((w.log (.lstat Lf)).log (.malloc X.length)).log (.malloc (Lf.length + 8))).log
            (.opendir (dir_of X)))
      else if conflict fn X Lf readonly reader_eval w = true then
        .leave { l with stealw := false, stealr := false, status := LOCK_EHELD_RD }
          (((((((w.log (.lstat Lf)).log (.malloc X.length)).log (.malloc (Lf.length + 8))).log
            (.opendir (dir_of X))).log (.malloc X.length)).log (.malloc (Lf.length + 8))).log
            (.opendir (dir_of X)))
      else
        .leave { l with stealw := false, stealr := false }
          (write env Lf Lf (open_creat env Lf
            (((((((w.log (.lstat Lf)).log (.malloc X.length)).log (.malloc (Lf.length + 8))).log
              (.opendir (dir_of X))).log (.malloc X.length)).log (.malloc (Lf.length + 8))).log
              (.opendir (dir_of X)))).2).2 := by
  rw [finish_eq, if_pos h]
  simp only [lstat_ff env hff _ _ hdL,
    lock_holder_nonforce env hff hcl _ _ _ hdir _ _ writer_eval_dots,
    lock_holder_nonforce env hff hcl _ _ _ hdir _ _ reader_eval_dots, conflict_log]
  by_cases h1 : w.has Lf = true
  · have : (w.lookup Lf).isSome = true := h1
    rw [if_pos this, if_pos h1, skip_scan_ff env hff _ _ _ h]
  · have : ¬ (w.lookup Lf).isSome = true := h1
    rw [if_neg this, if_neg h1]
    split_ifs
    · rw [skip_scan_failed]; simp
    · rw [skip_scan_failed]; simp
    · rw [skip_scan_ff env hff]; exact h

theorem find_append_of_none {fs : List Entry} {p : Str} (h : ∀ e ∈ fs, same_file p e = false)
    (tl : List Entry) : (fs ++ tl).find? (same_file p) = tl.find? (same_file p) := by
  rw [List.find?_append]
  have : fs.find? (same_file p) = none := by
    rw [List.find?_eq_none]
    intro e he
    simp [h e he]
  rw [this]
  rfl

theorem map_of_none {fs : List Entry} {p : Str} (h : ∀ e ∈ fs, same_file p e = false)
    (f : Entry → Entry) : fs.map (fun e => if same_file p e = true then f e else e) = fs := by
  conv_rhs => rw [← List.map_id fs]
  apply List.map_congr_left
  intro e he
  simp [h e he]

theorem filter_of_none {fs : List Entry} {p : Str} (h : ∀ e ∈ fs, same_file p e = false) :
    fs.filter (fun e => !same_file p e) = fs := by
  rw [List.filter_eq_self]
  intro e he
  simp [h e he]

theorem same_file_mk (p d n : Str) (i : Nat) (c : Str) (m : Nat) :
    same_file p ⟨d, n, i, c, m⟩ = decide ((d, n) = key p) := by
  rw [Bool.eq_iff_iff]
  simp [same_file, key]

theorem excl_phase_ff (env : Env) (hff : env.fault_free) (fn X Lx Lf : Str)
    (force readonly : Bool) (l : Locals) (w : World) (hX : w.has X = false)
    (hLx : w.has Lx = false) (hk : key X ≠ key Lx) (hdX : is_dot (base_of X) = false)
    (hdLx : is_dot (base_of Lx) = false) (hr : l.retry_attempts + 1 < RETRY_MAX) :
    attempt env fn X Lx Lf force readonly l w =
      finish env fn X Lf force readonly
        { l with retry_attempts := l.retry_attempts + 2, status := LOCK_OK }
        (excl_world X Lx w) := by
  have nX := not_same_file_of_not_has hX
  have nLx := not_same_file_of_not_has hLx
  have aLx : w.files.any (same_file Lx) = false := by rw [← has_eq_any]; exact hLx
  have kxx : decide ((dir_of X, base_of X) = key X) = true := by simp [key]
  have kxl : decide ((dir_of X, base_of X) = key Lx) = false := by
    simpa [key] using hk
  have kll : decide ((dir_of Lx, base_of Lx) = key Lx) = true := by simp [key]
  have klx : decide ((dir_of Lx, base_of Lx) = key X) = false := by
    simpa [key] using (Ne.symm hk)
  have s1 : open_excl env X w =
      (true, ⟨w.files ++ [⟨dir_of X, base_of X, w.next_ino, [], w.clock⟩], w.next_ino + 1,
        w.clock, .open_excl X :: w.trace⟩) := by
    rw [open_excl_ff env hff w X hX]; rfl
  have s2 : write env X Lx ⟨w.files ++ [⟨dir_of X, base_of X, w.next_ino, [], w.clock⟩],
        w.next_ino + 1, w.clock, .open_excl X :: w.trace⟩ =
      (true, ⟨w.files ++ [⟨dir_of X, base_of X, w.next_ino, Lx, w.clock⟩], w.next_ino + 1,
        w.clock, .write X Lx :: .open_excl X :: w.trace⟩) := by
    rw [write_ff env hff]
    simp [World.write_at, World.log, map_of_none nX, same_file_mk, kxx]
  have s3 : link env X Lx ⟨w.files ++ [⟨dir_of X, base_of X, w.next_ino, Lx, w.clock⟩],
        w.next_ino + 1, w.clock, .write X Lx :: .open_excl X :: w.trace⟩ =
      (true, ⟨w.files ++ [⟨dir_of X, base_of X, w.next_ino, Lx, w.clock⟩,
          ⟨dir_of Lx, base_of Lx, w.next_ino, Lx, w.clock⟩], w.next_ino + 1,
        w.clock, .link X Lx :: .write X Lx :: .open_excl X :: w.trace⟩) := by
    rw [link_eq]
    simp [World.lookup, World.has, find_append_of_none nX, find_append_of_none nLx,
      same_file_mk, kxx, kxl, hff _ _, World.add_link, World.log]
  have s4 : lstat env X ⟨w.files ++ [⟨dir_of X, base_of X, w.next_ino, Lx, w.clock⟩,
          ⟨dir_of Lx, base_of Lx, w.next_ino, Lx, w.clock⟩], w.next_ino + 1,
        w.clock, .link X Lx :: .write X Lx :: .open_excl X :: w.trace⟩ =
      (some ⟨dir_of X, base_of X, w.next_ino, Lx, w.clock⟩,
        ⟨w.files ++ [⟨dir_of X, base_of X, w.next_ino, Lx, w.clock⟩,
          ⟨dir_of Lx, base_of Lx, w.next_ino, Lx, w.clock⟩], w.next_ino + 1,
        w.clock, .lstat X :: .link X Lx :: .write X Lx :: .open_excl X :: w.trace⟩) := by
    rw [lstat_ff env hff _ _ hdX]
    simp [World.lookup, find_append_of_none nX, same_file_mk, kxx, World.log]
  have s5 : lstat env Lx ⟨w.files ++ [⟨dir_of X, base_of X, w.next_ino, Lx, w.clock⟩,
          ⟨dir_of Lx, base_of Lx, w.next_ino, Lx, w.clock⟩], w.next_ino + 1,
        w.clock, .lstat X :: .link X Lx :: .write X Lx :: .open_excl X :: w.trace⟩ =
      (some ⟨dir_of Lx, base_of Lx, w.next_ino, Lx, w.clock⟩,
        ⟨w.files ++ [⟨dir_of X, base_of X, w.next_ino, Lx, w.clock⟩,
          ⟨dir_of Lx, base_of Lx, w.next_ino, Lx, w.clock⟩], w.next_ino + 1,
        w.clock, .lstat Lx :: .lstat X :: .link X Lx :: .write X Lx :: .open_excl X :: w.trace⟩) := by
    rw [lstat_ff env hff _ _ hdLx]
    simp [World.lookup, find_append_of_none nLx, same_file_mk, kxl, kll, World.log]
  have s6 : unlink env Lx ⟨w.files ++ [⟨dir_of X, base_of X, w.next_ino, Lx, w.clock⟩,
          ⟨dir_of Lx, base_of Lx, w.next_ino, Lx, w.clock⟩], w.next_ino + 1,
        w.clock, .lstat Lx :: .lstat X :: .link X Lx :: .write X Lx :: .open_excl X :: w.trace⟩ =
      (true, excl_world X Lx w) := by
    rw [unlink_ff env hff]
    · simp [World.remove, World.log, excl_world, List.filter_append, filter_of_none nLx,
        same_file_mk, kxl, kll]
    · simp [has_eq_any, same_file_mk, kll]
  have hr1 : ¬ l.retry_attempts > RETRY_MAX := by omega
  have hr2 : l.retry_attempts + 1 < RETRY_MAX := hr
  rw [attempt_eq, if_neg hr1, s1]
  simp only [↓reduceIte]
  rw [skip_eq, s2]
  simp only [↓reduceIte]
  rw [link_loop_eq, if_pos hr2, s3]
  simp only [s4, s5, ↓reduceIte, s6]
/-! ## Reassert -/

theorem refresh_key (Lf : Str) (now : Nat) (e : Entry) :
    ((refresh Lf now e).dir, (refresh Lf now e).name) = (e.dir, e.name) := by
  unfold refresh
  split <;> rfl

theorem same_file_refresh (p Lf : Str) (now : Nat) (e : Entry) :
    same_file p (refresh Lf now e) = same_file p e := by
  unfold refresh
  split <;> rfl

theorem names_world_has (env : Env) (T owner : Str) (w : World) (q : Str) :
    (names_world env T owner w).has q = w.has q := rfl

theorem find_append_of_some {fs : List Entry} {p : Str} {e : Entry}
    (h : fs.find? (same_file p) = some e) (tl : List Entry) :
    (fs ++ tl).find? (same_file p) = some e := by
  rw [List.find?_append, h]
  rfl

/-- The exclusive phase when `X(T)` is absent and a stale `L_x` of the caller is
in the way: the stale link is removed, and either the phase is held at once
(the stale link happened to carry the inode number `X(T)` got) or everything
is cleaned up for another round. -/
theorem excl_phase_stale (env : Env) (hff : env.fault_free) (fn X Lx Lf : Str)
    (force readonly : Bool) (l : Locals) (w : World) (hX : w.has X = false)
    (hLx : w.has Lx = true) (hk : key X ≠ key Lx) (hdX : is_dot (base_of X) = false)
    (hdLx : is_dot (base_of Lx) = false) (hr : l.retry_attempts + 1 < RETRY_MAX) :
    (∃ t, t.countP Call.is_overrun = w.overruns ∧
      attempt env fn X Lx Lf force readonly l w =
      finish env fn X Lf force readonly
        { l with retry_attempts := l.retry_attempts + 2, status := LOCK_OK }
        ⟨w.files.filter (fun e => !same_file Lx e) ++
          [⟨dir_of X, base_of X, w.next_ino, Lx, w.clock⟩], w.next_ino + 1, w.clock, t⟩) ∨
    (∃ t, t.countP Call.is_overrun = w.overruns ∧
      attempt env fn X Lx Lf force readonly l w =
      .again { l with retry_attempts := l.retry_attempts + 2, status := LOCK_EINODE }
        ⟨w.files.filter (fun e => !same_file Lx e), w.next_ino + 1, w.clock, t⟩) := by
  have nX := not_same_file_of_not_has hX
  have kxx : decide ((dir_of X, base_of X) = key X) = true := by simp [key]
  have kxl : decide ((dir_of X, base_of X) = key Lx) = false := by
    simpa [key] using hk
  obtain ⟨e0, he0⟩ : ∃ e0, w.files.find? (same_file Lx) = some e0 :=
    Option.isSome_iff_exists.mp hLx
  have aLx : w.files.any (same_file Lx) = true := by rw [← has_eq_any]; exact hLx
  have s1 : open_excl env X w =
      (true, ⟨w.files ++ [⟨dir_of X, base_of X, w.next_ino, [], w.clock⟩], w.next_ino + 1,
        w.clock, .open_excl X :: w.trace⟩) := by
    rw [open_excl_ff env hff w X hX]; rfl
  have s2 : write env X Lx ⟨w.files ++ [⟨dir_of X, base_of X, w.next_ino, [], w.clock⟩],
        w.next_ino + 1, w.clock, .open_excl X :: w.trace⟩ =
      (true, ⟨w.files ++ [⟨dir_of X, base_of X, w.next_ino, Lx, w.clock⟩], w.next_ino + 1,
        w.clock, .write X Lx :: .open_excl X :: w.trace⟩) := by
    rw [write_ff env hff]
    simp [World.write_at, World.log, map_of_none nX, same_file_mk, kxx]
  have s3 : link env X Lx ⟨w.files ++ [⟨dir_of X, base_of X, w.next_ino, Lx, w.clock⟩],
        w.next_ino + 1, w.clock, .write X Lx :: .open_excl X :: w.trace⟩ =
      (false, ⟨w.files ++ [⟨dir_of X, base_of X, w.next_ino, Lx, w.clock⟩], w.next_ino + 1,
        w.clock, .link X Lx :: .write X Lx :: .open_excl X :: w.trace⟩) := by
    rw [link_eq]
    simp [World.lookup, World.has, find_append_of_none nX, find_append_of_some he0,
      same_file_mk, kxx, World.log]
  have s4 : lstat env X ⟨w.files ++ [⟨dir_of X, base_of X, w.next_ino, Lx, w.clock⟩],
        w.next_ino + 1, w.clock, .link X Lx :: .write X Lx :: .open_excl X :: w.trace⟩ =
      (some ⟨dir_of X, base_of X, w.next_ino, Lx, w.clock⟩,
        ⟨w.files ++ [⟨dir_of X, base_of X, w.next_ino, Lx, w.clock⟩], w.next_ino + 1,
        w.clock, .lstat X :: .link X Lx :: .write X Lx :: .open_excl X :: w.trace⟩) := by
    rw [lstat_ff env hff _ _ hdX]
    simp [World.lookup, find_append_of_none nX, same_file_mk, kxx, World.log]
  have s5 : lstat env Lx ⟨w.files ++ [⟨dir_of X, base_of X, w.next_ino, Lx, w.clock⟩],
        w.next_ino + 1, w.clock, .lstat X :: .link X Lx :: .write X Lx :: .open_excl X :: w.trace⟩ =
      (some e0,
        ⟨w.files ++ [⟨dir_of X, base_of X, w.next_ino, Lx, w.clock⟩], w.next_ino + 1,
        w.clock, .lstat Lx :: .lstat X :: .link X Lx :: .write X Lx :: .open_excl X :: w.trace⟩) := by
    rw [lstat_ff env hff _ _ hdLx]
    simp [World.lookup, find_append_of_some he0, World.log]
  have hasLx : ∀ t, (⟨w.files ++ [⟨dir_of X, base_of X, w.next_ino, Lx, w.clock⟩], w.next_ino + 1,
        w.clock, t⟩ : World).has Lx = true := by
    intro t
    rw [has_eq_any]
    simp [aLx]
  have hasX : ∀ t, (⟨w.files ++ [⟨dir_of X, base_of X, w.next_ino, Lx, w.clock⟩], w.next_ino + 1,
        w.clock, t⟩ : World).has X = true := by
    intro t
    rw [has_eq_any]
    simp [same_file_mk, kxx]
  have hr1 : ¬ l.retry_attempts > RETRY_MAX := by omega
  have hr2 : l.retry_attempts + 1 < RETRY_MAX := hr
  rw [attempt_eq, if_neg hr1, s1]
  simp only [↓reduceIte]
  rw [skip_eq, s2]
  simp only [↓reduceIte]
  rw [link_loop_eq, if_pos hr2, s3]
  simp only [s4, s5]
  by_cases hi : w.next_ino = e0.ino
  · left
    rw [if_pos hi, unlink_ff env hff _ Lx (by exact hasLx _)]
    refine ⟨.unlink Lx :: .lstat Lx :: .lstat X :: .link X Lx :: .write X Lx :: .open_excl X ::
      w.trace, by simp [World.overruns, Call.is_overrun], ?_⟩
    congr 1
    simp [World.remove, World.log, List.filter_append, same_file_mk, kxl]
  · right
    rw [if_neg hi, unlink_ff env hff _ X (by exact hasX _)]
    refine ⟨.usleep :: .random :: .unlink Lx :: .unlink X :: .lstat Lx :: .lstat X ::
      .link X Lx :: .write X Lx :: .open_excl X :: w.trace,
      by simp [World.overruns, Call.is_overrun], ?_⟩
    congr 1
    rw [unlink_ff env hff]
    · simp [World.remove, World.log, List.filter_append, same_file_mk, kxl, kxx,
        filter_of_none nX]
    · rw [has_eq_any]
      simp [World.remove, World.log, List.filter_append, same_file_mk, kxx, filter_of_none nX, aLx]

theorem conflict_congr (fn X Lf : Str) (readonly : Bool) (eval : Str → Bool → Bool)
    (w1 w2 : World) (h : w1.files = w2.files) :
    conflict fn X Lf readonly eval w1 = conflict fn X Lf readonly eval w2 := by
  unfold conflict listing
  rw [h]

/-- The scans do not look at `X(T)` itself. -/
theorem conflict_excl (fn X Lf : Str) (readonly : Bool) (eval : Str → Bool → Bool)
    (W w : World) (i : Nat) (c : Str) (m : Nat)
    (h : W.files = w.files ++ [⟨dir_of X, base_of X, i, c, m⟩]) :
    conflict fn X Lf readonly eval W = conflict fn X Lf readonly eval w := by
  unfold conflict listing
  rw [h]
  simp [List.filter_append, scanned]

/-- The exclusive phase of a `lock` that finds no `X(T)`, without faults: the
label `finish` is reached with status `LOCK_OK`, the steal flags untouched, the
clock where it was, and a directory that differs from the one before in holding
`X(T)` and no `L_x`. -/
theorem excl_phase_any (env : Env) (hff : env.fault_free) (fn X Lx Lf : Str)
    (force readonly : Bool) (l : Locals) (w : World) (hX : w.has X = false)
    (hk : key X ≠ key Lx) (hdX : is_dot (base_of X) = false)
    (hdLx : is_dot (base_of Lx) = false) (hr : l.retry_attempts + 3 < RETRY_MAX) :
    ∃ l1 W, l1.status = LOCK_OK ∧ l1.stealx = l.stealx ∧ l1.stealw = l.stealw ∧
      l1.stealr = l.stealr ∧
      (∃ i, W.files = w.files.filter (fun e => !same_file Lx e) ++
        [⟨dir_of X, base_of X, i, Lx, w.clock⟩]) ∧
      W.clock = w.clock ∧ W.overruns = w.overruns ∧
      ∀ fuel a b, finish env fn X Lf force readonly l1 W = .leave a b →
        try_again env fn X Lx Lf force readonly (fuel + 2) l w = some (a, b) := by
  by_cases hLx : w.has Lx = true
  · rcases excl_phase_stale env hff fn X Lx Lf force readonly l w hX hLx hk hdX hdLx
        (by omega) with
      ⟨t, ht, h⟩ | ⟨t, ht, h⟩
    · refine ⟨{ l with retry_attempts := l.retry_attempts + 2, status := LOCK_OK },
        ⟨w.files.filter (fun e => !same_file Lx e) ++
          [⟨dir_of X, base_of X, w.next_ino, Lx, w.clock⟩], w.next_ino + 1, w.clock, t⟩,
        rfl, rfl, rfl, rfl, ⟨_, rfl⟩, rfl, ht, ?_⟩
      intro fuel a b hf
      rw [try_again, h, hf]
    · have hX2 : (⟨w.files.filter (fun e => !same_file Lx e), w.next_ino + 1, w.clock, t⟩ :
          World).has X = false := by
        rw [has_eq_any, List.any_eq_false]
        intro e he
        have := not_same_file_of_not_has hX e (List.mem_of_mem_filter he)
        simp [this]
      have hLx2 : (⟨w.files.filter (fun e => !same_file Lx e), w.next_ino + 1, w.clock, t⟩ :
          World).has Lx = false := by
        rw [has_eq_any, List.any_eq_false]
        intro e he
        have := (List.mem_filter.mp he).2
        simpa using this
      have h2 := excl_phase_ff env hff fn X Lx Lf force readonly
        { l with retry_attempts := l.retry_attempts + 2, status := LOCK_EINODE }
        ⟨w.files.filter (fun e => !same_file Lx e), w.next_ino + 1, w.clock, t⟩ hX2 hLx2 hk
        hdX hdLx (by simp only; omega)
      refine ⟨{ l with retry_attempts := l.retry_attempts + 2 + 2, status := LOCK_OK },
        excl_world X Lx ⟨w.files.filter (fun e => !same_file Lx e), w.next_ino + 1, w.clock, t⟩,
        rfl, rfl, rfl, rfl, ⟨_, rfl⟩, rfl, ?_, ?_⟩
      · simpa [excl_world, World.overruns, Call.is_overrun] using ht
      intro fuel a b hf
      rw [try_again, h]
      simp only
      rw [try_again, h2, hf]
  · simp only [Bool.not_eq_true] at hLx
    have h := excl_phase_ff env hff fn X Lx Lf force readonly l w hX hLx hk hdX hdLx (by omega)
    refine ⟨{ l with retry_attempts := l.retry_attempts + 2, status := LOCK_OK },
      excl_world X Lx w, rfl, rfl, rfl, rfl, ⟨w.next_ino, ?_⟩, rfl, ?_, ?_⟩
    · simp [excl_world, filter_not_same_file_of_not_has w Lx hLx]
    · simp [excl_world, World.overruns, Call.is_overrun]
    · intro fuel a b hf
      rw [try_again, h, hf]

theorem any_filter_other {p q : Str} (h : key p ≠ key q) (fs : List Entry) :
    (fs.filter (fun e => !same_file p e)).any (same_file q) = fs.any (same_file q) := by
  induction fs with
  | nil => rfl
  | cons e es ih =>
    by_cases hp : same_file p e = true
    · have hq : same_file q e = false := by
        rw [Bool.eq_false_iff]
        intro hq
        rw [same_file_iff] at hp hq
        exact h (hp.symm.trans hq)
      simp [List.filter_cons, hp, hq, ih]
    · simp [List.filter_cons, hp, ih]

theorem lock_exit_nonforce (env : Env) (X : Str) (l : Locals) (w : World) :
    lock_exit env X false l w = (l.status, (unlink env X w).2) := by
  simp [lock_exit]

/-- A non-forcing `lock` on a directory without `X(T)`, every call succeeding,
the chunks of `dirname` clean and the target not directly in `/`: the status
and the directory it leaves. With `F` the directory before without a
stale `L_x`: a reassert leaves `F` with `L_f` rewritten, a conflict leaves `F`,
and a new lock leaves `F` and the new `L_f`. -/
theorem lock_nonforce_ff (env : Env) (hff : env.fault_free) (hcl : env.clean) (T owner : Str)
    (hdir : dir_of T ≠ []) (readonly : Bool)
    (w : World) (X Lx Lf : Str) (hXd : lockfn_str T = X)
    (hLxd : link_str T LFXL_FORMAT env.hostname owner readonly = Lx)
    (hLfd : link_str T LFFL_FORMAT env.hostname owner readonly = Lf)
    (hX : w.has X = false) :
    ∃ s w1, lock env (some T) (some owner) false readonly w = some (s, w1) ∧
      w1.has X = false ∧
      (if w.has Lf = true then
        s = LOCK_OK ∧ w1.files = (w.remove Lx).files.map (refresh Lf w.clock)
      else if conflict T X Lf readonly writer_eval (w.remove Lx) = true then
        s = LOCK_EHELD_WR ∧ w1.files = (w.remove Lx).files
      else if conflict T X Lf readonly reader_eval (w.remove Lx) = true then
        s = LOCK_EHELD_RD ∧ w1.files = (w.remove Lx).files
      else s = LOCK_OK ∧
        ∃ i, w1.files = (w.remove Lx).files ++ [⟨dir_of Lf, base_of Lf, i, Lf, w.clock⟩]) := by
  have hkX : key X ≠ key Lx := by
    rw [← hXd, ← hLxd]
    exact key_lockfn_ne_link T LFXL_FORMAT env.hostname owner readonly (Or.inl rfl)
  have hkF : key X ≠ key Lf := by
    rw [← hXd, ← hLfd]
    exact key_lockfn_ne_link T LFFL_FORMAT env.hostname owner readonly (Or.inr rfl)
  have hkxf : key Lx ≠ key Lf := by
    rw [← hLxd, ← hLfd]
    exact key_xlink_ne_flink T env.hostname owner readonly
  have hdX : is_dot (base_of X) = false := by rw [← hXd]; exact not_dot_lockfn T
  have hdLx : is_dot (base_of Lx) = false := by
    rw [← hLxd]; exact not_dot_xlink T env.hostname owner readonly
  have hdLf : is_dot (base_of Lf) = false := by
    rw [← hLfd]; exact not_dot_flink T env.hostname owner readonly
  have hdirX : dir_of X ≠ [] := by
    rw [← hXd, lockfn_str, dir_of_append T LF_POSTFIX (by decide)]
    exact hdir
  obtain ⟨l1, W, hs, _, _, _, ⟨i, hWf⟩, hWc, _, htry⟩ := excl_phase_any env hff T X Lx Lf false
    readonly ⟨0, LOCK_OK, false, false, false⟩ (names_world env T owner w) hX hkX hdX hdLx
    (by simp [RETRY_MAX])
  have hnf : (names_world env T owner w).files = w.files := rfl
  have hnc : (names_world env T owner w).clock = w.clock := rfl
  rw [hnf, hnc] at hWf
  rw [hnc] at hWc
  have kxx : decide ((dir_of X, base_of X) = key X) = true := by simp [key]
  have kxf : decide ((dir_of X, base_of X) = key Lf) = false := by simpa [key] using hkF
  have kfx : decide ((dir_of Lf, base_of Lf) = key X) = false := by
    simpa [key] using (Ne.symm hkF)
  have kff : decide ((dir_of Lf, base_of Lf) = key Lf) = true := by simp [key]
  have hFX : ∀ e ∈ w.files.filter (fun e => !same_file Lx e), same_file X e = false :=
    fun e he => not_same_file_of_not_has hX e (List.mem_of_mem_filter he)
  have hWLf : W.has Lf = w.has Lf := by
    rw [has_eq_any, has_eq_any, hWf]
    simp [any_filter_other hkxf, same_file_mk, kxf]
  have hcw : ∀ eval, conflict T X Lf readonly eval W =
      conflict T X Lf readonly eval (w.remove Lx) :=
    fun eval => conflict_excl T X Lf readonly eval W (w.remove Lx) i Lx w.clock hWf
  have hfin := finish_nonforce env hff hcl T X Lf hdirX hdLf readonly l1 W hs
  rw [hWLf, hcw, hcw] at hfin
  have hU : ∀ n p, env.fault n (.unlink p) = false := fun n p => hff n (.unlink p)
  rw [lock_ff env hff, hXd, hLxd, hLfd]
  have hwa : ∀ V : World, (V.write_at Lf Lf).files = V.files.map (refresh Lf V.clock) := by
    intro V; rfl
  by_cases h1 : w.has Lf = true
  · rw [if_pos h1] at hfin
    simp only [if_pos h1]
    rw [htry (RETRY_MAX) _ _ hfin]
    simp only [Option.map_some', lock_exit_nonforce]
    refine ⟨_, _, rfl, ?_, hs, ?_⟩
    · rw [unlink_has]; simp [hff _ _]
    · rw [unlink_files_ff env hff, open_creat_ff_exists env hff _ _ (by simpa [hWLf] using h1),
        write_ff env hff]
      simp only [hwa, log_files, log_clock, hWf, hWc, World.remove, List.map_append,
        List.map_cons, List.map_nil, List.filter_append]
      rw [filter_of_none, List.filter_cons]
      · simp [refresh, same_file_mk, kxx, kxf]
      · intro e he
        obtain ⟨e0, he0, rfl⟩ := List.mem_map.mp he
        rw [same_file_refresh]
        exact hFX e0 he0
  · rw [if_neg h1] at hfin
    simp only [if_neg h1]
    have hXe : (w.files.filter (fun e => !same_file Lx e) ++
        [(⟨dir_of X, base_of X, i, Lx, w.clock⟩ : Entry)]).filter (fun e => !same_file X e) =
        w.files.filter (fun e => !same_file Lx e) := by
      rw [List.filter_append, filter_of_none hFX]
      simp [same_file_mk, kxx]
    by_cases h2 : conflict T X Lf readonly writer_eval (w.remove Lx) = true
    · rw [if_pos h2] at hfin
      simp only [if_pos h2]
      rw [htry (RETRY_MAX) _ _ hfin]
      simp only [Option.map_some', lock_exit_nonforce]
      refine ⟨_, _, rfl, ?_, rfl, ?_⟩
      · rw [unlink_has]; simp [hff _ _]
      · rw [unlink_files_ff env hff]
        simp only [log_files, hWf, World.remove, hXe]
    · rw [if_neg h2] at hfin
      simp only [if_neg h2]
      by_cases h3 : conflict T X Lf readonly reader_eval (w.remove Lx) = true
      · rw [if_pos h3] at hfin
        simp only [if_pos h3]
        rw [htry (RETRY_MAX) _ _ hfin]
        simp only [Option.map_some', lock_exit_nonforce]
        refine ⟨_, _, rfl, ?_, rfl, ?_⟩
        · rw [unlink_has]; simp [hff _ _]
        · rw [unlink_files_ff env hff]
          simp only [log_files, hWf, World.remove, hXe]
      · rw [if_neg h3] at hfin
        simp only [if_neg h3]
        rw [htry (RETRY_MAX) _ _ hfin]
        simp only [Option.map_some', lock_exit_nonforce]
        refine ⟨_, _, rfl, ?_, hs, W.next_ino, ?_⟩
        · rw [unlink_has]; simp [hff _ _]
        · have hWLf2 : ∀ e ∈ W.files, same_file Lf e = false := by
            apply not_same_file_of_not_has
            rw [hWLf]
            simpa using h1
          rw [unlink_files_ff env hff, open_creat_ff env hff _ _ (by simpa [hWLf] using h1),
            write_ff env hff]
          simp only [hwa, log_files, log_clock, create_clock, World.create, List.map_append,
            List.map_cons, List.map_nil]
          have hm : W.files.map (refresh Lf W.clock) = W.files := by
            unfold refresh
            exact map_of_none hWLf2 _
          rw [hm, hWf, List.filter_append, hXe, hWc]
          simp [refresh, same_file_mk, kff, kfx, World.remove]
/-! ## Final lock names and what the scans see of them -/

theorem final_name_fl (T host owner : Str) (readonly : Bool) :
    final_name T host owner readonly =
      (base_of T ++ ".xenlk.".toList ++ host ++ ".".toList ++ owner) ++
        ['.', 'f', if readonly then 'r' else 'w'] := by
  cases readonly <;> simp [final_name, sprintf_LFFL, mode_str]

theorem final_last {T : Str} {readonly : Bool} {e : Entry} (h : is_final_mode T readonly e) :
    e.name.getLast? = some (if readonly then 'r' else 'w') := by
  obtain ⟨_, host, owner, _, _, hn⟩ := h
  rw [hn, final_name_fl, getLast?_snoc3]

theorem lockfn_key (T : Str) : key (lockfn_str T) = (dir_of T, base_of T ++ LF_POSTFIX) := by
  unfold key lockfn_str
  rw [dir_of_append _ _ (by decide), base_of_append _ _ (by decide)]

theorem not_mem_LFFL {host owner : Str} (hh : '/' ∉ host) (ho : '/' ∉ owner) (readonly : Bool) :
    '/' ∉ sprintf LFFL_FORMAT [host, owner, mode_str readonly] := by
  rw [sprintf_LFFL]
  cases readonly <;> simp [mode_str, hh, ho]

theorem not_mem_LFXL {host owner : Str} (hh : '/' ∉ host) (ho : '/' ∉ owner) (readonly : Bool) :
    '/' ∉ sprintf LFXL_FORMAT [host, owner, mode_str readonly] := by
  rw [sprintf_LFXL]
  cases readonly <;> simp [mode_str, hh, ho]

theorem flink_key (T host owner : Str) (readonly : Bool) (hh : '/' ∉ host) (ho : '/' ∉ owner) :
    key (link_str T LFFL_FORMAT host owner readonly) =
      (dir_of T, final_name T host owner readonly) := by
  unfold key link_str final_name
  rw [dir_of_append _ _ (not_mem_LFFL hh ho readonly),
    base_of_append _ _ (not_mem_LFFL hh ho readonly)]

theorem xlink_key (T host owner : Str) (readonly : Bool) (hh : '/' ∉ host) (ho : '/' ∉ owner) :
    key (link_str T LFXL_FORMAT host owner readonly) =
      (dir_of T, base_of T ++ sprintf LFXL_FORMAT [host, owner, mode_str readonly]) := by
  unfold key link_str
  rw [dir_of_append _ _ (not_mem_LFXL hh ho readonly),
    base_of_append _ _ (not_mem_LFXL hh ho readonly)]

/-- No final lock name is the name of `X(T)`. -/
theorem final_ne_lockfn {T : Str} {e : Entry} (h : is_final T e) :
    e.name ≠ base_of T ++ LF_POSTFIX := by
  obtain ⟨ro, _, host, owner, _, _, hn⟩ := h
  intro hc
  have := congrArg List.length hc
  rw [hn, final_name_length] at this
  simp [LF_POSTFIX] at this
  omega

/-- No final lock name is the name of a link `L_x`. -/
theorem final_ne_xlink {T : Str} {e : Entry} (h : is_final T e) (host owner : Str)
    (readonly : Bool) :
    e.name ≠ base_of T ++ sprintf LFXL_FORMAT [host, owner, mode_str readonly] := by
  obtain ⟨ro, _, h2, o2, _, _, hn⟩ := h
  intro hc
  rw [hn, final_name_fl, sprintf_LFXL] at hc
  have h3 : base_of T ++ (".xenlk.".toList ++ host ++ ".".toList ++ owner ++ ".x".toList ++
      mode_str readonly) = (base_of T ++ ".xenlk.".toList ++ host ++ ".".toList ++ owner) ++
      ['.', 'x', if readonly then 'r' else 'w'] := by
    cases readonly <;> simp [mode_str]
  rw [h3] at hc
  have := (List.append_inj' hc (by simp)).2
  simp at this

/-- A final lock for `T` other than the caller's own `L_f` is looked at by the
scans of `lock_holder`. -/
theorem final_scanned {T Lf : Str} {e : Entry} (h : is_final T e)
    (hLf : e.name ≠ base_of Lf) : scanned T (lockfn_str T) Lf e.name = true := by
  have hs := final_is_sibling h
  have hx := final_ne_lockfn h
  have hb : base_of (lockfn_str T) = base_of T ++ LF_POSTFIX := congrArg Prod.snd (lockfn_key T)
  unfold scanned
  rw [hb]
  simp only [ne_eq, Bool.and_eq_true, decide_eq_true_eq]
  exact ⟨⟨hs.2.2, hx, hLf⟩, List.isPrefixOf_iff_prefix.mpr hs.2.1⟩

/-- What the scans look at is a sibling. -/
theorem sibling_of_scanned {T X Lf : Str} {e : Entry} (hd : e.dir = dir_of T)
    (h : scanned T X Lf e.name = true) : is_sibling T e := by
  unfold scanned at h
  simp only [ne_eq, Bool.and_eq_true, decide_eq_true_eq] at h
  exact ⟨hd, List.isPrefixOf_iff_prefix.mp h.2, h.1.1⟩

theorem conflict_iff (fn X Lf : Str) (readonly : Bool) (eval : Str → Bool → Bool) (w : World) :
    conflict fn X Lf readonly eval w = true ↔
      ∃ e ∈ w.files, e.dir = dir_of X ∧ scanned fn X Lf e.name = true ∧
        eval e.name readonly = true := by
  unfold conflict listing
  simp only [List.any_map, List.any_filter, List.any_eq_true, Function.comp_apply,
    Bool.and_eq_true, beq_iff_eq]
  constructor
  · rintro ⟨x, hx, hs, hv⟩
    obtain ⟨e, he, rfl⟩ := List.mem_map.mp hx
    obtain ⟨he1, he2⟩ := List.mem_filter.mp he
    exact ⟨e, he1, by simpa using he2, hs, hv⟩
  · rintro ⟨e, he, hd, hs, hv⟩
    exact ⟨e.name, List.mem_map.mpr ⟨e, List.mem_filter.mpr ⟨he, by simpa using hd⟩, rfl⟩, hs, hv⟩
/-! ## The status of a non-forcing acquire -/

/-- On a directory that holds, of the names starting with the base name of `T`,
only final locks, and not the caller's `L_f`: a scan finds an entry whose name
ends in the character of mode `m` exactly when a final lock of mode `m` exists. -/
theorem scan_sees_finals (T host owner : Str) (readonly : Bool) (w : World)
    (hh : '/' ∉ host) (ho : '/' ∉ owner) (hof : only_finals T w)
    (hLf : w.has (link_str T LFFL_FORMAT host owner readonly) = false) (m : Bool) :
    (∃ e ∈ w.files, e.dir = dir_of (lockfn_str T) ∧
      scanned T (lockfn_str T) (link_str T LFFL_FORMAT host owner readonly) e.name = true ∧
      e.name.getLast? = some (if m then 'r' else 'w')) ↔
    ∃ e ∈ w.files, is_final_mode T m e := by
  have hdX : dir_of (lockfn_str T) = dir_of T := congrArg Prod.fst (lockfn_key T)
  have hkF := flink_key T host owner readonly hh ho
  rw [hdX]
  constructor
  · rintro ⟨e, he, hd, hs, hl⟩
    obtain ⟨ro, hf⟩ := hof e he (sibling_of_scanned hd hs)
    have := final_last hf
    rw [hl] at this
    have hm : ro = m := by
      cases ro <;> cases m <;> simp at this <;> rfl
    subst hm
    exact ⟨e, he, hf⟩
  · rintro ⟨e, he, hf⟩
    refine ⟨e, he, hf.1, final_scanned ⟨m, hf⟩ ?_, final_last hf⟩
    intro hn
    have : same_file (link_str T LFFL_FORMAT host owner readonly) e = true := by
      rw [same_file_iff, hkF, hf.1, hn]
      exact congrArg (fun x => (dir_of T, x)) (congrArg Prod.snd hkF)
    have h2 := not_same_file_of_not_has hLf e he
    rw [this] at h2
    exact absurd h2 (by decide)

theorem absent_of_only_finals (T : Str) (w : World) (hof : only_finals T w) (p : Str) (s : Str)
    (hk : key p = (dir_of T, base_of T ++ s)) (hs : s ≠ [])
    (hn : ∀ e, is_final T e → e.name ≠ base_of T ++ s) : w.has p = false := by
  rw [Bool.eq_false_iff]
  intro h
  rw [has_eq_any, List.any_eq_true] at h
  obtain ⟨e, he, hs2⟩ := h
  rw [same_file_iff, hk] at hs2
  simp only [Prod.mk.injEq] at hs2
  have hsib : is_sibling T e := by
    refine ⟨hs2.1, ?_, ?_⟩
    · rw [hs2.2]; exact List.prefix_append _ _
    · rw [hs2.2]
      intro hc
      have := congrArg List.length hc
      simp at this
      exact hs this
  exact hn e (hof e he hsib) hs2.2

/-- C1 (amended): status decision of a non-forcing acquire. Host name and
owner without `'/'`, every call succeeding, the chunks of `dirname` holding a
zero byte behind the copied prefix, the target `T` not directly in `/`, on a
directory in which, of the names starting with the base name of `T`, only final
lock files for `T` exist (so neither `X(T)` nor a stale link) and the caller's
own `L_f` does not: `lock(T, owner, 0, readonly)` returns, and its status is
`LOCK_EHELD_WR` if a final lock of mode `w` exists (whoever owns it), otherwise
`LOCK_EHELD_RD` if `readonly` is false and a final lock of mode `r` exists,
otherwise `LOCK_OK`. -/
theorem C1_status_decision (env : Env) (hff : env.fault_free) (hcl : env.clean) (T owner : Str)
    (hdir : dir_of T ≠ [])
    (readonly : Bool) (w : World) (hh : '/' ∉ env.hostname) (ho : '/' ∉ owner)
    (hof : only_finals T w)
    (hLf : w.has (link_str T LFFL_FORMAT env.hostname owner readonly) = false) :
    ∃ s w1, lock env (some T) (some owner) false readonly w = some (s, w1) ∧
      ((∃ e ∈ w.files, is_final_mode T false e) → s = LOCK_EHELD_WR) ∧
      ((¬ ∃ e ∈ w.files, is_final_mode T false e) →
        (readonly = false ∧ ∃ e ∈ w.files, is_final_mode T true e) → s = LOCK_EHELD_RD) ∧
      ((¬ ∃ e ∈ w.files, is_final_mode T false e) →
        ¬ (readonly = false ∧ ∃ e ∈ w.files, is_final_mode T true e) → s = LOCK_OK) := by
  have hX : w.has (lockfn_str T) = false :=
    absent_of_only_finals T w hof _ LF_POSTFIX (lockfn_key T) (by decide)
      (fun e he => final_ne_lockfn he)
  have hLx : w.has (link_str T LFXL_FORMAT env.hostname owner readonly) = false :=
    absent_of_only_finals T w hof _ _ (xlink_key T env.hostname owner readonly hh ho)
      (by rw [sprintf_LFXL]; simp)
      (fun e he => final_ne_xlink he env.hostname owner readonly)
  obtain ⟨s, w1, hl, _, hres⟩ :=
    lock_nonforce_ff env hff hcl T owner hdir readonly w _ _ _ rfl rfl rfl hX
  have hrm : (w.remove (link_str T LFXL_FORMAT env.hostname owner readonly)).files = w.files :=
    filter_not_same_file_of_not_has w _ hLx
  rw [if_neg (by simp [hLf]), conflict_congr _ _ _ _ writer_eval _ w hrm,
    conflict_congr _ _ _ _ reader_eval _ w hrm] at hres
  have hW : conflict T (lockfn_str T) (link_str T LFFL_FORMAT env.hostname owner readonly)
      readonly writer_eval w = true ↔ ∃ e ∈ w.files, is_final_mode T false e := by
    rw [conflict_iff, ← scan_sees_finals T env.hostname owner readonly w hh ho hof hLf false]
    simp [writer_eval]
  have hR : conflict T (lockfn_str T) (link_str T LFFL_FORMAT env.hostname owner readonly)
      readonly reader_eval w = true ↔
      (readonly = false ∧ ∃ e ∈ w.files, is_final_mode T true e) := by
    rw [conflict_iff, ← scan_sees_finals T env.hostname owner readonly w hh ho hof hLf true]
    simp only [reader_eval, Bool.and_eq_true, beq_iff_eq, Bool.not_eq_true', ↓reduceIte]
    constructor
    · rintro ⟨e, he, hd, hs, hl, hr⟩
      exact ⟨hr, e, he, hd, hs, hl⟩
    · rintro ⟨hr, e, he, hd, hs, hl⟩
      exact ⟨e, he, hd, hs, hl, hr⟩
  refine ⟨s, w1, hl, ?_, ?_, ?_⟩
  · intro h
    rw [if_pos (hW.mpr h)] at hres
    exact hres.1
  · intro h h2
    rw [if_neg (fun hc => h (hW.mp hc)), if_pos (hR.mpr h2)] at hres
    exact hres.1
  · intro h h2
    rw [if_neg (fun hc => h (hW.mp hc)), if_neg (fun hc => h2 (hR.mp hc))] at hres
    exact hres.1

/-- C1 as stated fails. By design: the only final lock on `/tmp/f` is the
caller's own writer lock (host `h`, owner `001`), `X(T)` and the caller's reader
lock are absent and nothing fails, yet `lock("/tmp/f", "001", 0, 1)` returns
`LOCK_EHELD_WR`: no lock of another owner exists, and the claim promises
`LOCK_OK`. By the match on the base name of `T` alone: next to the target
`/tmp/f2` and its writer lock, where no lock file for `/tmp/f` exists at all,
`lock("/tmp/f", "001", 0, 0)` returns `LOCK_EHELD_WR`. By the unterminated
`dirname`: the writer `003` that is refused by
the readers `001` and `002` of `/tmp/f` when the chunks are clean is granted
the lock when the chunk of its second scan is a recycled one (call number 15
of the run is the `malloc` of that chunk); and on `/f`, in the directory `/`, the
writer `002` is granted the lock next to the writer lock of `001`. -/
theorem C1_counterexample :
    (w_held.files.map (fun e => (e.dir, e.name)) =
      [("/tmp".toList, final_name "/tmp/f".toList env0.hostname "001".toList false)] ∧
    w_held.has (lockfn_str "/tmp/f".toList) = false ∧
    w_held.has (link_str "/tmp/f".toList LFFL_FORMAT env0.hostname "001".toList true) = false ∧
    (lock env0 (some "/tmp/f".toList) (some "001".toList) false true w_held).map Prod.fst =
      some LOCK_EHELD_WR) ∧
    ((∀ e ∈ w_neighbour.files, ¬ ("f.xenlk".toList <+: e.name)) ∧
    (lock env0 (some "/tmp/f".toList) (some "001".toList) false false w_neighbour).map
      Prod.fst = some LOCK_EHELD_WR) ∧
    ((lock env0 (some "/tmp/f".toList) (some "003".toList) false false w_readers).map Prod.fst =
      some LOCK_EHELD_RD ∧
    (lock (env_recycled [15]) (some "/tmp/f".toList) (some "003".toList) false false
      w_readers).map (fun r => (r.1, r.2.files.map (fun e => e.name))) =
      some (LOCK_OK, ["f.xenlk.h.001.fr".toList, "f.xenlk.h.002.fr".toList,
        "f.xenlk.h.003.fw".toList])) ∧
    (lock env0 (some "/f".toList) (some "002".toList) false false w_root).map
      (fun r => (r.1, r.2.files.map (fun e => e.name))) =
      some (LOCK_OK, ["f.xenlk.h.001.fw".toList, "f.xenlk.h.002.fw".toList]) := by
  refine ⟨by decide, ⟨by decide, by decide⟩, ⟨by decide, by decide⟩, by decide⟩

theorem w_held_only_finals : only_finals "/tmp/f".toList w_held := by
  intro e he _
  simp only [w_held, List.mem_singleton] at he
  subst he
  exact ⟨false, by decide, "h".toList, "001".toList, by decide, by decide, by decide⟩

/-- C1 at a concrete input, scenario S3: owner `002` asks for a reader lock on
`/tmp/f` while owner `001` holds the writer lock, and is refused. -/
theorem C1_status_decision_witness :
    env0.fault_free ∧ only_finals "/tmp/f".toList w_held ∧
    ∃ w1, lock env0 (some "/tmp/f".toList) (some "002".toList) false true w_held =
      some (LOCK_EHELD_WR, w1) := by
  refine ⟨env0_fault_free, w_held_only_finals, ?_⟩
  obtain ⟨s, w1, hl, hW, _, _⟩ := C1_status_decision env0 env0_fault_free (fun _ => rfl)
    "/tmp/f".toList "002".toList (by decide) true w_held (by decide) (by decide)
    w_held_only_finals (by decide)
  have hs : s = LOCK_EHELD_WR :=
    hW ⟨_, List.mem_singleton.mpr rfl,
      by decide, "h".toList, "001".toList, by decide, by decide, by decide⟩
  subst hs
  exact ⟨w1, hl⟩
/-! ## The readers/writer invariant -/

theorem InvL_sublist {T : Str} {fs gs : List Entry} (h : gs.Sublist fs) (hI : InvL T fs) :
    InvL T gs := by
  rcases hI with ⟨hp, hr⟩ | hw
  · exact Or.inl ⟨hp.sublist h, fun e he => hr e (h.subset he)⟩
  · exact Or.inr (fun e he => hw e (h.subset he))

theorem is_final_mode_refresh (T Lf : Str) (now : Nat) (m : Bool) (e : Entry) :
    is_final_mode T m (refresh Lf now e) ↔ is_final_mode T m e := by
  unfold refresh
  split <;> rfl

theorem InvL_map_refresh {T : Str} {fs : List Entry} (Lf : Str) (now : Nat) (hI : InvL T fs) :
    InvL T (fs.map (refresh Lf now)) := by
  rcases hI with ⟨hp, hr⟩ | hw
  · left
    refine ⟨?_, ?_⟩
    · rw [List.pairwise_map]
      refine hp.imp ?_
      intro a b hab
      rw [is_final_mode_refresh, is_final_mode_refresh]
      exact hab
    · intro e he
      obtain ⟨e0, he0, rfl⟩ := List.mem_map.mp he
      rw [is_final_mode_refresh]
      exact hr e0 he0
  · right
    intro e he
    obtain ⟨e0, he0, rfl⟩ := List.mem_map.mp he
    rw [is_final_mode_refresh]
    exact hw e0 he0

/-- One more entry keeps the invariant when it is no final lock, or a reader
next to no writer, or a writer next to no final lock at all. -/
theorem InvL_snoc {T : Str} {fs : List Entry} {x : Entry} (hI : InvL T fs)
    (hA : is_final T x → ∀ e ∈ fs, ¬ is_final_mode T false e)
    (hB : is_final_mode T false x → ∀ e ∈ fs, ¬ is_final_mode T true e) :
    InvL T (fs ++ [x]) := by
  by_cases hW : is_final_mode T false x
  · have hnW := hA ⟨false, hW⟩
    have hnR := hB hW
    left
    refine ⟨?_, ?_⟩
    · rw [List.pairwise_append]
      refine ⟨?_, List.pairwise_singleton _ _, ?_⟩
      · exact List.pairwise_of_forall_mem_list (fun a ha b _ hc => hnW a ha hc.1)
      · intro a ha b _ hc
        exact hnW a ha hc.1
    · intro e he
      rcases List.mem_append.mp he with he | he
      · exact hnR e he
      · rw [List.mem_singleton] at he
        subst he
        intro hR
        have h1 := final_last hW
        have h2 := final_last hR
        rw [h1] at h2
        simp at h2
  · by_cases hR : is_final_mode T true x
    · right
      intro e he
      rcases List.mem_append.mp he with he | he
      · exact hA ⟨true, hR⟩ e he
      · rw [List.mem_singleton] at he
        subst he
        exact hW
    · rcases hI with ⟨hp, hr⟩ | hw
      · left
        refine ⟨?_, ?_⟩
        · rw [List.pairwise_append]
          refine ⟨hp, List.pairwise_singleton _ _, ?_⟩
          intro a _ b hb hc
          rw [List.mem_singleton] at hb
          subst hb
          exact hW hc.2
        · intro e he
          rcases List.mem_append.mp he with he | he
          · exact hr e he
          · rw [List.mem_singleton] at he
            subst he
            exact hR
      · right
        intro e he
        rcases List.mem_append.mp he with he | he
        · exact hw e he
        · rw [List.mem_singleton] at he
          subst he
          exact hW

theorem base_of_getLast? (p : Str) (h : base_of p ≠ []) : (base_of p).getLast? = p.getLast? := by
  unfold base_of at h ⊢
  cases hs : strrchr '/' p with
  | none => rfl
  | some pp =>
    obtain ⟨pre, post⟩ := pp
    rw [hs] at h
    simp only at h ⊢
    have hp := (strrchr_some hs).1
    have : p = (pre ++ ['/']) ++ post := by rw [hp]; simp
    rw [this, List.getLast?_append_of_ne_nil _ h]

/-- A non-forcing `lock` on a directory without `X(T)`, every call succeeding,
the chunks of `dirname` clean and the target not directly in `/`, returns and
keeps the readers/writer invariant, whatever its status. -/
theorem lock_keeps_Inv (env : Env) (hff : env.fault_free) (hcl : env.clean) (T owner : Str)
    (hdir : dir_of T ≠ []) (readonly : Bool)
    (w : World) (hX : w.has (lockfn_str T) = false) (hI : Inv T w) :
    ∃ s w1, lock env (some T) (some owner) false readonly w = some (s, w1) ∧
      w1.has (lockfn_str T) = false ∧ Inv T w1 := by
  obtain ⟨s, w1, hl, hX1, hres⟩ :=
    lock_nonforce_ff env hff hcl T owner hdir readonly w _ _ _ rfl rfl rfl hX
  refine ⟨s, w1, hl, hX1, ?_⟩
  have hsub : ((w.remove (link_str T LFXL_FORMAT env.hostname owner readonly)).files).Sublist
      w.files := List.filter_sublist _
  have hIF := InvL_sublist hsub hI
  have hdX : dir_of (lockfn_str T) = dir_of T := congrArg Prod.fst (lockfn_key T)
  unfold Inv
  split_ifs at hres with h1 h2 h3
  · rw [hres.2]
    exact InvL_map_refresh _ _ hIF
  · rw [hres.2]
    exact hIF
  · rw [hres.2]
    exact hIF
  · obtain ⟨_, i, hf⟩ := hres
    rw [hf]
    have hne : is_final T ⟨dir_of (link_str T LFFL_FORMAT env.hostname owner readonly),
        base_of (link_str T LFFL_FORMAT env.hostname owner readonly), i,
        link_str T LFFL_FORMAT env.hostname owner readonly, w.clock⟩ →
        ∀ e ∈ (w.remove (link_str T LFXL_FORMAT env.hostname owner readonly)).files,
          e.dir = dir_of T →
          e.name ≠ base_of (link_str T LFFL_FORMAT env.hostname owner readonly) := by
      rintro ⟨m, hd, _⟩ e he hed hn
      have hs : same_file (link_str T LFFL_FORMAT env.hostname owner readonly) e = true := by
        rw [same_file_iff, key, hed, hn]
        simp only at hd
        rw [hd]
      have h4 := not_same_file_of_not_has (by simpa using h1) e (hsub.subset he)
      rw [hs] at h4
      exact absurd h4 (by decide)
    apply InvL_snoc hIF
    · intro hfin e he hW
      apply h2
      rw [conflict_iff]
      refine ⟨e, he, by rw [hdX]; exact hW.1, final_scanned ⟨false, hW⟩ (hne hfin e he hW.1), ?_⟩
      simp [writer_eval, final_last hW]
    · intro hWf e he hR
      have hro : readonly = false := by
        have h5 := final_last hWf
        simp only at h5
        have h6 : base_of (link_str T LFFL_FORMAT env.hostname owner readonly) ≠ [] := by
          intro hc
          rw [hc] at h5
          simp at h5
        rw [base_of_getLast? _ h6, link_str_fl, getLast?_snoc3] at h5
        cases readonly <;> simp at h5 ⊢
      apply h3
      rw [conflict_iff]
      refine ⟨e, he, by rw [hdX]; exact hR.1,
        final_scanned ⟨true, hR⟩ (hne ⟨false, hWf⟩ e he hR.1), ?_⟩
      simp [reader_eval, final_last hR, hro]

/-- An `unlock`, every call succeeding, keeps the readers/writer invariant and
does not bring `X(T)` about. -/
theorem unlock_keeps_Inv (env : Env) (hff : env.fault_free) (T owner : Str) (readonly : Bool)
    (w : World) (hX : w.has (lockfn_str T) = false) (hI : Inv T w) :
    (unlock env (some T) (some owner) readonly w).2.has (lockfn_str T) = false ∧
      Inv T (unlock env (some T) (some owner) readonly w).2 := by
  have hf : (unlock env (some T) (some owner) readonly w).2.files =
      w.files.filter
        (fun e => !same_file (link_str T LFFL_FORMAT env.hostname owner readonly) e) := by
    rw [unlock_ff env hff]
    simp [unlink_files_ff env hff]
  refine ⟨?_, ?_⟩
  · rw [has_eq_any, hf, List.any_eq_false]
    intro e he
    have := not_same_file_of_not_has hX e (List.mem_of_mem_filter he)
    simp [this]
  · unfold Inv
    rw [hf]
    exact InvL_sublist (List.filter_sublist _) hI

theorem run_keeps_Inv (env : Env) (hff : env.fault_free) (hcl : env.clean) (T : Str)
    (hdir : dir_of T ≠ []) (ops : List Op) :
    ∀ w : World, w.has (lockfn_str T) = false → Inv T w →
      ∃ w1, run env T ops w = some w1 ∧ w1.has (lockfn_str T) = false ∧ Inv T w1 := by
  induction ops with
  | nil => exact fun w hX hI => ⟨w, rfl, hX, hI⟩
  | cons op ops ih =>
    intro w hX hI
    cases op with
    | lock owner readonly =>
      obtain ⟨s, w1, hl, hX1, hI1⟩ := lock_keeps_Inv env hff hcl T owner hdir readonly w hX hI
      obtain ⟨w2, hr, hX2, hI2⟩ := ih w1 hX1 hI1
      exact ⟨w2, by simp [run, hl, hr], hX2, hI2⟩
    | unlock owner readonly =>
      obtain ⟨hX1, hI1⟩ := unlock_keeps_Inv env hff T owner readonly w hX hI
      obtain ⟨w2, hr, hX2, hI2⟩ := ih _ hX1 hI1
      exact ⟨w2, by simp [run, hr], hX2, hI2⟩

/-- Under the invariant a writer lock is the only final lock: every entry at
another position of the directory is no final lock for `T`. -/
theorem InvL_writer_alone {T : Str} {fs : List Entry} (hI : InvL T fs) (a b : Entry)
    (hab : [a, b].Sublist fs) :
    (is_final_mode T false a → ¬ is_final T b) ∧ (is_final_mode T false b → ¬ is_final T a) := by
  have ha : a ∈ fs := hab.subset (by simp)
  have hb : b ∈ fs := hab.subset (by simp)
  rcases hI with ⟨hp, hr⟩ | hw
  · have h2 := hp.sublist hab
    simp only [List.pairwise_cons, List.mem_singleton, forall_eq, List.not_mem_nil,
      false_implies, implies_true, List.Pairwise.nil, and_self, and_true] at h2
    constructor
    · rintro hW ⟨m, hm⟩
      cases m
      · exact h2 ⟨hW, hm⟩
      · exact hr b hb hm
    · rintro hW ⟨m, hm⟩
      cases m
      · exact h2 ⟨hm, hW⟩
      · exact hr a ha hm
  · exact ⟨fun hW => absurd hW (hw a ha), fun hW => absurd hW (hw b hb)⟩

/-- Where the scans read the directory of `T`, the readers/writer invariant is
preserved by sequential use. From a directory without `X(T)` that satisfies
`Inv`, every call succeeding, the chunks of `dirname` clean and `T` not
directly in `/`: a non-forcing `lock(T, owner, 0, readonly)` returns and leaves
a directory that satisfies `Inv`, whatever its status; so does
`unlock(T, owner, readonly)`; and every sequence of such calls, each run to
completion before the next, ends in a directory that satisfies `Inv`, in which
therefore a writer lock is the only final lock for `T`. -/
theorem invariant_preserved_clean (env : Env) (hff : env.fault_free) (hcl : env.clean)
    (T : Str) (hdir : dir_of T ≠ []) (w : World)
    (hX : w.has (lockfn_str T) = false) (hI : Inv T w) :
    (∀ owner readonly, ∃ s w1,
      lock env (some T) (some owner) false readonly w = some (s, w1) ∧ Inv T w1) ∧
    (∀ owner readonly, Inv T (unlock env (some T) (some owner) readonly w).2) ∧
    ∀ ops, ∃ w1, run env T ops w = some w1 ∧ Inv T w1 ∧
      ∀ a b, [a, b].Sublist w1.files →
        (is_final_mode T false a → ¬ is_final T b) ∧
        (is_final_mode T false b → ¬ is_final T a) := by
  refine ⟨?_, ?_, ?_⟩
  · intro owner readonly
    obtain ⟨s, w1, hl, _, hI1⟩ := lock_keeps_Inv env hff hcl T owner hdir readonly w hX hI
    exact ⟨s, w1, hl, hI1⟩
  · intro owner readonly
    exact (unlock_keeps_Inv env hff T owner readonly w hX hI).2
  · intro ops
    obtain ⟨w1, hr, _, hI1⟩ := run_keeps_Inv env hff hcl T hdir ops w hX hI
    exact ⟨w1, hr, hI1, fun a b hab => InvL_writer_alone hI1 a b hab⟩

theorem w_held_Inv : Inv "/tmp/f".toList w_held := by
  left
  refine ⟨List.pairwise_singleton _ _, ?_⟩
  intro e he hR
  simp only [w_held, List.mem_singleton] at he
  subst he
  have := final_last hR
  simp at this

theorem map_eq_pair {α β : Type} (f : α → β) (l : List α) (x y : β) (h : l.map f = [x, y]) :
    ∃ a b, l = [a, b] ∧ f a = x ∧ f b = y := by
  match l, h with
  | [a, b], h =>
    simp only [List.map_cons, List.map_nil, List.cons.injEq, and_true] at h
    exact ⟨a, b, rfl, h.1, h.2⟩

/-- A reader lock and a writer lock for `T` side by side break the
readers/writer invariant. -/
theorem not_InvL_of_both {T : Str} {fs : List Entry} {a b : Entry} (ha : a ∈ fs) (hb : b ∈ fs)
    (hR : is_final_mode T true a) (hW : is_final_mode T false b) : ¬ InvL T fs := by
  rintro (⟨_, hr⟩ | hw)
  · exact hr a ha hR
  · exact hw b hb hW

/-- Two writer locks for `T` break the readers/writer invariant. -/
theorem not_InvL_of_writers {T : Str} {a b : Entry} (hW1 : is_final_mode T false a)
    (hW2 : is_final_mode T false b) : ¬ InvL T [a, b] := by
  rintro (⟨hp, _⟩ | hw)
  · simp only [List.pairwise_cons, List.mem_singleton, forall_eq, List.not_mem_nil,
      false_implies, implies_true, List.Pairwise.nil, and_self, and_true] at hp
    exact hp ⟨hW1, hW2⟩
  · exact hw a (by simp) hW1

/-- C2 fails in the code. The run of four calls on `/tmp/f` that starts with the
writer lock of `001` in place (`002` asks for a reader lock and is refused,
`001` releases, `002` asks again and is admitted, `003` asks for the writer
lock), every call succeeding, ends with the reader lock of `002` alone when the
chunks of `dirname` are clean. When the chunks of the second scans (the calls
number 34 and 55 of the run) are recycled ones, as they are once the first scan
has freed its chunk, `opendir` is handed a name that is no directory, the
readers are not seen, and the run ends with the reader lock of `002` and the
writer lock of `003` side by side. On `/f`, in the directory `/`, `opendir` is
handed the empty name and a second writer is admitted. Each run starts from a
directory that satisfies `Inv` and ends in one that does not. -/
theorem C2_writer_beside_reader :
    (Inv "/tmp/f".toList w_held ∧ w_held.has (lockfn_str "/tmp/f".toList) = false ∧
      (run env0 "/tmp/f".toList
        [.lock "002".toList true, .unlock "001".toList false, .lock "002".toList true,
          .lock "003".toList false] w_held).map (fun v => v.files.map (fun e => e.name)) =
        some ["f.xenlk.h.002.fr".toList] ∧
      ∃ w1, run (env_recycled [34, 55]) "/tmp/f".toList
        [.lock "002".toList true, .unlock "001".toList false, .lock "002".toList true,
          .lock "003".toList false] w_held = some w1 ∧
        w1.files.map (fun e => e.name) =
          ["f.xenlk.h.002.fr".toList, "f.xenlk.h.003.fw".toList] ∧
        ¬ Inv "/tmp/f".toList w1) ∧
    (Inv "/f".toList w_root ∧ w_root.has (lockfn_str "/f".toList) = false ∧
      ∃ w1, lock env0 (some "/f".toList) (some "002".toList) false false w_root =
          some (LOCK_OK, w1) ∧
        w1.files.map (fun e => e.name) =
          ["f.xenlk.h.001.fw".toList, "f.xenlk.h.002.fw".toList] ∧
        ¬ Inv "/f".toList w1) := by
  have fin : ∀ (T : Str) (m : Bool) (o : Str) (e : Entry), '/' ∉ o → e.dir = dir_of T →
      e.name = final_name T "h".toList o m → is_final_mode T m e :=
    fun T m o e ho hd hn => ⟨hd, "h".toList, o, by decide, ho, hn⟩
  refine ⟨⟨w_held_Inv, by decide, by decide, ?_⟩, ?_, by decide, ?_⟩
  · cases hr : run (env_recycled [34, 55]) "/tmp/f".toList
        [.lock "002".toList true, .unlock "001".toList false, .lock "002".toList true,
          .lock "003".toList false] w_held with
    | none =>
      have h : (run (env_recycled [34, 55]) "/tmp/f".toList
        [.lock "002".toList true, .unlock "001".toList false, .lock "002".toList true,
          .lock "003".toList false] w_held).isSome = true := by decide
      rw [hr] at h
      cases h
    | some w1 =>
      have h : (run (env_recycled [34, 55]) "/tmp/f".toList
        [.lock "002".toList true, .unlock "001".toList false, .lock "002".toList true,
          .lock "003".toList false] w_held).map (fun v => v.files.map (fun e => (e.dir, e.name))) =
          some [("/tmp".toList, "f.xenlk.h.002.fr".toList),
            ("/tmp".toList, "f.xenlk.h.003.fw".toList)] := by decide
      rw [hr] at h
      simp only [Option.map_some', Option.some.injEq] at h
      refine ⟨w1, rfl, ?_, ?_⟩
      · have h2 := congrArg (List.map Prod.snd) h
        simpa using h2
      · obtain ⟨a, b, hf, ha, hb⟩ := map_eq_pair _ _ _ _ h
        simp only [Prod.mk.injEq] at ha hb
        unfold Inv
        rw [hf]
        exact not_InvL_of_both (List.mem_cons_self _ _) (List.mem_cons_of_mem _
          (List.mem_singleton.mpr rfl))
          (fin _ true "002".toList a (by decide) ha.1 ha.2)
          (fin _ false "003".toList b (by decide) hb.1 hb.2)
  · left
    refine ⟨List.pairwise_singleton _ _, ?_⟩
    intro e he hR
    simp only [w_root, List.mem_singleton] at he
    subst he
    have := final_last hR
    simp at this
  · cases hr : lock env0 (some "/f".toList) (some "002".toList) false false w_root with
    | none =>
      have h : (lock env0 (some "/f".toList) (some "002".toList) false false w_root).isSome =
          true := by decide
      rw [hr] at h
      cases h
    | some r =>
      obtain ⟨s, w1⟩ := r
      have h : (lock env0 (some "/f".toList) (some "002".toList) false false w_root).map
          (fun v => (v.1, v.2.files.map (fun e => (e.dir, e.name)))) =
          some (LOCK_OK, [([], "f.xenlk.h.001.fw".toList), ([], "f.xenlk.h.002.fw".toList)]) := by
        decide
      rw [hr] at h
      simp only [Option.map_some', Option.some.injEq, Prod.mk.injEq] at h
      obtain ⟨hs, h⟩ := h
      subst hs
      refine ⟨w1, rfl, ?_, ?_⟩
      · have h2 := congrArg (List.map Prod.snd) h
        simpa using h2
      · obtain ⟨a, b, hf, ha, hb⟩ := map_eq_pair _ _ _ _ h
        simp only [Prod.mk.injEq] at ha hb
        unfold Inv
        rw [hf]
        exact not_InvL_of_writers
          (fin _ false "001".toList a (by decide) ha.1 ha.2)
          (fin _ false "002".toList b (by decide) hb.1 hb.2)
/-! ## The exclusive phase of a forcing `lock` -/

theorem link_clock (env : Env) (w : World) (p q : Str) : (link env p q w).2.clock = w.clock := by
  rw [link_eq]
  split
  · split <;> rfl
  · rfl

theorem unlink_clock (env : Env) (w : World) (p : Str) : (unlink env p w).2.clock = w.clock := by
  rw [unlink_eq]
  split <;> rfl

theorem link_files_sub (env : Env) (w : World) (p q : Str) :
    ∀ e ∈ (link env p q w).2.files, e ∈ w.files ∨ (e.dir, e.name) = key q := by
  intro e he
  rw [link_eq] at he
  split at he
  · split at he
    · exact Or.inl he
    · simp only [World.add_link, log_files, List.mem_append, List.mem_singleton] at he
      rcases he with he | he
      · exact Or.inl he
      · right
        rw [he]
        rfl
  · exact Or.inl he

theorem link_files_sup (env : Env) (w : World) (p q : Str) :
    ∀ e ∈ w.files, e ∈ (link env p q w).2.files := by
  intro e he
  rw [link_eq]
  split
  · split
    · exact he
    · simp only [World.add_link, log_files, List.mem_append, List.mem_singleton]
      exact Or.inl he
  · exact he

/-- One pass through `try_again` of a forcing `lock` in front of an `X(T)` that
holds somebody else's record: `X(T)` is unlinked, `stealx` is set, and the
next pass starts. -/
theorem attempt_steal (env : Env) (hff : env.fault_free) (fn X Lx Lf : Str)
    (readonly : Bool) (l : Locals) (w : World) (e : Entry) (he : w.lookup X = some e)
    (hrec : owns_record Lx e.content = false) (hr : l.retry_attempts ≤ RETRY_MAX) :
    attempt env fn X Lx Lf true readonly l w =
      .again { l with retry_attempts := l.retry_attempts + 1, stealx := true,
                      status := LOCK_EXLOCK_OPEN }
        ⟨w.files.filter (fun e => !same_file X e), w.next_ino, w.clock,
          .usleep :: .random :: .unlink X :: .read X Lx.length :: .malloc (Lx.length + 1) ::
            .open_rdwr X :: .open_excl X :: w.trace⟩ := by
  have hX : w.has X = true := by simp [World.has, he]
  have hr1 : ¬ l.retry_attempts > RETRY_MAX := by omega
  rw [attempt_eq, if_neg hr1, open_excl_ff_exists env hff w X hX]
  simp only [Bool.false_eq_true, ↓reduceIte, open_rdwr_ff env hff, log_has, hX,
    malloc_ff env hff, read_ff env hff, log_lookup, he, Option.map_some']
  simp only [owns_record, Bool.and_eq_false_iff, decide_eq_false_iff_not] at hrec
  have hfl : force_lock env X true { l with retry_attempts := l.retry_attempts + 1 }
      ((((w.log (.open_excl X)).log (.open_rdwr X)).log (.malloc (Lx.length + 1))).log
        (.read X Lx.length)) =
      .again { l with retry_attempts := l.retry_attempts + 1, stealx := true,
                      status := LOCK_EXLOCK_OPEN }
        ⟨w.files.filter (fun e => !same_file X e), w.next_ino, w.clock,
          .usleep :: .random :: .unlink X :: .read X Lx.length :: .malloc (Lx.length + 1) ::
            .open_rdwr X :: .open_excl X :: w.trace⟩ := by
    rw [force_lock_eq, unlink_ff env hff _ X (by simpa using hX)]
    simp [World.log, World.remove]
  by_cases h1 : (e.content.take Lx.length).length = Lx.length
  · have h2 : ¬ (e.content.take Lx.length).take (Lx.length - 1) = Lx.take (Lx.length - 1) := by
      rcases hrec with h | h
      · exact absurd h1 h
      · exact h
    rw [if_neg (by simpa using h1), if_neg h2]
    exact hfl
  · rw [if_pos h1]
    exact hfl
/-- One pass through `try_again` in front of an `X(T)` that passes the test for
the caller's own record: the record is rewritten and the link made and
compared; either the phase is held, or `X(T)` and `L_x` are both removed for
another round. Nothing else in the directory changes. -/
theorem attempt_own (env : Env) (hff : env.fault_free) (fn X Lx Lf : Str)
    (force readonly : Bool) (l : Locals) (w : World) (e : Entry) (he : w.lookup X = some e)
    (hrec : owns_record Lx e.content = true) (hdX : is_dot (base_of X) = false)
    (hdLx : is_dot (base_of Lx) = false) (hr : l.retry_attempts + 1 < RETRY_MAX) :
    ∃ W, W.clock = w.clock ∧ W.overruns = w.overruns ∧
      (∀ e ∈ W.files, (e.dir, e.name) = key X ∨ e ∈ w.files) ∧
      (∀ e ∈ w.files, same_file X e = false → same_file Lx e = false → e ∈ W.files) ∧
      (attempt env fn X Lx Lf force readonly l w =
          finish env fn X Lf force readonly
            { l with retry_attempts := l.retry_attempts + 2, status := LOCK_OK } W ∨
        (attempt env fn X Lx Lf force readonly l w =
          .again { l with retry_attempts := l.retry_attempts + 2, status := LOCK_EINODE } W ∧
          W.has X = false ∧ W.has Lx = false)) := by
  have hX : w.has X = true := by simp [World.has, he]
  have hr1 : ¬ l.retry_attempts > RETRY_MAX := by omega
  simp only [owns_record, Bool.and_eq_true, decide_eq_true_eq] at hrec
  have hA : attempt env fn X Lx Lf force readonly l w =
      link_loop env fn X Lx Lf force readonly { l with retry_attempts := l.retry_attempts + 1 }
        (((((((w.log (.open_excl X)).log (.open_rdwr X)).log (.malloc (Lx.length + 1))).log
          (.read X Lx.length)).log (.lseek X)).log (.write X Lx)).write_at X Lx) := by
    rw [attempt_eq, if_neg hr1, open_excl_ff_exists env hff w X hX]
    simp only [Bool.false_eq_true, ↓reduceIte, open_rdwr_ff env hff, log_has, hX,
      malloc_ff env hff, read_ff env hff, log_lookup, he, Option.map_some']
    rw [if_neg (by simpa using hrec.1), if_pos hrec.2, lseek_ff env hff]
    simp only [↓reduceIte]
    rw [skip_eq, write_ff env hff]
    simp only [↓reduceIte]
  have h1f : (((((((w.log (.open_excl X)).log (.open_rdwr X)).log (.malloc (Lx.length + 1))).log
      (.read X Lx.length)).log (.lseek X)).log (.write X Lx)).write_at X Lx).files =
      w.files.map (fun e => if same_file X e then
        { e with content := Lx ++ e.content.drop Lx.length, mtime := w.clock } else e) := rfl
  have h1c : (((((((w.log (.open_excl X)).log (.open_rdwr X)).log (.malloc (Lx.length + 1))).log
      (.read X Lx.length)).log (.lseek X)).log (.write X Lx)).write_at X Lx).clock =
      w.clock := rfl
  have h1o : (((((((w.log (.open_excl X)).log (.open_rdwr X)).log (.malloc (Lx.length + 1))).log
      (.read X Lx.length)).log (.lseek X)).log (.write X Lx)).write_at X Lx).overruns =
      w.overruns := by
    simp [World.overruns, World.write_at, World.log, Call.is_overrun]
  have h1X : (((((((w.log (.open_excl X)).log (.open_rdwr X)).log (.malloc (Lx.length + 1))).log
      (.read X Lx.length)).log (.lseek X)).log (.write X Lx)).write_at X Lx).has X = true := by
    rw [write_at_has]
    simpa using hX
  generalize (((((((w.log (.open_excl X)).log (.open_rdwr X)).log (.malloc (Lx.length + 1))).log
      (.read X Lx.length)).log (.lseek X)).log (.write X Lx)).write_at X Lx) = W1 at *
  -- the world after the link
  have h2c := link_clock env W1 X Lx
  have h2o : (link env X Lx W1).2.overruns = W1.overruns :=
    stable_link (stable_overruns W1.overruns) env W1 X Lx trivial rfl
  have h2sub := link_files_sub env W1 X Lx
  have h2sup := link_files_sup env W1 X Lx
  have h2X : (link env X Lx W1).2.has X = true := by
    rw [link_has, h1X]
    rfl
  have h2L : (link env X Lx W1).2.has Lx = true := by
    rw [link_has, h1X]
    simp [hff _ _]
  generalize hW2 : (link env X Lx W1).2 = W2 at *
  obtain ⟨eX, heX⟩ : ∃ eX, W2.lookup X = some eX := Option.isSome_iff_exists.mp h2X
  obtain ⟨eL, heL⟩ : ∃ eL, W2.lookup Lx = some eL := Option.isSome_iff_exists.mp h2L
  have hP1 : ∀ e ∈ W2.files, same_file Lx e = false → (e.dir, e.name) = key X ∨ e ∈ w.files := by
    intro e1 h1 hn
    rcases h2sub e1 h1 with h | h
    · rw [h1f] at h
      obtain ⟨e0, he0, rfl⟩ := List.mem_map.mp h
      by_cases hs : same_file X e0 = true
      · left
        simp only [hs, ↓reduceIte]
        exact (same_file_iff X e0).mp hs
      · right
        simp only [hs, Bool.false_eq_true, ↓reduceIte]
        exact he0
    · rw [Bool.eq_false_iff] at hn
      exact absurd ((same_file_iff Lx e1).mpr h) hn
  have hP2 : ∀ e ∈ w.files, same_file X e = false → e ∈ W2.files := by
    intro e1 h1 hn
    apply h2sup
    rw [h1f]
    refine List.mem_map.mpr ⟨e1, h1, ?_⟩
    simp [hn]
  rw [hA, link_loop_eq, if_pos (by exact hr), lstat_ff env hff _ _ hdX, lstat_ff env hff _ _ hdLx]
  simp only [hW2, log_lookup, heX, heL]
  by_cases hi : eX.ino = eL.ino
  · rw [if_pos hi]
    refine ⟨_, ?_, ?_, ?_, ?_, Or.inl rfl⟩
    · rw [unlink_clock]
      exact h2c.trans h1c
    · rw [stable_unlink (stable_overruns W2.overruns) env _ Lx trivial
        (by simp [overruns_log, Call.is_overrun])]
      exact h2o.trans h1o
    · intro e1 h1
      rw [unlink_files_ff env hff] at h1
      obtain ⟨h1, h2⟩ := List.mem_filter.mp h1
      exact hP1 e1 h1 (by simpa using h2)
    · intro e1 h1 hnX hnL
      rw [unlink_files_ff env hff]
      exact List.mem_filter.mpr ⟨hP2 e1 h1 hnX, by simp [hnL]⟩
  · rw [if_neg hi]
    refine ⟨_, ?_, ?_, ?_, ?_, Or.inr ⟨rfl, ?_, ?_⟩⟩
    · simp only [XSLEEP_eq]
      show (unlink env Lx (unlink env X _).2).2.clock = _
      rw [unlink_clock, unlink_clock]
      exact h2c.trans h1c
    · rw [stable_XSLEEP (stable_overruns W2.overruns) env _
        (stable_unlink (stable_overruns W2.overruns) env _ Lx trivial
          (stable_unlink (stable_overruns W2.overruns) env _ X trivial
            (by simp [overruns_log, Call.is_overrun])))]
      exact h2o.trans h1o
    · intro e1 h1
      simp only [XSLEEP_eq, log_files] at h1
      rw [unlink_files_ff env hff, unlink_files_ff env hff] at h1
      obtain ⟨h1, h2⟩ := List.mem_filter.mp h1
      exact hP1 e1 (List.mem_of_mem_filter h1) (by simpa using h2)
    · intro e1 h1 hnX hnL
      simp only [XSLEEP_eq, log_files]
      rw [unlink_files_ff env hff, unlink_files_ff env hff]
      exact List.mem_filter.mpr ⟨List.mem_filter.mpr ⟨hP2 e1 h1 hnX, by simp [hnX]⟩,
        by simp [hnL]⟩
    · simp only [XSLEEP_eq, log_has]
      rw [unlink_has, unlink_has]
      simp [hff _ _]
    · simp only [XSLEEP_eq, log_has]
      rw [unlink_has]
      simp [hff _ _]
/-- The exclusive phase of a forcing `lock` without faults, whatever `X(T)` it
finds: the label `finish` is reached with status `LOCK_OK`, with `stealx` set
when `X(T)` held somebody else's record, the clock where it was, and a
directory that differs from the one before in `X(T)` and `L_x` only. -/
theorem excl_phase_force (env : Env) (hff : env.fault_free) (fn X Lx Lf : Str)
    (readonly : Bool) (l : Locals) (w : World) (hk : key X ≠ key Lx)
    (hdX : is_dot (base_of X) = false) (hdLx : is_dot (base_of Lx) = false)
    (hr : l.retry_attempts + 4 < RETRY_MAX) :
    ∃ l1 W, l1.status = LOCK_OK ∧
      ((∃ e, w.lookup X = some e ∧ owns_record Lx e.content = false) → l1.stealx = true) ∧
      W.clock = w.clock ∧ W.overruns = w.overruns ∧
      (∀ e ∈ W.files, (e.dir, e.name) = key X ∨ e ∈ w.files) ∧
      (∀ e ∈ w.files, same_file X e = false → same_file Lx e = false → e ∈ W.files) ∧
      ∀ fuel a b, finish env fn X Lf true readonly l1 W = .leave a b →
        try_again env fn X Lx Lf true readonly (fuel + 3) l w = some (a, b) := by
  cases hl : w.lookup X with
  | none =>
    have hX : w.has X = false := by simp [World.has, hl]
    obtain ⟨l1, W, hs, _, _, _, ⟨i, hWf⟩, hWc, hWo, htry⟩ := excl_phase_any env hff fn X Lx Lf
      true readonly l w hX hk hdX hdLx (by omega)
    refine ⟨l1, W, hs, ?_, hWc, hWo, ?_, ?_, fun fuel a b h => htry (fuel + 1) a b h⟩
    · rintro ⟨e, he, _⟩
      cases he
    · intro e he
      rw [hWf] at he
      rcases List.mem_append.mp he with he | he
      · exact Or.inr (List.mem_of_mem_filter he)
      · rw [List.mem_singleton.mp he]
        exact Or.inl rfl
    · intro e he _ hnL
      rw [hWf]
      exact List.mem_append_left _ (List.mem_filter.mpr ⟨he, by simp [hnL]⟩)
  | some e =>
    cases hrec : owns_record Lx e.content with
    | false =>
      have h1 := attempt_steal env hff fn X Lx Lf readonly l w e hl hrec (by omega)
      have hX2 : (⟨w.files.filter (fun e => !same_file X e), w.next_ino, w.clock,
          .usleep :: .random :: .unlink X :: .read X Lx.length :: .malloc (Lx.length + 1) ::
            .open_rdwr X :: .open_excl X :: w.trace⟩ : World).has X = false := by
        rw [has_eq_any, List.any_eq_false]
        intro e1 he1
        have := (List.mem_filter.mp he1).2
        simpa using this
      obtain ⟨l1, W, hs, hsx, _, _, ⟨i, hWf⟩, hWc, hWo, htry⟩ := excl_phase_any env hff fn X Lx Lf
        true readonly
        { l with retry_attempts := l.retry_attempts + 1, stealx := true,
                 status := LOCK_EXLOCK_OPEN }
        ⟨w.files.filter (fun e => !same_file X e), w.next_ino, w.clock,
          .usleep :: .random :: .unlink X :: .read X Lx.length :: .malloc (Lx.length + 1) ::
            .open_rdwr X :: .open_excl X :: w.trace⟩ hX2 hk hdX hdLx (by simp only; omega)
      refine ⟨l1, W, hs, fun _ => hsx, hWc, ?_, ?_, ?_, ?_⟩
      · rw [hWo]
        simp [World.overruns, Call.is_overrun]
      · intro e1 he1
        rw [hWf] at he1
        rcases List.mem_append.mp he1 with he1 | he1
        · exact Or.inr (List.mem_of_mem_filter (List.mem_of_mem_filter he1))
        · rw [List.mem_singleton.mp he1]
          exact Or.inl rfl
      · intro e1 he1 hnX hnL
        rw [hWf]
        exact List.mem_append_left _ (List.mem_filter.mpr
          ⟨List.mem_filter.mpr ⟨he1, by simp [hnX]⟩, by simp [hnL]⟩)
      · intro fuel a b hf
        rw [try_again, h1]
        exact htry fuel a b hf
    | true =>
      obtain ⟨W, hWc, hWo, hP1, hP2, h | ⟨h, hX2, hLx2⟩⟩ := attempt_own env hff fn X Lx Lf true
        readonly l w e hl hrec hdX hdLx (by omega)
      · refine ⟨{ l with retry_attempts := l.retry_attempts + 2, status := LOCK_OK }, W, rfl, ?_,
          hWc, hWo, hP1, hP2, ?_⟩
        · rintro ⟨e1, he1, hn⟩
          cases he1
          rw [hrec] at hn
          cases hn
        · intro fuel a b hf
          rw [try_again, h, hf]
      · have h2 := excl_phase_ff env hff fn X Lx Lf true readonly
          { l with retry_attempts := l.retry_attempts + 2, status := LOCK_EINODE } W hX2 hLx2 hk
          hdX hdLx (by simp only; omega)
        refine ⟨{ l with retry_attempts := l.retry_attempts + 2 + 2, status := LOCK_OK },
          excl_world X Lx W, rfl, ?_, hWc, ?_, ?_, ?_, ?_⟩
        · rintro ⟨e1, he1, hn⟩
          cases he1
          rw [hrec] at hn
          cases hn
        · rw [← hWo]
          simp [excl_world, World.overruns, Call.is_overrun]
        · intro e1 he1
          simp only [excl_world, List.mem_append, List.mem_singleton] at he1
          rcases he1 with he1 | he1
          · exact hP1 e1 he1
          · rw [he1]
            exact Or.inl rfl
        · intro e1 he1 hnX hnL
          simp only [excl_world, List.mem_append, List.mem_singleton]
          exact Or.inl (hP2 e1 he1 hnX hnL)
        · intro fuel a b hf
          rw [try_again, h]
          simp only
          rw [try_again, h2, hf]
/-! ## The forcing scanner without faults -/

theorem has_of_subset {w1 w : World} (h : ∀ e ∈ w1.files, e ∈ w.files) (q : Str)
    (hq : w.has q = false) : w1.has q = false := by
  rw [has_eq_any, List.any_eq_false]
  intro e he
  have := not_same_file_of_not_has hq e (h e he)
  simp [this]

theorem listing_subset {w1 w : World} (h : ∀ e ∈ w1.files, e ∈ w.files) (X : Str) :
    ∀ d ∈ listing X w1, d ∈ listing X w := by
  intro d hd
  obtain ⟨e, he, rfl⟩ := List.mem_map.mp hd
  obtain ⟨he1, he2⟩ := List.mem_filter.mp he
  exact List.mem_map.mpr ⟨e, List.mem_filter.mpr ⟨h e he1, he2⟩, rfl⟩

/-- The `readdir` loop of a forcing `lock_holder` when every name it builds
fits the chunk `uname`: no conflict is reported, `*stole` is set as soon as
one entry is looked at, every entry looked at is unlinked and nothing is
created. -/
theorem scan_dir_force (env : Env) (hff : env.fault_free) (fn X Lf dirname : Str) (room : Nat)
    (readonly : Bool) (eval : Str → Bool → Bool) :
    ∀ (names : List Str) (stole : Bool) (w : World),
    (∀ d ∈ names, scanned fn X Lf d = true →
      (dirname ++ "/".toList ++ d).length + 1 ≤ room) →
    ∃ w1, scan_dir env (base_of fn) (base_of X) (base_of Lf) dirname room true readonly eval names
        stole w = (false, stole || names.any (scanned fn X Lf), w1) ∧
      w1.clock = w.clock ∧ w1.overruns = w.overruns ∧ (∀ e ∈ w1.files, e ∈ w.files) ∧
      ∀ d ∈ names, scanned fn X Lf d = true →
        w1.has (dirname ++ "/".toList ++ d) = false := by
  intro names
  induction names with
  | nil =>
    intro stole w _
    exact ⟨w, by simp [scan_dir], rfl, rfl, fun e he => he, by simp⟩
  | cons d rest ih =>
    intro stole w hfit
    have hfit2 : ∀ d2 ∈ rest, scanned fn X Lf d2 = true →
        (dirname ++ "/".toList ++ d2).length + 1 ≤ room :=
      fun d2 hd2 => hfit d2 (List.mem_cons_of_mem _ hd2)
    by_cases hc : d ≠ base_of fn ∧ d ≠ base_of X ∧ d ≠ base_of Lf ∧
        (base_of fn).isPrefixOf d = true
    · have hsc : scanned fn X Lf d = true := by
        simp [scanned, hc.1, hc.2.1, hc.2.2.1, hc.2.2.2]
      have hb : build_uname room dirname d w = w := by
        unfold build_uname
        rw [if_pos (hfit d (List.mem_cons_self _ _) hsc)]
      obtain ⟨w1, h1, hc1, ho1, hs1, hr1⟩ :=
        ih true (unlink env (dirname ++ "/".toList ++ d) w).2 hfit2
      have hsub : ∀ e ∈ (unlink env (dirname ++ "/".toList ++ d) w).2.files, e ∈ w.files := by
        rw [unlink_files_ff env hff]
        exact fun e he => List.mem_of_mem_filter he
      have hclk : (unlink env (dirname ++ "/".toList ++ d) w).2.clock = w.clock :=
        unlink_clock env w _
      have hov : (unlink env (dirname ++ "/".toList ++ d) w).2.overruns = w.overruns :=
        stable_unlink (stable_overruns w.overruns) env w _ trivial rfl
      refine ⟨w1, ?_, by rw [hc1, hclk], by rw [ho1, hov], fun e he => hsub e (hs1 e he), ?_⟩
      · rw [scan_dir, if_pos hc, hb]
        simp only [↓reduceIte, h1, List.any_cons, hsc]
        simp
      · intro d2 hd2 hs2
        rcases List.mem_cons.mp hd2 with rfl | hd2
        · apply has_of_subset hs1
          rw [unlink_has]
          simp [hff _ _]
        · exact hr1 d2 hd2 hs2
    · have hsc : scanned fn X Lf d = false := by
        rw [Bool.eq_false_iff]
        intro h
        apply hc
        simp only [scanned, Bool.and_eq_true, decide_eq_true_eq] at h
        exact ⟨h.1.1, h.1.2.1, h.1.2.2, h.2⟩
      obtain ⟨w1, h1, hc1, ho1, hs1, hr1⟩ := ih stole w hfit2
      refine ⟨w1, ?_, hc1, ho1, hs1, ?_⟩
      · rw [scan_dir, if_neg hc, h1]
        simp [hsc]
      · intro d2 hd2 hs2
        rcases List.mem_cons.mp hd2 with rfl | hd2
        · rw [hsc] at hs2
          exact absurd hs2 (by decide)
        · exact hr1 d2 hd2 hs2

/-- A forcing `lock_holder` when no call fails, the chunk of `dirname` is clean,
the directory is not the one with the empty name and every name fits. -/
theorem lock_holder_force (env : Env) (hff : env.fault_free) (hcl : env.clean) (fn X Lf : Str)
    (hdir : dir_of X ≠ []) (readonly : Bool) (eval : Str → Bool → Bool) (w : World)
    (hfit : ∀ d ∈ ".".toList :: "..".toList :: listing X w, scanned fn X Lf d = true →
      (dir_of X ++ "/".toList ++ d).length + 1 ≤ Lf.length + 8) :
    ∃ w1, lock_holder env fn X Lf true readonly eval w =
        (false, (".".toList :: "..".toList :: listing X w).any (scanned fn X Lf), w1) ∧
      w1.clock = w.clock ∧ w1.overruns = w.overruns ∧ (∀ e ∈ w1.files, e ∈ w.files) ∧
      ∀ d ∈ listing X w, scanned fn X Lf d = true →
        w1.has (dir_of X ++ "/".toList ++ d) = false := by
  rw [lock_holder_eq]
  simp only [hff _ _, hcl _, dirname_of_nil, hdir, Bool.false_eq_true, or_self, ↓reduceIte]
  obtain ⟨w1, h1, hc1, ho1, hs1, hr1⟩ := scan_dir_force env hff fn X Lf (dir_of X)
    (Lf.length + 8) readonly eval
    (".".toList :: "..".toList ::
      (w.files.filter (fun e => e.dir == dir_of X)).map (fun e => e.name)) false
    (((w.log (.malloc X.length)).log (.malloc (Lf.length + 8))).log (.opendir (dir_of X)))
    hfit
  refine ⟨w1, ?_, hc1, ?_, hs1, ?_⟩
  · rw [h1]
    simp [listing]
  · rw [ho1]
    simp [overruns_log, Call.is_overrun]
  · intro d hd
    exact hr1 d (List.mem_cons_of_mem _ (List.mem_cons_of_mem _ hd))

/-- `finish` of a forcing `lock` without faults, reached with status `LOCK_OK`
while the caller's `L_f` is absent: both scans unlink what they look at, then
`L_f` is written. -/
theorem finish_force (env : Env) (hff : env.fault_free) (hcl : env.clean) (fn X Lf : Str)
    (hdir : dir_of X ≠ []) (hdL : is_dot (base_of Lf) = false) (readonly : Bool)
    (l : Locals) (W : World) (hs : l.status = LOCK_OK) (hLf : W.has Lf = false)
    (hfit : ∀ d ∈ ".".toList :: "..".toList :: listing X W, scanned fn X Lf d = true →
      (dir_of X ++ "/".toList ++ d).length + 1 ≤ Lf.length + 8) :
    ∃ sr W1, finish env fn X Lf true readonly l W =
        .leave { l with
          stealw := (".".toList :: "..".toList :: listing X W).any (scanned fn X Lf),
          stealr := sr } W1 ∧
      W1.clock = W.clock ∧ W1.overruns = W.overruns ∧ W1.has Lf = true ∧
      (∀ e ∈ W1.files, e ∈ W.files ∨ (e.dir, e.name) = key Lf) ∧
      ∀ d ∈ listing X W, scanned fn X Lf d = true →
        key (dir_of X ++ "/".toList ++ d) ≠ key Lf →
        W1.has (dir_of X ++ "/".toList ++ d) = false := by
  obtain ⟨w2, h2, hc2, ho2, hs2, hr2⟩ :=
    lock_holder_force env hff hcl fn X Lf hdir readonly writer_eval (W.log (.lstat Lf)) hfit
  have hfit2 : ∀ d ∈ ".".toList :: "..".toList :: listing X w2, scanned fn X Lf d = true →
      (dir_of X ++ "/".toList ++ d).length + 1 ≤ Lf.length + 8 := by
    intro d hd
    apply hfit
    rcases List.mem_cons.mp hd with h | hd
    · rw [h]; exact List.mem_cons_self _ _
    rcases List.mem_cons.mp hd with h | hd
    · rw [h]; exact List.mem_cons_of_mem _ (List.mem_cons_self _ _)
    · exact List.mem_cons_of_mem _ (List.mem_cons_of_mem _ (listing_subset hs2 X d hd))
  obtain ⟨w3, h3, hc3, ho3, hs3, _⟩ :=
    lock_holder_force env hff hcl fn X Lf hdir readonly reader_eval w2 hfit2
  have hsub : ∀ e ∈ w3.files, e ∈ W.files := fun e he => hs2 e (hs3 e he)
  have hLf3 : w3.has Lf = false := has_of_subset hsub Lf hLf
  have hlk : ¬ (W.lookup Lf).isSome = true := by
    have : (W.lookup Lf).isSome = W.has Lf := rfl
    rw [this, hLf]
    decide
  refine ⟨(".".toList :: "..".toList :: listing X w2).any (scanned fn X Lf),
    (write env Lf Lf (open_creat env Lf w3).2).2, ?_, ?_, ?_, ?_, ?_, ?_⟩
  · rw [finish_eq, if_pos hs]
    simp only [lstat_ff env hff _ _ hdL, h2, h3]
    rw [if_neg hlk]
    simp only [Bool.false_eq_true, ↓reduceIte]
    rw [skip_scan_ff env hff _ _ _ (by exact hs)]
    rfl
  · rw [open_creat_ff env hff _ _ hLf3, write_ff env hff]
    simp [hc3, hc2]
  · rw [stable_write (stable_overruns w3.overruns) env _ Lf Lf trivial
      (stable_open_creat (stable_overruns w3.overruns) env w3 Lf trivial rfl), ho3, ho2]
    simp [overruns_log, Call.is_overrun]
  · rw [write_has, open_creat_has]
    simp [hff _ _]
  · intro e he
    rw [open_creat_ff env hff _ _ hLf3, write_ff env hff] at he
    have hwa : ∀ V : World, (V.write_at Lf Lf).files = V.files.map (refresh Lf V.clock) := by
      intro V; rfl
    rw [hwa] at he
    obtain ⟨e0, he0, rfl⟩ := List.mem_map.mp he
    simp only [log_files, World.create, List.mem_append, List.mem_singleton] at he0
    rcases he0 with he0 | he0
    · left
      have hn := not_same_file_of_not_has hLf3 e0 he0
      have : refresh Lf ((w3.log (Call.open_creat Lf)).create Lf |>.log (Call.write Lf Lf)).clock
          e0 = e0 := by
        simp [refresh, hn]
      rw [this]
      exact hsub e0 he0
    · right
      rw [refresh_key, he0]
      rfl
  · intro d hd hsc hk
    rw [write_has, open_creat_has]
    have h4 : w3.has (dir_of X ++ "/".toList ++ d) = false :=
      has_of_subset hs3 _ (hr2 d hd hsc)
    have h5 : ¬ key Lf = key (dir_of X ++ "/".toList ++ d) := Ne.symm hk
    simp only [h4, hff _ _, Bool.not_false, Bool.true_and, Bool.false_or, decide_eq_false_iff_not]
    exact h5
theorem dir_of_length (p : Str) : (dir_of p).length ≤ p.length + 1 := by
  unfold dir_of
  cases hs : strrchr '/' p with
  | none => simp
  | some pp =>
    obtain ⟨pre, post⟩ := pp
    obtain ⟨h, _⟩ := strrchr_some hs
    rw [h]
    simp
    omega

theorem base_of_no_slash (p : Str) : '/' ∉ base_of p := by
  unfold base_of
  cases hs : strrchr '/' p with
  | none => exact strrchr_none.mp hs
  | some pp =>
    obtain ⟨pre, post⟩ := pp
    exact (strrchr_some hs).2

theorem final_no_slash {T : Str} {e : Entry} (h : is_final T e) : '/' ∉ e.name := by
  obtain ⟨ro, _, host, owner, hh, ho, hn⟩ := h
  rw [hn, final_name]
  intro hc
  rcases List.mem_append.mp hc with hc | hc
  · exact base_of_no_slash T hc
  · exact not_mem_LFFL hh ho ro hc

/-- A final lock in a directory that does not hold the caller's `L_f` does not
carry its name. -/
theorem final_ne_own {T host owner : Str} {readonly : Bool} {w : World} {e : Entry}
    (hh : '/' ∉ host) (ho : '/' ∉ owner)
    (hLf : w.has (link_str T LFFL_FORMAT host owner readonly) = false) (he : e ∈ w.files)
    (hf : is_final T e) : e.name ≠ base_of (link_str T LFFL_FORMAT host owner readonly) := by
  intro hn
  have hkF := flink_key T host owner readonly hh ho
  obtain ⟨m, hm⟩ := hf
  have : same_file (link_str T LFFL_FORMAT host owner readonly) e = true := by
    rw [same_file_iff, hkF, hm.1, hn]
    exact congrArg (fun x => (dir_of T, x)) (congrArg Prod.snd hkF)
  have h2 := not_same_file_of_not_has hLf e he
  rw [this] at h2
  exact absurd h2 (by decide)

theorem lock_exit_force (env : Env) (X : Str) (l : Locals) (w : World)
    (hs : l.status = LOCK_OK) (hw : l.stealx = true ∨ l.stealw = true ∨ l.stealr = true) :
    lock_exit env X true l w =
      (LOCK_OK, (unlink env X (select env env.LEASE_TIME_SECS w)).2) := by
  simp [lock_exit, hs, hw]

theorem unlink_trace (env : Env) (w : World) (p : Str) :
    (unlink env p w).2.trace = .unlink p :: w.trace := by
  rw [unlink_eq]
  split <;> rfl

theorem lock_exit_files (env : Env) (hff : env.fault_free) (X : Str) (force : Bool) (l : Locals)
    (w : World) :
    (lock_exit env X force l w).2.files = w.files.filter (fun e => !same_file X e) := by
  unfold lock_exit
  simp only
  rw [unlink_files_ff env hff]
  split <;> rfl

/-- C5 (amended): force steals. Host name and owner without `'/'`, every call
succeeding, the chunks that hold `dirname` clean, the target not directly in
`/`, the caller's own `L_f` absent, and every name the scan looks at short
enough for the chunk `uname` of `strlen(L_f) + 8` bytes. On every such
directory, whatever final locks for `T` and whatever `X(T)` it holds,
`lock(T, owner, 1, readonly)` returns `LOCK_OK`; none of the final locks that
were there exists any more, the only final lock for `T` left is the caller's
`L_f`, which exists; and if there was a final lock for `T`, or an `X(T)` with
somebody else's record, the call has slept `LEASE_TIME_SECS` in `select`
before returning. -/
theorem C5_force_steals (env : Env) (hff : env.fault_free) (hcl : env.clean) (T owner : Str)
    (hdir : dir_of T ≠ []) (readonly : Bool) (w : World)
    (hh : '/' ∉ env.hostname) (ho : '/' ∉ owner)
    (hLf : w.has (link_str T LFFL_FORMAT env.hostname owner readonly) = false)
    (hfit : ∀ e ∈ w.files, e.dir = dir_of T →
      scanned T (lockfn_str T) (link_str T LFFL_FORMAT env.hostname owner readonly) e.name = true →
      (dir_of T ++ "/".toList ++ e.name).length + 1 ≤
        (link_str T LFFL_FORMAT env.hostname owner readonly).length + 8) :
    ∃ w1, lock env (some T) (some owner) true readonly w = some (LOCK_OK, w1) ∧
      (∀ e ∈ w.files, is_final T e → ∀ e2 ∈ w1.files, (e2.dir, e2.name) ≠ (e.dir, e.name)) ∧
      (∀ e2 ∈ w1.files, is_final T e2 →
        (e2.dir, e2.name) = key (link_str T LFFL_FORMAT env.hostname owner readonly)) ∧
      w1.has (link_str T LFFL_FORMAT env.hostname owner readonly) = true ∧
      (((∃ e ∈ w.files, is_final T e) ∨
          ∃ e, w.lookup (lockfn_str T) = some e ∧
            owns_record (link_str T LFXL_FORMAT env.hostname owner readonly) e.content = false) →
        Call.select env.LEASE_TIME_SECS ∈ w1.trace ∧
        w1.clock = w.clock + env.LEASE_TIME_SECS) := by
  have hkX := key_lockfn_ne_link T LFXL_FORMAT env.hostname owner readonly (Or.inl rfl)
  have hkF := key_lockfn_ne_link T LFFL_FORMAT env.hostname owner readonly (Or.inr rfl)
  have hkeyX := lockfn_key T
  have hkeyLx := xlink_key T env.hostname owner readonly hh ho
  have hkeyLf := flink_key T env.hostname owner readonly hh ho
  have hdX := not_dot_lockfn T
  have hdLx := not_dot_xlink T env.hostname owner readonly
  have hdLf := not_dot_flink T env.hostname owner readonly
  have hroom : (dir_of T).length + 4 ≤
      (link_str T LFFL_FORMAT env.hostname owner readonly).length + 8 := by
    have h1 := dir_of_length T
    have h2 := (link_str_length T env.hostname owner readonly).2
    omega
  generalize hXd : lockfn_str T = X at *
  generalize hLxd : link_str T LFXL_FORMAT env.hostname owner readonly = Lx at *
  generalize hLfd : link_str T LFFL_FORMAT env.hostname owner readonly = Lf at *
  have hdirX : dir_of X = dir_of T := congrArg Prod.fst hkeyX
  obtain ⟨l1, W, hs, hsx, hWc, hWo, hP1, hP2, htry⟩ := excl_phase_force env hff T X Lx Lf
    readonly ⟨0, LOCK_OK, false, false, false⟩ (names_world env T owner w) hkX hdX hdLx
    (by simp [RETRY_MAX])
  have hnf : (names_world env T owner w).files = w.files := rfl
  have hnc : (names_world env T owner w).clock = w.clock := rfl
  have hnl : ∀ p, (names_world env T owner w).lookup p = w.lookup p := fun _ => rfl
  rw [hnf] at hP1 hP2
  rw [hnc] at hWc
  rw [hnl] at hsx
  rw [names_world_overruns] at hWo
  have hWLf : W.has Lf = false := by
    rw [has_eq_any, List.any_eq_false]
    intro e he
    rcases hP1 e he with h | h
    · intro hc
      rw [same_file_iff, h] at hc
      exact hkF hc
    · have := not_same_file_of_not_has hLf e h
      simp [this]
  have hfitW : ∀ d ∈ ".".toList :: "..".toList :: listing X W, scanned T X Lf d = true →
      (dir_of X ++ "/".toList ++ d).length + 1 ≤ Lf.length + 8 := by
    intro d hd hsc
    rw [hdirX]
    rcases List.mem_cons.mp hd with h | hd
    · rw [h]
      simp only [List.length_append]
      have h1 : "/".toList.length = 1 := rfl
      have h2 : ".".toList.length = 1 := rfl
      omega
    rcases List.mem_cons.mp hd with h | hd
    · rw [h]
      simp only [List.length_append]
      have h1 : "/".toList.length = 1 := rfl
      have h2 : "..".toList.length = 2 := rfl
      omega
    · obtain ⟨e, he, rfl⟩ := List.mem_map.mp hd
      obtain ⟨he1, he2⟩ := List.mem_filter.mp he
      have hed : e.dir = dir_of T := by
        rw [← hdirX]
        simpa using he2
      rcases hP1 e he1 with h | h
      · exfalso
        have hn : e.name = base_of X := congrArg Prod.snd h
        simp [scanned, hn] at hsc
      · exact hfit e h hed hsc
  obtain ⟨sr, W1, hfin, hc1, ho1, hLf1, hsub1, hrem⟩ :=
    finish_force env hff hcl T X Lf (by rw [hdirX]; exact hdir) hdLf readonly l1 W hs hWLf hfitW
  -- every final lock of the directory is looked at by the first scan
  have hseen : ∀ e ∈ w.files, is_final T e →
      e.name ∈ listing X W ∧ scanned T X Lf e.name = true ∧
      key (dir_of X ++ "/".toList ++ e.name) = (e.dir, e.name) ∧ (e.dir, e.name) ≠ key Lf := by
    intro e he hf
    have hne : e.name ≠ base_of Lf := by
      rw [← hLfd]
      exact final_ne_own hh ho (by rw [hLfd]; exact hLf) he hf
    have hd : e.dir = dir_of T := by
      obtain ⟨m, hm⟩ := hf
      exact hm.1
    have hnLx : same_file Lx e = false := by
      rw [Bool.eq_false_iff, ne_eq, same_file_iff, hkeyLx]
      intro hc
      exact final_ne_xlink hf env.hostname owner readonly (congrArg Prod.snd hc)
    have hnX : same_file X e = false := by
      rw [Bool.eq_false_iff, ne_eq, same_file_iff, hkeyX]
      intro hc
      exact final_ne_lockfn hf (congrArg Prod.snd hc)
    refine ⟨?_, ?_, ?_, ?_⟩
    · unfold listing
      exact List.mem_map.mpr ⟨e, List.mem_filter.mpr ⟨hP2 e he hnX hnLx, by simp [hd, hdirX]⟩, rfl⟩
    · rw [← hXd]
      exact final_scanned hf hne
    · rw [key_join _ _ (final_no_slash hf), hdirX, hd]
    · rw [hkeyLf]
      intro hc
      apply hne
      exact (congrArg Prod.snd hc : e.name = final_name T env.hostname owner readonly).trans
        (congrArg Prod.snd hkeyLf).symm
  have hov : W1.overruns = w.overruns := ho1.trans hWo
  have hrun := htry (RETRY_MAX - 1) _ _ hfin
  have hfuel : RETRY_MAX - 1 + 3 = RETRY_MAX + 2 := by decide
  rw [hfuel] at hrun
  rw [lock_ff_any env hff, hXd, hLxd, hLfd, hrun]
  simp only [Option.some_bind, hov, ↓reduceIte]
  generalize hl2 : ({ l1 with
      stealw := (".".toList :: "..".toList :: listing X W).any (scanned T X Lf),
      stealr := sr } : Locals) = l2
  have hs2 : l2.status = LOCK_OK := by rw [← hl2]; exact hs
  have hw1 : ∀ e2 ∈ (lock_exit env X true l2 W1).2.files, e2 ∈ W1.files := by
    rw [lock_exit_files env hff]
    exact fun e2 he2 => List.mem_of_mem_filter he2
  have hgone : ∀ e ∈ w.files, is_final T e →
      ∀ e2 ∈ (lock_exit env X true l2 W1).2.files, (e2.dir, e2.name) ≠ (e.dir, e.name) := by
    intro e he hf e2 he2 hc
    obtain ⟨h1, h2, h3, h4⟩ := hseen e he hf
    have h5 := hrem e.name h1 h2 (by rw [h3]; exact h4)
    have h6 := not_same_file_of_not_has h5 e2 (hw1 e2 he2)
    rw [Bool.eq_false_iff, ne_eq, same_file_iff, h3] at h6
    exact h6 hc
  refine ⟨(lock_exit env X true l2 W1).2, ?_, hgone, ?_, ?_, ?_⟩
  · have : (lock_exit env X true l2 W1).1 = LOCK_OK := hs2
    rw [← this]
  · intro e2 he2 hf2
    rcases hsub1 e2 (hw1 e2 he2) with h | h
    · rcases hP1 e2 h with h | h
      · exfalso
        apply final_ne_lockfn hf2
        exact (congrArg Prod.snd h).trans (congrArg Prod.snd hkeyX)
      · exact absurd rfl (hgone e2 h hf2 e2 he2)
    · exact h
  · rw [has_eq_any, lock_exit_files env hff, any_filter_other hkF, ← has_eq_any]
    exact hLf1
  · intro hst
    have hsteal : l2.stealx = true ∨ l2.stealw = true ∨ l2.stealr = true := by
      rw [← hl2]
      rcases hst with ⟨e, he, hf⟩ | hx
      · right; left
        obtain ⟨h1, h2, _, _⟩ := hseen e he hf
        exact List.any_eq_true.mpr
          ⟨e.name, List.mem_cons_of_mem _ (List.mem_cons_of_mem _ h1), h2⟩
      · left
        exact hsx hx
    rw [lock_exit_force env X l2 W1 hs2 hsteal]
    constructor
    · rw [unlink_trace]
      simp [select, tick, World.log]
    · rw [unlink_clock]
      simp [select, tick, World.log, hc1, hWc]
/-- C5 as stated fails. (1) With the reader locks of `001` and `002` on
`/tmp/f` in place, the forcing `lock("/tmp/f", "001", 1, 1)` of owner `001`
finds its own `L_f`, skips the scans and returns `LOCK_OK`: the foreign lock of
`002` still exists and no `select` was made. (2) On the empty directory (no
foreign lock at all) a forcing `lock` returns `LOCK_OK` without a `select`.
(3) When the allocations fail the forcing `lock` returns `LOCK_ENOMEM` and the
foreign lock stays. (4) Owner `002` is refused the writer lock that `001`
holds and asks again with `force`: with fresh chunks the lock of `001` is
removed and the call sleeps, but when the two chunks of `dirname` in the second
call are recycled ones, both scans fail to open the directory and the call
returns `LOCK_OK` at once, with the lock of `001` still there. (5) For the
target `/f`, directly in `/`, `dirname` is the empty name, no scan opens it,
and the lock of `001` stays as well. (6) When the foreign lock carries an owner
id that is nine bytes longer than the caller's, the name built for `unlink`
does not fit the chunk `uname`, and the call has no defined result. -/
theorem C5_counterexample :
    (lock env0 (some "/tmp/f".toList) (some "001".toList) true true w_readers).map
      (fun r => (r.1, r.2.has "/tmp/f.xenlk.h.002.fr".toList,
        decide (Call.select env0.LEASE_TIME_SECS ∈ r.2.trace), r.2.clock)) =
      some (LOCK_OK, true, false, w_readers.clock) ∧
    (lock env0 (some "/tmp/f".toList) (some "001".toList) true false w_empty).map
      (fun r => (r.1, decide (Call.select env0.LEASE_TIME_SECS ∈ r.2.trace), r.2.clock)) =
      some (LOCK_OK, false, w_empty.clock) ∧
    (lock env_mfail (some "/tmp/f".toList) (some "002".toList) true false w_held).map
      (fun r => (r.1, r.2.files)) = some (LOCK_ENOMEM, w_held.files) ∧
    (((lock env0 (some "/tmp/f".toList) (some "002".toList) false false w_held).bind
        (fun r => lock env0 (some "/tmp/f".toList) (some "002".toList) true false r.2)).map
      (fun r => (r.1, r.2.files.map (fun e => e.name),
        decide (Call.select 30 ∈ r.2.trace), r.2.clock)) =
      some (LOCK_OK, ["f.xenlk.h.002.fw".toList], true, 130) ∧
     ((lock (env_recycled [28, 31]) (some "/tmp/f".toList) (some "002".toList) false false
          w_held).bind
        (fun r => lock (env_recycled [28, 31]) (some "/tmp/f".toList) (some "002".toList) true
          false r.2)).map
      (fun r => (r.1, r.2.files.map (fun e => e.name),
        decide (Call.select 30 ∈ r.2.trace), r.2.clock)) =
      some (LOCK_OK, ["f.xenlk.h.001.fw".toList, "f.xenlk.h.002.fw".toList], false, 100)) ∧
    (lock env0 (some "/f".toList) (some "002".toList) true false w_root).map
      (fun r => (r.1, r.2.files.map (fun e => e.name),
        decide (Call.select 30 ∈ r.2.trace), r.2.clock)) =
      some (LOCK_OK, ["f.xenlk.h.001.fw".toList, "f.xenlk.h.002.fw".toList], false,
        w_root.clock) ∧
    ((lock env0 (some "/tmp/f".toList) (some "002".toList) false false w_long).map
        (fun r => r.1) = some LOCK_EHELD_WR ∧
     lock env0 (some "/tmp/f".toList) (some "002".toList) true false w_long = none) := by
  refine ⟨by decide, by decide, by decide, ⟨by decide, by decide⟩, by decide, by decide, by decide⟩

/-- C5 at a concrete input: owner `002` forces the writer lock on `/tmp/f` that
owner `001` holds. -/
theorem C5_force_steals_witness :
    env0.fault_free ∧ env0.clean ∧ (∃ e ∈ w_held.files, is_final "/tmp/f".toList e) ∧
    ∃ w1, lock env0 (some "/tmp/f".toList) (some "002".toList) true false w_held =
        some (LOCK_OK, w1) ∧
      w1.has "/tmp/f.xenlk.h.001.fw".toList = false ∧
      w1.has "/tmp/f.xenlk.h.002.fw".toList = true ∧
      Call.select 30 ∈ w1.trace ∧ w1.clock = 130 := by
  have he0 : (⟨"/tmp".toList, "f.xenlk.h.001.fw".toList, 2, "/tmp/f.xenlk.h.001.fw".toList, 100⟩ :
      Entry) ∈ w_held.files := List.mem_singleton.mpr rfl
  have hf0 : is_final "/tmp/f".toList
      ⟨"/tmp".toList, "f.xenlk.h.001.fw".toList, 2, "/tmp/f.xenlk.h.001.fw".toList, 100⟩ :=
    ⟨false, by decide, "h".toList, "001".toList, by decide, by decide, by decide⟩
  refine ⟨env0_fault_free, fun _ => rfl, ⟨_, he0, hf0⟩, ?_⟩
  obtain ⟨w1, hl, hgone, _, hown, hquiet⟩ := C5_force_steals env0 env0_fault_free (fun _ => rfl)
    "/tmp/f".toList "002".toList (by decide) false w_held (by decide) (by decide) (by decide)
    (by decide)
  obtain ⟨hsel, hclk⟩ := hquiet (Or.inl ⟨_, he0, hf0⟩)
  refine ⟨w1, hl, ?_, hown, hsel, hclk⟩
  rw [has_eq_any, List.any_eq_false]
  intro e2 he2
  have h := hgone _ he0 hf0 e2 he2
  rw [Bool.not_eq_true, Bool.eq_false_iff, ne_eq, same_file_iff]
  have hk : key "/tmp/f.xenlk.h.001.fw".toList =
      ("/tmp".toList, "f.xenlk.h.001.fw".toList) := by decide
  rw [hk]
  exact h

/-- The quiet time is also kept after a steal by the second scan alone: when
the `opendir` of the first scan of `lock("/tmp/f", "002", 1, 0)` fails, the
second scan removes the writer lock of `001`, and the call sleeps
`LEASE_TIME_SECS` before it returns. -/
theorem quiet_after_second_scan :
    (lock env_ofail (some "/tmp/f".toList) (some "002".toList) true false w_held).map
      (fun r => (r.1, r.2.files.map (fun e => e.name),
        decide (Call.select 30 ∈ r.2.trace), r.2.clock)) =
      some (LOCK_OK, ["f.xenlk.h.002.fw".toList], true, 130) := by
  decide
/-! ## Parameter checks -/

section badparm
variable (env : Env) (fn X Lx Lf : Str) (force readonly : Bool)

end badparm

/-- C13, the scanner matches on the prefix `basename(T)` alone. In `/tmp` there
is the target `/tmp/f2` and its writer lock `/tmp/f2.xenlk.h.009.fw`; neither
name starts with `f.xenlk`, so nothing is a lock file for `/tmp/f`. Yet the
non-forcing `lock_holder` for `/tmp/f` reports a writer conflict (and `lock`
answers `LOCK_EHELD_WR`), and the forcing `lock_holder` unlinks both files, the
other target itself included, and sets `*stole` (and a forcing `lock` leaves
only its own final lock in the directory). -/
theorem C13_prefix_match :
    (∀ e ∈ w_neighbour.files, ¬ ("f.xenlk".toList <+: e.name)) ∧
    (lock_holder env0 "/tmp/f".toList "/tmp/f.xenlk".toList "/tmp/f.xenlk.h.001.fw".toList
      false false writer_eval w_neighbour).1 = true ∧
    ((lock_holder env0 "/tmp/f".toList "/tmp/f.xenlk".toList "/tmp/f.xenlk.h.001.fw".toList
      true false writer_eval w_neighbour).2.1,
     (lock_holder env0 "/tmp/f".toList "/tmp/f.xenlk".toList "/tmp/f.xenlk.h.001.fw".toList
      true false writer_eval w_neighbour).2.2.files) = (true, []) ∧
    (lock env0 (some "/tmp/f".toList) (some "001".toList) false false w_neighbour).map
      Prod.fst = some LOCK_EHELD_WR ∧
    (lock env0 (some "/tmp/f".toList) (some "001".toList) true false w_neighbour).map
      (fun r => (r.1, r.2.files.map (fun e => (e.dir, e.name)))) =
      some (LOCK_OK, [("/tmp".toList, "f.xenlk.h.001.fw".toList)]) := by
  decide
/-! ## A foreign exclusive lock file -/

/-- One pass through `try_again` of a non-forcing `lock` in front of an `X(T)`
that holds somebody else's record, allocations succeeding: the exclusive
create is refused, and whether or not the file can be opened and read, nothing
changes in the directory. -/
theorem attempt_refused (env : Env) (hM : ∀ n k, env.fault n (.malloc k) = false)
    (fn X Lx Lf : Str) (readonly : Bool) (l : Locals) (w : World) (e : Entry)
    (he : w.lookup X = some e) (hrec : owns_record Lx e.content = false)
    (hr : l.retry_attempts ≤ RETRY_MAX) :
    ∃ t, attempt env fn X Lx Lf false readonly l w =
        .again { l with retry_attempts := l.retry_attempts + 1, status := LOCK_EXLOCK_OPEN }
          ⟨w.files, w.next_ino, w.clock, t ++ w.trace⟩ ∧
      t.all (refused_call X) = true ∧ t.count (.open_excl X) = 1 := by
  have hX : w.has X = true := by simp [World.has, he]
  have hr1 : ¬ l.retry_attempts > RETRY_MAX := by omega
  have h1 : open_excl env X w = (false, w.log (.open_excl X)) := by
    rw [open_excl_eq, if_pos (Or.inr hX)]
  rw [attempt_eq, if_neg hr1, h1]
  simp only [Bool.false_eq_true, ↓reduceIte, open_rdwr_eq, log_has, hX, Bool.and_true,
    malloc_fst, malloc_snd, hM _ _, Bool.not_false, read_eq, log_lookup, he, Option.map_some',
    force_lock_eq, XSLEEP_eq, Bool.or_false]
  simp only [owns_record, Bool.and_eq_false_iff, decide_eq_false_iff_not] at hrec
  by_cases ho : env.fault (w.log (.open_excl X)).trace.length (.open_rdwr X) = true
  · simp only [ho, Bool.not_true, Bool.false_eq_true, ↓reduceIte]
    exact ⟨[.usleep, .random, .open_rdwr X, .open_excl X], rfl, by simp [refused_call],
      by simp⟩
  · simp only [ho, Bool.not_false, ↓reduceIte]
    by_cases hrd : env.fault ((((w.log (.open_excl X)).log (.open_rdwr X)).log
        (.malloc (Lx.length + 1)))).trace.length (.read X Lx.length) = true
    · simp only [hrd, ↓reduceIte]
      exact ⟨[.usleep, .random, .read X Lx.length, .malloc (Lx.length + 1), .open_rdwr X,
        .open_excl X], rfl, by simp [refused_call], by simp⟩
    · simp only [hrd, Bool.false_eq_true, ↓reduceIte]
      refine ⟨[.usleep, .random, .read X Lx.length, .malloc (Lx.length + 1), .open_rdwr X,
        .open_excl X], ?_, by simp [refused_call], by simp⟩
      by_cases h1 : (e.content.take Lx.length).length = Lx.length
      · have h2 : ¬ (e.content.take Lx.length).take (Lx.length - 1) = Lx.take (Lx.length - 1) := by
          rcases hrec with h | h
          · exact absurd h1 h
          · exact h
        rw [if_neg (by simpa using h1), if_neg h2]
        simp [World.log]
      · rw [if_pos h1]
        simp [World.log]

/-- The retries of a non-forcing `lock` in front of a foreign `X(T)`: every
remaining pass is refused, the directory stays as it is, and the end of the
function is reached with `LOCK_EXLOCK_OPEN`. -/
theorem try_again_refused (env : Env) (hM : ∀ n k, env.fault n (.malloc k) = false)
    (fn X Lx Lf : Str) (readonly : Bool) (e : Entry)
    (hrec : owns_record Lx e.content = false) :
    ∀ (d : Nat) (l : Locals) (w : World), w.lookup X = some e →
      l.retry_attempts + d = RETRY_MAX + 1 → (d = 0 → l.status = LOCK_EXLOCK_OPEN) →
      ∃ t, try_again env fn X Lx Lf false readonly (d + 1) l w =
          some (⟨RETRY_MAX + 2, LOCK_EXLOCK_OPEN, l.stealx, l.stealw, l.stealr⟩,
            ⟨w.files, w.next_ino, w.clock, t ++ w.trace⟩) ∧
        t.all (refused_call X) = true ∧ t.count (.open_excl X) = d := by
  intro d
  induction d with
  | zero =>
    intro l w _ hl hs
    have h1 : RETRY_MAX < l.retry_attempts := by omega
    have h2 : l.status ≠ LOCK_OK := by rw [hs rfl]; decide
    refine ⟨[], ?_, rfl, rfl⟩
    rw [try_again, attempt_exhausted env fn X Lx Lf false readonly l w h1 h2]
    have h3 : l.retry_attempts = RETRY_MAX + 1 := by omega
    simp [h3, hs rfl]
  | succ n ih =>
    intro l w he hl _
    obtain ⟨t1, h1, ha1, hc1⟩ :=
      attempt_refused env hM fn X Lx Lf readonly l w e he hrec (by omega)
    obtain ⟨t2, h2, ha2, hc2⟩ :=
      ih { l with retry_attempts := l.retry_attempts + 1, status := LOCK_EXLOCK_OPEN }
        ⟨w.files, w.next_ino, w.clock, t1 ++ w.trace⟩ he (by simp only; omega) (fun _ => rfl)
    refine ⟨t2 ++ t1, ?_, ?_, ?_⟩
    · rw [try_again, h1]
      simp only
      rw [h2]
      simp
    · rw [List.all_append, ha1, ha2]
      rfl
    · rw [List.count_append, hc1, hc2]

/-- A non-forcing `lock` whose name synthesis succeeds, in terms of its retry
loop. -/
theorem lock_named (env : Env) (hM : ∀ n k, env.fault n (.malloc k) = false)
    (hG : ∀ n, env.fault n .gethostname = false) (T owner : Str) (readonly : Bool) (w : World) :
    lock env (some T) (some owner) false readonly w =
      (try_again env T (lockfn_str T) (link_str T LFXL_FORMAT env.hostname owner readonly)
        (link_str T LFFL_FORMAT env.hostname owner readonly) false readonly (RETRY_MAX + 2)
        ⟨0, LOCK_OK, false, false, false⟩ (names_world env T owner w)).map
        (fun r => lock_exit env (lockfn_str T) false r.1 r.2) := by
  rw [lock_nonforce_eq]
  simp [create_lockfn_eq, create_lockfn_link_eq, hM _ _, hG _, names_world]

/-- C14 (amended): every return of `lock` after name synthesis unlinks `X(T)`.
If `X(T)` exists and its bytes do not pass the test for the caller's own
record, then a non-forcing `lock(T, owner, 0, readonly)` in which no
allocation and no `gethostname` fails and the `unlink` of `X(T)` is not
refused makes `RETRY_MAX + 1` passes, each with one exclusive create, which is
refused, and with no call but the create, the `open` for reading, the buffer,
the `read` and the random sleep, so that nothing is unlinked; it returns
`LOCK_EXLOCK_OPEN`, and its last call unlinks `X(T)`: on return `X(T)` does
not exist and everything else in the directory, the final lock files
included, is as before. -/
theorem C14_foreign_exclusive_removed (env : Env) (T owner : Str) (readonly : Bool) (w : World)
    (e : Entry) (hM : ∀ n k, env.fault n (.malloc k) = false)
    (hG : ∀ n, env.fault n .gethostname = false)
    (hU : ∀ n, env.fault n (.unlink (lockfn_str T)) = false)
    (he : w.lookup (lockfn_str T) = some e)
    (hrec : owns_record (link_str T LFXL_FORMAT env.hostname owner readonly) e.content = false) :
    ∃ w1 t, lock env (some T) (some owner) false readonly w = some (LOCK_EXLOCK_OPEN, w1) ∧
      w1.trace = .unlink (lockfn_str T) :: (t ++ (names_world env T owner w).trace) ∧
      t.all (refused_call (lockfn_str T)) = true ∧
      t.count (.open_excl (lockfn_str T)) = RETRY_MAX + 1 ∧
      w1.has (lockfn_str T) = false ∧
      w1.files = w.files.filter (fun e => !same_file (lockfn_str T) e) ∧
      ∀ f ∈ w.files, is_final T f → f ∈ w1.files := by
  obtain ⟨t, hl, hall, hcount⟩ := try_again_refused env hM T (lockfn_str T)
    (link_str T LFXL_FORMAT env.hostname owner readonly)
    (link_str T LFFL_FORMAT env.hostname owner readonly) readonly e hrec (RETRY_MAX + 1)
    ⟨0, LOCK_OK, false, false, false⟩ (names_world env T owner w) he (by simp) (by simp)
  rw [lock_named env hM hG, hl]
  simp only [Option.map_some', lock_exit_nonforce]
  have hX : (⟨(names_world env T owner w).files, (names_world env T owner w).next_ino,
      (names_world env T owner w).clock, t ++ (names_world env T owner w).trace⟩ : World).has
        (lockfn_str T) = true := by
    have : (names_world env T owner w).has (lockfn_str T) = true := by
      simp [World.has, names_world, he]
    exact this
  have hfiles : (unlink env (lockfn_str T)
      ⟨(names_world env T owner w).files, (names_world env T owner w).next_ino,
        (names_world env T owner w).clock, t ++ (names_world env T owner w).trace⟩).2.files =
      w.files.filter (fun e => !same_file (lockfn_str T) e) := by
    rw [unlink_eq, if_neg (by simp [hU _, hX])]
    rfl
  refine ⟨_, t, rfl, ?_, hall, hcount, ?_, hfiles, ?_⟩
  · rw [unlink_trace]
  · rw [unlink_has]
    simp [hU _]
  · intro f hf hfin
    rw [hfiles]
    refine List.mem_filter.mpr ⟨hf, ?_⟩
    have hne : same_file (lockfn_str T) f = false := by
      rw [Bool.eq_false_iff, ne_eq, same_file_iff, lockfn_key]
      intro hc
      exact final_ne_lockfn hfin (congrArg Prod.snd hc)
    simp [hne]

/-- C14 as stated fails when a call fails. With the `X(T)` of owner `002` in
place and the allocation of the 22-byte buffer `buf` failing,
`lock("/tmp/f", "001", 0, 0)` returns `LOCK_ENOMEM` after its first pass, not
`LOCK_EXLOCK_OPEN`; and when the `unlink` of `/tmp/f.xenlk` is refused, it
returns `LOCK_EXLOCK_OPEN` and `X(T)` is still there. -/
theorem C14_counterexample :
    (lock (env_nomem 22) (some "/tmp/f".toList) (some "001".toList) false false w_foreign_x).map
      (fun r => (r.1, r.2.trace.count (.open_excl "/tmp/f.xenlk".toList))) =
      some (LOCK_ENOMEM, 1) ∧
    (lock env_ufail (some "/tmp/f".toList) (some "001".toList) false false w_foreign_x).map
      (fun r => (r.1, r.2.files)) = some (LOCK_EXLOCK_OPEN, w_foreign_x.files) := by
  refine ⟨by decide, by decide⟩

/-- C14 at a concrete input: owner `001` asks for the writer lock on `/tmp/f`
while the `X(T)` of owner `002` is in place. -/
theorem C14_foreign_exclusive_removed_witness :
    w_foreign_x.lookup (lockfn_str "/tmp/f".toList) =
      some ⟨"/tmp".toList, "f.xenlk".toList, 7, "/tmp/f.xenlk.h.002.xw".toList, 99⟩ ∧
    ∃ w1, lock env0 (some "/tmp/f".toList) (some "001".toList) false false w_foreign_x =
        some (LOCK_EXLOCK_OPEN, w1) ∧ w1.files = [] := by
  refine ⟨by decide, ?_⟩
  obtain ⟨w1, t, h1, _, _, _, _, h5, _⟩ := C14_foreign_exclusive_removed env0
    "/tmp/f".toList "001".toList false w_foreign_x
    ⟨"/tmp".toList, "f.xenlk".toList, 7, "/tmp/f.xenlk.h.002.xw".toList, 99⟩
    (fun _ _ => rfl) (fun _ => rfl) (fun _ => rfl) (by decide) (by decide)
  exact ⟨w1, h1, by rw [h5]; decide⟩
/-! ## The shared disk -/

theorem names_path_iff (p : Str) (l : Dirent) : names_path p l = true ↔ (l.dir, l.name) = key p := by
  simp [names_path, key]

theorem names_path_congr {p q : Str} (h : key p = key q) : names_path p = names_path q := by
  funext l
  rw [Bool.eq_iff_iff, names_path_iff, names_path_iff, h]

@[simp] theorem ino_put (d : Disk) (i : Nat) (s p : Str) : (d.put i s).ino p = d.ino p := rfl

@[simp] theorem bytes_unlink (d : Disk) (p : Str) (j : Nat) : (d.unlink p).bytes j = d.bytes j := rfl

set_option maxRecDepth 100000

/-- Why the records must not be mistaken for one another: the owner `1` reads
the record of the owner `1.xw` in `X(T)`, takes it for its own (`strncmp` over
the length of its own name less one), and enters the exclusive phase while
`1.xw` is in it. -/
theorem owner_prefix_enters :
    apart_ids "/tmp/f".toList ("h".toList, "1".toList) ("h".toList, "1.xw".toList) = false ∧
    (exec s_mistaken c_mistaken).procs.map (fun p => p.holds) = [true, true] := by
  decide

/-- The bound of `uname` in the steps of a forcing scan: the owner `002` forces
the writer lock on `/tmp/f` that an owner with a twelve-byte id holds; after
nine steps it is at its writer scan, passes `"."` and `".."`, and the name it
builds for the `unlink` of the foreign lock (30 bytes and the terminator) does
not fit the 29 bytes of `uname`. -/
theorem forced_scan_overruns :
    (exec (List.replicate 12 0) c_long).procs.map (fun p => p.pc) = [.lost] ∧
    (exec (List.replicate 40 0) c_long).procs.map (fun p => p.pc) = [.lost] := by
  refine ⟨by decide, by decide⟩

end Lock
